import Mathlib

/-!
# RepoAtlas — formal verification of the analysis core

This file gives a shallow embedding, in Lean 4, of the analysis core of the
RepoAtlas repository (Workspace Indexer, Language Packs, Architecture Reducer,
Scoring Engine) and proves or refutes the specification claims about it.

Modelling conventions, used throughout:

* JavaScript `Map<string, V>` is modelled as an insertion-ordered association
  list (`JsMap`): `set` updates an existing binding in place or appends a new
  one at the end; `get`/`has` find the binding; `keys` lists keys in insertion
  order.  JavaScript `Set<string>` is modelled as an insertion-ordered
  duplicate-free list (`JsSet.add`).
* JavaScript numbers are modelled as exact rationals (`ℚ`).  All arithmetic in
  the analysed code paths is on small integral values, percentages and simple
  fractions, where JavaScript semantics and exact rational semantics agree.
  `Math.round` is JavaScript round-half-up, which coincides with Mathlib's
  `round` on `ℚ` (`round x = ⌊x + 1/2⌋`).
* `Array.prototype.sort(cmp)` is a stable sort by the total preorder
  `cmp a b ≤ 0`; it is modelled by `List.insertionSort` with the relation
  `fun a b => cmp a b ≤ 0`, which is stable for such relations.
* `String.prototype.localeCompare` with the default locale is modelled as
  lexicographic comparison by character code (`strCompare`); the analysed
  sort orders are over ASCII path strings where the two agree.
* The filesystem visible to a language pack is modelled as a map from
  path strings to file contents (`Fs`); `fs.existsSync` is key membership and
  `fs.readFileSync` is lookup (a key missing from the map is an unreadable
  file, i.e. the `catch` branch of the source).
-/

set_option maxRecDepth 4096

namespace RepoAtlas

/-! ## JavaScript `Map` and `Set` models -/

/-- A JavaScript `Map` with string keys: an insertion-ordered association
list.  `get?` returns the value of the first (unique, for maps built by
`set`) binding of the key. -/
abbrev JsMap (β : Type) : Type := List (String × β)

namespace JsMap

/-- `Map.prototype.get`, returning `none` for a missing key. -/
def get? {β : Type} : JsMap β → String → Option β
  | [], _ => none
  | (k, v) :: rest, key => if k = key then some v else get? rest key

/-- `map.get(key) ?? d`. -/
def getD {β : Type} (m : JsMap β) (key : String) (d : β) : β :=
  (get? m key).getD d

/-- `Map.prototype.has`. -/
def has {β : Type} (m : JsMap β) (key : String) : Bool :=
  (get? m key).isSome

/-- `Map.prototype.set`: update in place if the key is bound, else append. -/
def set {β : Type} : JsMap β → String → β → JsMap β
  | [], key, v => [(key, v)]
  | (k, w) :: rest, key, v =>
      if k = key then (k, v) :: rest else (k, w) :: set rest key v

/-- `Array.from(map.keys())`: keys in insertion order. -/
def keys {β : Type} (m : JsMap β) : List String :=
  m.map (·.1)

/-- `Array.from(map.entries())` (the list itself). -/
def entries {β : Type} (m : JsMap β) : List (String × β) := m

end JsMap

/-- A JavaScript `Set` of strings: an insertion-ordered duplicate-free list. -/
abbrev JsSet : Type := List String

namespace JsSet

/-- `Set.prototype.add`: append unless already present. -/
def add (s : JsSet) (x : String) : JsSet :=
  if x ∈ s then s else s ++ [x]

/-- `Set.prototype.has`. -/
def has (s : JsSet) (x : String) : Bool := decide (x ∈ s)

/-- Insert every element of `l`, in order (`new Set(l)` / repeated `add`). -/
def addAll (s : JsSet) (l : List String) : JsSet :=
  l.foldl add s

end JsSet

/-! ## String helpers shared by the embedded modules -/

/-- Lexicographic comparison of character lists by code point. -/
def charListCompare : List Char → List Char → Ordering
  | [], [] => .eq
  | [], _ :: _ => .lt
  | _ :: _, [] => .gt
  | a :: as, b :: bs =>
      if a < b then .lt
      else if b < a then .gt
      else charListCompare as bs

/-- `String.prototype.localeCompare` (default locale), modelled as
lexicographic comparison by character code, as an integer sign. -/
def strCompare (a b : String) : ℤ :=
  match charListCompare a.data b.data with
  | .lt => -1
  | .eq => 0
  | .gt => 1

/-- JavaScript `\s` (whitespace class), restricted to the ASCII whitespace
characters that occur in analysed source text. -/
def isSpaceJs (c : Char) : Bool :=
  c = ' ' || c = '\t' || c = '\n' || c = '\r' || c = '\x0b' || c = '\x0c'

/-- JavaScript `\w` (word character class): `[A-Za-z0-9_]`. -/
def isWordChar (c : Char) : Bool :=
  ('a' ≤ c && c ≤ 'z') || ('A' ≤ c && c ≤ 'Z') || ('0' ≤ c && c ≤ '9') || c = '_'

/-- `String.prototype.trim`: strip `\s` characters from both ends. -/
def jsTrim (s : String) : String :=
  String.mk (((s.data.dropWhile isSpaceJs).reverse.dropWhile isSpaceJs).reverse)

/-- `content.split(/\r?\n/)`: split at every `\n`, consuming an immediately
preceding `\r`; a lone `\r` stays in its line. -/
def splitLinesChars : List Char → List Char → List (List Char)
  | acc, [] => [acc.reverse]
  | acc, '\r' :: '\n' :: rest => acc.reverse :: splitLinesChars [] rest
  | acc, '\n' :: rest => acc.reverse :: splitLinesChars [] rest
  | acc, c :: rest => splitLinesChars (c :: acc) rest

/-- `content.split(/\r?\n/)` on strings. -/
def splitLinesJs (s : String) : List String :=
  (splitLinesChars [] s.data).map String.mk

/-- `p.isPrefixOf s` on strings (used for `String.prototype.startsWith`). -/
def strStartsWith (s p : String) : Bool :=
  p.data.isPrefixOf s.data

/-- `String.prototype.endsWith`. -/
def strEndsWith (s p : String) : Bool :=
  p.data.reverse.isPrefixOf s.data.reverse

/-- Lower-case a string character-wise (ASCII `String.prototype.toLowerCase`). -/
def jsToLower (s : String) : String :=
  String.mk (s.data.map Char.toLower)

/-- Substring search over character lists. -/
def charListContains : List Char → List Char → Bool
  | s, p =>
      if p.isPrefixOf s then true
      else match s with
        | [] => false
        | _ :: rest => charListContains rest p

/-- `s.includes(p)` — substring containment. -/
def strContains (s p : String) : Bool :=
  charListContains s.data p.data

/-- The last `.`-suffix of the basename, Node's `path.extname`. -/
def extname (p : String) : String :=
  let base := (p.data.splitOn '/').getLastD []
  let afterDot := (base.reverse.takeWhile (fun c => c ≠ '.')).reverse
  if afterDot.length = base.length then ""           -- no dot in the basename
  else if afterDot.length + 1 = base.length then
    -- the only dot is the leading character (dotfile): no extension
    if base.headD ' ' = '.' then "" else String.mk ('.' :: afterDot)
  else String.mk ('.' :: afterDot)

/-! ## A generic driver for global regular-expression scans

The language packs extract signals with JavaScript global regexes
(`re.exec` loops).  The driver below models the loop: scan start positions
left to right; at a match, count/collect it and resume right after the
match's end.  `matchAt` receives the character before the current position
(for `\b` word boundaries and `m`-flag `^` anchors) and the remaining
suffix, and returns the number of characters a match starting here consumes.
Every matcher consumes at least one character; the `max k 1` below only
documents this for the termination argument. -/

/-- One `\b` boundary test between an optional previous character and a
next character (JavaScript: positions at the start/end of input are
boundaries iff the adjacent character is a word character). -/
def boundaryBetween : Option Char → Option Char → Bool
  | none, none => false
  | none, some c => isWordChar c
  | some c, none => isWordChar c
  | some a, some b => isWordChar a != isWordChar b

/-- Count all (non-overlapping, leftmost) matches of `matchAt`. -/
def scanCountAux (matchAt : Option Char → List Char → Option ℕ) :
    ℕ → Option Char → List Char → ℕ
  | 0, _, _ => 0
  | _ + 1, _, [] => 0
  | fuel + 1, prev, c :: rest =>
      match matchAt prev (c :: rest) with
      | some k =>
          let k' := max k 1
          1 + scanCountAux matchAt fuel ((c :: rest).take k').getLast? ((c :: rest).drop k')
      | none => scanCountAux matchAt fuel (some c) rest

/-- `(content.match(re) ?? []).length` for a global regex `re`. -/
def scanCount (matchAt : Option Char → List Char → Option ℕ) (s : List Char) : ℕ :=
  scanCountAux matchAt (s.length + 1) none s

/-- Collect the captures of all matches of `matchAt` (capture, length). -/
def scanCapturesAux (matchAt : Option Char → List Char → Option (String × ℕ)) :
    ℕ → Option Char → List Char → List String
  | 0, _, _ => []
  | _ + 1, _, [] => []
  | fuel + 1, prev, c :: rest =>
      match matchAt prev (c :: rest) with
      | some (cap, k) =>
          let k' := max k 1
          cap :: scanCapturesAux matchAt fuel ((c :: rest).take k').getLast?
            ((c :: rest).drop k')
      | none => scanCapturesAux matchAt fuel (some c) rest

/-- `while ((m = re.exec(content))) specs.push(m[1])` for a global regex. -/
def scanCaptures (matchAt : Option Char → List Char → Option (String × ℕ))
    (s : List Char) : List String :=
  scanCapturesAux matchAt (s.length + 1) none s

/-- Match a literal alternative of a `\b(...)\b` alternation at the head of
`s`: the literal, a word boundary before its first and after its last
character. -/
def matchBWordAt (w : List Char) (prev : Option Char) (s : List Char) : Option ℕ :=
  if w.isPrefixOf s then
    if boundaryBetween prev (some (w.headD ' ')) &&
        boundaryBetween (some (w.getLastD ' ')) (s.drop w.length).head? then
      some w.length
    else none
  else none

/-- The `\?\s*:` alternative of the TS/JS branch regex, with the enclosing
`\b` boundaries. -/
def matchQColonAt (prev : Option Char) (s : List Char) : Option ℕ :=
  match s with
  | '?' :: rest =>
      if boundaryBetween prev (some '?') then
        let spaces := (rest.takeWhile isSpaceJs).length
        match rest.drop spaces with
        | ':' :: rest2 =>
            if boundaryBetween (some ':') rest2.head? then some (1 + spaces + 1) else none
        | _ => none
      else none
  | _ => none

/-- Try a list of alternatives in (source regex) order. -/
def matchFirst (ms : List (Option Char → List Char → Option ℕ))
    (prev : Option Char) (s : List Char) : Option ℕ :=
  match ms with
  | [] => none
  | m :: rest =>
      match m prev s with
      | some k => some k
      | none => matchFirst rest prev s

/-! ## Report data model (`@/types/report`) -/

/-- A node of the reduced architecture graph. -/
structure ArchNode where
  id : String
  label : String
  type : String
  deriving DecidableEq, Repr

/-- An edge of the reduced architecture graph (`from`/`to` in the source). -/
structure ArchEdge where
  efrom : String
  eto : String
  type : String
  deriving DecidableEq, Repr

instance : Inhabited ArchEdge := ⟨{ efrom := "", eto := "", type := "" }⟩

/-- The reduced architecture graph. -/
structure Architecture where
  nodes : List ArchNode
  edges : List ArchEdge
  deriving DecidableEq, Repr

/-- Per-file metadata recorded by the Workspace Indexer. -/
structure FileMetadata where
  path : String
  size : ℚ
  extension : String
  language : String
  deriving DecidableEq, Repr

/-- A node of the folder map tree (`type` is `"dir"` or `"file"`; files have
no `children` in the source, modelled as an empty list). -/
inductive FolderMapNode where
  | node (path : String) (type : String) (children : List FolderMapNode)

/-- A runnable command extracted from a manifest. -/
structure RunCommand where
  source : String
  command : String
  description : String
  deriving DecidableEq, Repr

/-- The `{key_docs, ci_configs}` signal bundle. -/
structure ContributeSignals where
  key_docs : List String
  ci_configs : List String
  deriving DecidableEq, Repr

/-- Result of the common indexing pipeline (`pipeline.ts`). -/
structure IndexingPipelineResult where
  folder_map : FolderMapNode
  run_commands : List RunCommand
  contribute_signals : ContributeSignals
  file_metadata : JsMap FileMetadata
  key_docs : List String
  ci_configs : List String
  warnings : List String

/-- Result shape shared by the three language packs (the source declares
`TsJsPackResult`, `PythonPackResult` and `JavaPackResult` with identical
fields).  The optional fields (`loc?`, `maxNesting?`, `testProximity?`,
`warnings?`), which every pack in fact populates, are modelled as plain
fields; `pack.testProximity?.get(f) ?? 0` becomes a lookup with default 0. -/
structure PackResult where
  architecture : Architecture
  imports : JsMap (List String)
  fanIn : JsMap ℚ
  fanOut : JsMap ℚ
  entrypoints : JsSet
  testFiles : JsSet
  complexity : JsMap ℚ
  loc : JsMap ℚ
  maxNesting : JsMap ℚ
  testProximity : JsMap ℚ
  warnings : List String

/-- The empty pack result (used where the source holds `null`:
`Option.getD` with this value models the TypeScript non-null assertion
`pack!`, which is never exercised on the `null` branch). -/
def emptyPackResult : PackResult where
  architecture := { nodes := [], edges := [] }
  imports := []
  fanIn := []
  fanOut := []
  entrypoints := ([] : List String)
  testFiles := ([] : List String)
  complexity := []
  loc := []
  maxNesting := []
  testProximity := []
  warnings := []

/-- A Danger Zones metrics record. -/
structure DangerMetrics where
  size : ℚ
  fan_in : ℚ
  fan_out : ℚ
  complexity : ℚ
  test_proximity : ℚ
  deriving DecidableEq, Repr

/-- A Danger Zones list item. -/
structure DangerZoneItem where
  path : String
  score : ℤ
  breakdown : String
  metrics : DangerMetrics
  deriving DecidableEq, Repr

instance : Inhabited DangerZoneItem :=
  ⟨{ path := "", score := 0, breakdown := "",
     metrics := { size := 0, fan_in := 0, fan_out := 0, complexity := 0, test_proximity := 0 } }⟩

/-- A Start Here list item. -/
structure StartHereItem where
  path : String
  score : ℤ
  explanation : String
  deriving DecidableEq, Repr

/-! ## Scoring engine (`analyzer/scoring.ts`)

Embedding of the Start Here / Danger Zones scoring module.  The source file
takes the indexing pipeline result plus the optional TS/JS and Python pack
results. -/

namespace Scoring

/-- `CODE_EXTENSIONS` (scoring.ts). -/
def CODE_EXTENSIONS : List String := [".ts", ".tsx", ".js", ".jsx", ".mjs", ".cjs"]

/-- `PYTHON_EXTENSION` (scoring.ts). -/
def PYTHON_EXTENSION : String := ".py"

/-- `normalizeScores` (scoring.ts): min–max normalisation of a list of raw
scores into `[0, 100]`, every value mapping to 100 when all are equal. -/
def normalizeScores (values : List ℚ) : List ℤ :=
  if values.length = 0 then []
  else
    let mn := values.foldr min (values.headD 0)
    let mx := values.foldr max (values.headD 0)
    if mx = mn then values.map (fun _ => 100)
    else values.map (fun v => round ((v - mn) / (mx - mn) * 100))

/-- `percentileRank` (scoring.ts): sort a copy ascending, count entries
strictly below and entries equal, return `(below + equal·0.5) / n · 100`
clamped into `[0, 100]`. -/
def percentileRank (values : List ℚ) (value : ℚ) : ℚ :=
  if values.length = 0 then 0
  else
    let sorted := values.insertionSort (· ≤ ·)
    let counts := sorted.foldl
      (fun (acc : ℕ × ℕ) entry =>
        if entry < value then (acc.1 + 1, acc.2)
        else if entry = value then (acc.1, acc.2 + 1)
        else acc)
      (0, 0)
    let rank := (((counts.1 : ℚ) + (counts.2 : ℚ) * 0.5) / (sorted.length : ℚ)) * 100
    max 0 (min 100 rank)

/-- The file population eligible for Danger Zones (`computeDangerZones`,
scoring.ts): metadata keys with a TS/JS code extension when the TS/JS pack
ran, followed by metadata keys with the Python extension when the Python
pack ran. -/
def eligibleFiles (pipeline : IndexingPipelineResult)
    (tsjs python : Option PackResult) : List String :=
  let tsjsFiles := if tsjs.isSome then
      (JsMap.keys pipeline.file_metadata).filter (fun f => CODE_EXTENSIONS.contains (extname f))
    else []
  let pythonFiles := if python.isSome then
      (JsMap.keys pipeline.file_metadata).filter (fun f => extname f = PYTHON_EXTENSION)
    else []
  tsjsFiles ++ pythonFiles

/-- The pack responsible for a file (`pack` in `computeDangerZones`):
Python files go to the Python pack, everything else to the TS/JS pack.
The `getD emptyPackResult` models the non-null assertion `python!`/`tsjs!`,
which is never exercised on a `none` pack. -/
def packFor (tsjs python : Option PackResult) (f : String) : PackResult :=
  if extname f = PYTHON_EXTENSION then python.getD emptyPackResult
  else tsjs.getD emptyPackResult

/-- `pipeline.file_metadata.get(f)?.size ?? 0`. -/
def fileSizeOf (pipeline : IndexingPipelineResult) (f : String) : ℚ :=
  ((JsMap.get? pipeline.file_metadata f).map (·.size)).getD 0

/-- The loop body of `computeDangerZones` (scoring.ts): the item built for
one eligible file `f`.  The five percentile populations are recomputed here
from the same pure inputs as the once-computed arrays of the source
(`sizeValues`, `fanInValues`, …), so the values coincide. -/
def dangerItemFor (pipeline : IndexingPipelineResult)
    (tsjs python : Option PackResult) (f : String) : DangerZoneItem :=
  let files := eligibleFiles pipeline tsjs python
  let pack := packFor tsjs python
  let sizeValues := files.map (fileSizeOf pipeline)
  let fanInValues := files.map (fun g => JsMap.getD (pack g).fanIn g 0)
  let fanOutValues := files.map (fun g => JsMap.getD (pack g).fanOut g 0)
  let complexityValues := files.map (fun g => JsMap.getD (pack g).complexity g 0)
  let testProximityValues := files.map (fun g => JsMap.getD (pack g).testProximity g 0)
  let size := fileSizeOf pipeline f
  let fanIn := JsMap.getD (pack f).fanIn f 0
  let fanOut := JsMap.getD (pack f).fanOut f 0
  let complexity := JsMap.getD (pack f).complexity f 0
  let testProximity := JsMap.getD (pack f).testProximity f 0
  let sizeP := percentileRank sizeValues size
  let fanInP := percentileRank fanInValues fanIn
  let fanOutP := percentileRank fanOutValues fanOut
  let complexityP := percentileRank complexityValues complexity
  let weakTestP := 100 - percentileRank testProximityValues testProximity
  let weightedRisk :=
    0.2 * sizeP + 0.25 * fanInP + 0.2 * fanOutP + 0.25 * complexityP + 0.1 * weakTestP
  let riskScore := round (max 0 (min 100 weightedRisk))
  let parts : List String :=
    [ "size p" ++ toString (round sizeP) ++ " (bytes=" ++ toString size ++ ")",
      "fan-in p" ++ toString (round fanInP) ++ " (" ++ toString fanIn ++ ")",
      "fan-out p" ++ toString (round fanOutP) ++ " (" ++ toString fanOut ++ ")",
      "complexity p" ++ toString (round complexityP) ++ " (" ++ toString complexity ++ ")",
      "test proximity " ++ toString testProximity ]
  let parts := if testProximity = 0 then parts ++ ["no nearby tests"]
    else if testProximity < 80 then parts ++ ["low test proximity"]
    else parts
  { path := f
    score := riskScore
    breakdown := String.intercalate ", " parts
    metrics :=
      { size := size, fan_in := fanIn, fan_out := fanOut,
        complexity := complexity, test_proximity := testProximity } }

/-- `computeDangerZones` (scoring.ts): percentile-based composite risk score
over the union of TS/JS and Python file populations, sorted by score
descending (stably). -/
def computeDangerZones (pipeline : IndexingPipelineResult)
    (tsjs python : Option PackResult) : List DangerZoneItem :=
  let files := eligibleFiles pipeline tsjs python
  if files.length = 0 then []
  else
    let items := files.map (dangerItemFor pipeline tsjs python)
    items.insertionSort (fun a b => b.score ≤ a.score)

end Scoring

/-! ## Complexity signals (three language packs)

Each pack computes, per file, `(loc, branchCount, maxNesting, score)` where
`score = branchCount * 3 + maxNesting * 2 + Math.round(loc / 40)`. -/

/-- The `{loc, branchCount, maxNesting, score}` record returned by each
pack's `computeComplexitySignals`. -/
structure ComplexitySignals where
  loc : ℕ
  branchCount : ℕ
  maxNesting : ℕ
  score : ℤ
  deriving DecidableEq, Repr

/-- The brace-depth loop of the TS/JS and Java packs: an opening brace
increments the depth (tracking the maximum), a closing brace decrements it
with a floor at zero (`Math.max(0, currentDepth - 1)`; natural subtraction
has the same floor). -/
def braceMaxNesting (content : String) : ℕ :=
  (content.data.foldl
    (fun (acc : ℕ × ℕ) ch =>
      if ch = '\x7b' then (acc.1 + 1, max acc.2 (acc.1 + 1))
      else if ch = '\x7d' then (acc.1 - 1, acc.2)
      else acc)
    (0, 0)).2

namespace TsJs

/-- `COMPLEXITY_RE` of the TS/JS pack:
`\b(if|else|for|while|switch|catch|\?\s*:|\|\||&&)\b`, alternatives in
source order. -/
def branchMatchAt : Option Char → List Char → Option ℕ :=
  matchFirst
    [ matchBWordAt "if".data, matchBWordAt "else".data, matchBWordAt "for".data,
      matchBWordAt "while".data, matchBWordAt "switch".data, matchBWordAt "catch".data,
      matchQColonAt, matchBWordAt "||".data, matchBWordAt "&&".data ]

/-- `computeComplexitySignals` (TS/JS pack): non-empty non-comment trimmed
lines, branch-keyword matches, brace nesting, and the composite score. -/
def computeComplexitySignals (content : String) : ComplexitySignals :=
  let loc := (((splitLinesJs content).map jsTrim).filter (fun line =>
      line.length != 0 &&
      !(strStartsWith line "//") && !(strStartsWith line "/*") &&
      !(strStartsWith line "*") && !(strStartsWith line "*/"))).length
  let branchCount := scanCount branchMatchAt content.data
  let maxNesting := braceMaxNesting content
  { loc := loc, branchCount := branchCount, maxNesting := maxNesting,
    score := (branchCount : ℤ) * 3 + (maxNesting : ℤ) * 2 + round ((loc : ℚ) / 40) }

end TsJs

namespace Python

/-- `COMPLEXITY_RE` of the Python pack:
`\b(if|elif|else|for|while|try|except|finally|with|and|or|match|case)\b`. -/
def branchMatchAt : Option Char → List Char → Option ℕ :=
  matchFirst
    [ matchBWordAt "if".data, matchBWordAt "elif".data, matchBWordAt "else".data,
      matchBWordAt "for".data, matchBWordAt "while".data, matchBWordAt "try".data,
      matchBWordAt "except".data, matchBWordAt "finally".data, matchBWordAt "with".data,
      matchBWordAt "and".data, matchBWordAt "or".data, matchBWordAt "match".data,
      matchBWordAt "case".data ]

/-- The three-single-quote Python docstring opener. -/
def tripleSingleQuote : String := String.mk ['\'', '\'', '\'']

/-- `computeComplexitySignals` (Python pack): comment/docstring-prefix lines
excluded from LOC, indentation depth (4 spaces per level) for nesting. -/
def computeComplexitySignals (content : String) : ComplexitySignals :=
  let lines := splitLinesJs content
  let loc := ((lines.map jsTrim).filter (fun line =>
      line.length != 0 &&
      !(strStartsWith line "#") &&
      !(strStartsWith line "\"\"\"") &&
      !(strStartsWith line tripleSingleQuote))).length
  let branchCount := scanCount branchMatchAt content.data
  let maxNesting := lines.foldl
    (fun acc line =>
      if (jsTrim line).length = 0 then acc
      else max acc ((line.data.takeWhile isSpaceJs).length / 4))
    0
  { loc := loc, branchCount := branchCount, maxNesting := maxNesting,
    score := (branchCount : ℤ) * 3 + (maxNesting : ℤ) * 2 + round ((loc : ℚ) / 40) }

end Python

namespace Java

/-- `JAVA_COMPLEXITY_RE`:
`\b(if|else|switch|case|for|while|do|catch|&&|\|\||\?)\b`. -/
def branchMatchAt : Option Char → List Char → Option ℕ :=
  matchFirst
    [ matchBWordAt "if".data, matchBWordAt "else".data, matchBWordAt "switch".data,
      matchBWordAt "case".data, matchBWordAt "for".data, matchBWordAt "while".data,
      matchBWordAt "do".data, matchBWordAt "catch".data,
      matchBWordAt "&&".data, matchBWordAt "||".data, matchBWordAt "?".data ]

/-- `computeComplexitySignals` (Java pack). -/
def computeComplexitySignals (content : String) : ComplexitySignals :=
  let loc := ((splitLinesJs content).filter (fun line =>
      let trimmed := jsTrim line
      trimmed.length != 0 &&
      !(strStartsWith trimmed "//") && !(strStartsWith trimmed "/*") &&
      !(strStartsWith trimmed "*"))).length
  let branchCount := scanCount branchMatchAt content.data
  let maxNesting := braceMaxNesting content
  { loc := loc, branchCount := branchCount, maxNesting := maxNesting,
    score := (branchCount : ℤ) * 3 + (maxNesting : ℤ) * 2 + round ((loc : ℚ) / 40) }

end Java

/-! ## Architecture Reducer (`buildReducedArchitecture`, one copy per pack)

The three packs contain textually identical reducers, differing only in the
grouping function (`toFolderPath` / `toPackagePath`), the node label, and
the folder/package word used in warnings.  The shared body is embedded once,
parameterised accordingly, and instantiated three times. -/

/-- `relPath.replace(/\\/g, "/")`. -/
def normalizeRelPath (relPath : String) : String :=
  String.mk (relPath.data.map (fun c => if c = '\\' then '/' else c))

/-- `path.posix.dirname` for the repo-relative, slash-separated paths in
use (no leading or trailing slashes): everything before the last `/`, or
`"."` when there is none. -/
def posixDirname (p : String) : String :=
  let parts := p.data.splitOn '/'
  if parts.length ≤ 1 then "."
  else String.mk (List.intercalate ['/'] parts.dropLast)

/-- `path.posix.basename`: the last `/`-segment. -/
def posixBasename (p : String) : String :=
  String.mk ((p.data.splitOn '/').getLastD [])

/-- Split on a (non-empty) separator substring, JavaScript
`String.prototype.split` semantics. -/
def splitOnSubstrAux (sep : List Char) : ℕ → List Char → List Char → List (List Char)
  | 0, acc, rest => [acc.reverse ++ rest]
  | _ + 1, acc, [] => [acc.reverse]
  | fuel + 1, acc, c :: rest =>
      if sep.isPrefixOf (c :: rest) then
        acc.reverse :: splitOnSubstrAux sep fuel [] ((c :: rest).drop sep.length)
      else splitOnSubstrAux sep fuel (c :: acc) rest

/-- `s.split(sep)` for a non-empty separator. -/
def jsSplitOnStr (s sep : String) : List String :=
  if sep.data.isEmpty then [s]
  else (splitOnSubstrAux sep.data (s.data.length + 1) [] s.data).map String.mk

/-- `const [from] = edgeKey.split("=>")`. -/
def edgeKeyFrom (key : String) : String :=
  (jsSplitOnStr key "=>").headD ""

/-- `const [, to] = edgeKey.split("=>")` (`to` is the second part; edge keys
always contain the separator). -/
def edgeKeyTo (key : String) : String :=
  ((jsSplitOnStr key "=>").drop 1).headD ""

/-- `ARCH_NODE_CAP` (all three packs). -/
def ARCH_NODE_CAP : ℕ := 50

/-- `ARCH_EDGE_CAP` (all three packs). -/
def ARCH_EDGE_CAP : ℕ := 200

/-- `folderFileCounts` / `packageFileCounts`: files per group. -/
def groupFileCounts (groupOf : String → String) (files : List String) : JsMap ℕ :=
  files.foldl
    (fun m file =>
      let folder := groupOf file
      JsMap.set m folder (JsMap.getD m folder 0 + 1))
    []

/-- `edgeWeights`: file-level edges aggregated per `(fromGroup, toGroup)`
pair, keyed `from=>to`, with multiplicity. -/
def groupEdgeWeights (groupOf : String → String)
    (imports : JsMap (List String)) : JsMap ℕ :=
  imports.foldl
    (fun m e =>
      let fromFolder := groupOf e.1
      e.2.foldl
        (fun m toFile =>
          let toFolder := groupOf toFile
          let key := fromFolder ++ "=>" ++ toFolder
          JsMap.set m key (JsMap.getD m key 0 + 1))
        m)
    []

/-- `folderDegree` / `packageDegree`: for each group, the summed weight of
incident edges, with file-bearing groups backfilled to zero. -/
def groupDegrees (groupOf : String → String) (files : List String)
    (imports : JsMap (List String)) : JsMap ℕ :=
  let fromEdges := (groupEdgeWeights groupOf imports).foldl
    (fun m kv =>
      let fr := edgeKeyFrom kv.1
      let toG := edgeKeyTo kv.1
      let m := JsMap.set m fr (JsMap.getD m fr 0 + kv.2)
      JsMap.set m toG (JsMap.getD m toG 0 + kv.2))
    []
  (JsMap.keys (groupFileCounts groupOf files)).foldl
    (fun m folder => if JsMap.has m folder then m else JsMap.set m folder 0)
    fromEdges

/-- The group sort comparator: degree descending, then member-file count
descending, then name ascending (`localeCompare`), as an integer sign. -/
def groupCmp (deg cnt : JsMap ℕ) (a b : String) : ℤ :=
  let degreeDelta := ((JsMap.getD deg b 0 : ℕ) : ℤ) - ((JsMap.getD deg a 0 : ℕ) : ℤ)
  if degreeDelta ≠ 0 then degreeDelta
  else
    let fileCountDelta := ((JsMap.getD cnt b 0 : ℕ) : ℤ) - ((JsMap.getD cnt a 0 : ℕ) : ℤ)
    if fileCountDelta ≠ 0 then fileCountDelta
    else strCompare a b

/-- `sortedFolders` / `sortedPackages`. -/
def sortedGroups (groupOf : String → String) (files : List String)
    (imports : JsMap (List String)) : List String :=
  let deg := groupDegrees groupOf files imports
  let cnt := groupFileCounts groupOf files
  (JsMap.keys cnt).insertionSort (fun a b => groupCmp deg cnt a b ≤ 0)

/-- `selectedFolders` / `selectedPackages`: the top `ARCH_NODE_CAP`. -/
def selectedGroups (groupOf : String → String) (files : List String)
    (imports : JsMap (List String)) : List String :=
  (sortedGroups groupOf files imports).take ARCH_NODE_CAP

/-- `fullEdgeCount`: distinct group-edge keys whose two endpoints are both
kept groups. -/
def keptEdgeCount (groupOf : String → String) (files : List String)
    (imports : JsMap (List String)) : ℕ :=
  let sel := selectedGroups groupOf files imports
  ((JsMap.keys (groupEdgeWeights groupOf imports)).filter
    (fun k =>
      decide (edgeKeyFrom k ∈ sel) &&
      decide (edgeKeyTo k ∈ sel))).length

/-- The edge sort comparator: weight descending, then `from` ascending,
then `to` ascending. -/
def edgeCmp (a b : String × String × ℕ) : ℤ :=
  let weightDelta := (b.2.2 : ℤ) - (a.2.2 : ℤ)
  if weightDelta ≠ 0 then weightDelta
  else
    let fromDelta := strCompare a.1 b.1
    if fromDelta ≠ 0 then fromDelta
    else strCompare a.2.1 b.2.1

/-- The node-cap warning string. -/
def nodeCapWarnStr (unitWord : String) (total : ℕ) : String :=
  "Architecture nodes capped at " ++ toString ARCH_NODE_CAP ++ " " ++ unitWord ++
    " (from " ++ toString total ++ ")."

/-- The file-level-to-group-level reduction warning string. -/
def reducedWarnStr (unitWord levelWord : String) (nFiles nSel : ℕ) : String :=
  "Architecture reduced from file-level (" ++ toString nFiles ++ " files) to " ++
    levelWord ++ " (" ++ toString nSel ++ " " ++ unitWord ++ ")."

/-- The edge-cap warning string. -/
def edgeCapWarnStr (total : ℕ) : String :=
  "Architecture edges capped at " ++ toString ARCH_EDGE_CAP ++ " links (from " ++
    toString total ++ ")."

/-- `buildReducedArchitecture` (shared body of the three packs): cap the
group list at `ARCH_NODE_CAP` (warning when the true count exceeds it), keep
edges between kept groups sorted by weight then endpoints, cap them at
`ARCH_EDGE_CAP` (warning when the kept-edge count exceeds it), and warn
whenever the file population is larger than the kept-group population. -/
def buildReducedArchitecture (groupOf : String → String)
    (unitWord levelWord : String) (labelOf : String → String)
    (files : List String) (imports : JsMap (List String)) :
    Architecture × List String :=
  let sortedFolders := sortedGroups groupOf files imports
  let selectedFolders := selectedGroups groupOf files imports
  let warnings₁ :=
    if ARCH_NODE_CAP < sortedFolders.length then
      [nodeCapWarnStr unitWord sortedFolders.length]
    else []
  let warnings₂ :=
    if selectedFolders.length < files.length then
      [reducedWarnStr unitWord levelWord files.length selectedFolders.length]
    else []
  let edges :=
    (((((groupEdgeWeights groupOf imports).map
          (fun kv => (edgeKeyFrom kv.1, edgeKeyTo kv.1, kv.2))).filter
        (fun e =>
          decide (e.1 ∈ selectedFolders) && decide (e.2.1 ∈ selectedFolders))).insertionSort
      (fun a b => edgeCmp a b ≤ 0)).take ARCH_EDGE_CAP).map
      (fun e => { efrom := e.1, eto := e.2.1, type := "import" : ArchEdge })
  let warnings₃ :=
    if ARCH_EDGE_CAP < keptEdgeCount groupOf files imports then
      [edgeCapWarnStr (keptEdgeCount groupOf files imports)]
    else []
  let nodes := selectedFolders.map
    (fun folder => { id := folder, label := labelOf folder, type := "folder" : ArchNode })
  ({ nodes := nodes, edges := edges }, warnings₁ ++ warnings₂ ++ warnings₃)

namespace TsJs

/-- `toFolderPath` (TS/JS pack). -/
def toFolderPath (filePath : String) : String :=
  let normalized := normalizeRelPath filePath
  let dir := posixDirname normalized
  if dir = "." then "." else dir

/-- `buildReducedArchitecture` (TS/JS pack): folder groups, label = folder. -/
def buildReducedArchitecture (files : List String)
    (imports : JsMap (List String)) : Architecture × List String :=
  RepoAtlas.buildReducedArchitecture toFolderPath "folders" "folder-level"
    (fun folder => if folder = "." then "." else folder) files imports

end TsJs

namespace Python

/-- `toFolderPath` (Python pack; same as TS/JS). -/
def toFolderPath (filePath : String) : String :=
  let normalized := normalizeRelPath filePath
  let dir := posixDirname normalized
  if dir = "." then "." else dir

/-- `buildReducedArchitecture` (Python pack): folder groups, label =
basename of the folder. -/
def buildReducedArchitecture (files : List String)
    (imports : JsMap (List String)) : Architecture × List String :=
  RepoAtlas.buildReducedArchitecture toFolderPath "folders" "folder-level"
    (fun folder => if folder = "." then "." else posixBasename folder) files imports

end Python

namespace Java

/-- Whether `src/main/java/` or `src/test/java/` (both 14 characters)
starts here. -/
def srcJavaRootAt (s : List Char) : Bool :=
  "src/main/java/".data.isPrefixOf s || "src/test/java/".data.isPrefixOf s

/-- The leftmost match of `src\/(?:main|test)\/java\/(.+)\/[^/]+\.java$`:
scan start positions left to right; where a source-root prefix matches, the
remainder must consist of a non-empty package part, a `/`, and a
`[^/]+\.java` basename reaching the end of the string.  Returns the capture
(the package part). -/
def toPackagePathMatch : List Char → Option (List Char)
  | [] => none
  | s@(_ :: rest) =>
      (if srcJavaRootAt s then
        let tail := s.drop 14
        let parts := tail.splitOn '/'
        let base := parts.getLastD []
        let pkg := List.intercalate ['/'] parts.dropLast
        if parts.length ≥ 2 && !pkg.isEmpty && decide (base.length ≥ 6) &&
            (".java".data.reverse.isPrefixOf base.reverse) then
          some pkg
        else none
      else none).orElse (fun _ => toPackagePathMatch rest)

/-- `toPackagePath` (Java pack): the capture of
`src\/(?:main|test)\/java\/(.+)\/[^/]+\.java$` with `/` replaced by `.`,
else the dirname with `/` replaced by `.` (or `"."`). -/
def toPackagePath (filePath : String) : String :=
  let normalized := normalizeRelPath filePath
  let dotted := fun (s : String) =>
    String.mk (s.data.map (fun c => if c = '/' then '.' else c))
  match toPackagePathMatch normalized.data with
  | some pkgPart => dotted (String.mk pkgPart)
  | none =>
      let dir := posixDirname normalized
      if dir = "." then "." else dotted dir

/-- `buildReducedArchitecture` (Java pack): package groups, label = the
package itself. -/
def buildReducedArchitecture (files : List String)
    (imports : JsMap (List String)) : Architecture × List String :=
  RepoAtlas.buildReducedArchitecture toPackagePath "packages" "package-level"
    (fun pkg => pkg) files imports

end Java

/-! ## Test proximity (three language packs) -/

namespace TsJs

/-- The extension alternation `(ts|tsx|js|jsx|mjs|cjs)` shared by the TS/JS
pack's path regexes. -/
def EXT_ALTS : List String := ["ts", "tsx", "js", "jsx", "mjs", "cjs"]

/-- `stripExtension`: `relPath.replace(/\.(ts|tsx|js|jsx|mjs|cjs)$/i, "")`. -/
def stripExtension (relPath : String) : String :=
  match EXT_ALTS.find? (fun alt => strEndsWith (jsToLower relPath) ("." ++ alt)) with
  | some alt => String.mk (relPath.data.take (relPath.data.length - (alt.length + 1)))
  | none => relPath

/-- `stripTestSuffix`:
`relPath.replace(/\.(test|spec)\.(ts|tsx|js|jsx|mjs|cjs)$/i, "")`. -/
def stripTestSuffix (relPath : String) : String :=
  let suffixes := ["test", "spec"].foldr
    (fun t acc => (EXT_ALTS.map (fun alt => "." ++ t ++ "." ++ alt)) ++ acc) []
  match suffixes.find? (fun suf => strEndsWith (jsToLower relPath) suf) with
  | some suf => String.mk (relPath.data.take (relPath.data.length - suf.length))
  | none => relPath

/-- `normFile.replace(/^src\//, "")`. -/
def stripSrcPrefix (p : String) : String :=
  if strStartsWith p "src/" then String.mk (p.data.drop 4) else p

/-- The loop body of the TS/JS `computeTestProximityScore`: updates the
running best tier with one candidate test file (the directory and stripped
forms of the scored file are recomputed from the same pure inputs as the
source's loop-invariant locals). -/
def proximityStep (filePath : String) (best : ℕ) (testFile : String) : ℕ :=
  let normFile := normalizeRelPath filePath
  let fileDir := posixDirname normFile
  let strippedFile := stripExtension normFile
  let strippedFileSansSrc := stripExtension (stripSrcPrefix normFile)
  let normTest := normalizeRelPath testFile
  let testDir := posixDirname normTest
  if testDir = fileDir then max best 100
  else if testDir = fileDir ++ "/__tests__" ||
      strStartsWith normTest (fileDir ++ "/__tests__/") then max best 90
  else if strStartsWith normTest "tests/" then
    let mirrored := stripTestSuffix (String.mk (normTest.data.drop 6))
    if mirrored = strippedFile || mirrored = strippedFileSansSrc ||
        strEndsWith mirrored ("/" ++ posixBasename strippedFile) then max best 80
    else best
  else best

/-- `computeTestProximityScore` (TS/JS pack): 100 for a test file itself or
a same-directory test, 90 for a `__tests__` subdirectory test, 80 for a
mirrored match under `tests/`, else 0; the best matching tier wins. -/
def computeTestProximityScore (filePath : String) (testFiles : JsSet) : ℕ :=
  if JsSet.has testFiles filePath then 100
  else testFiles.foldl (proximityStep filePath) 0

end TsJs

namespace Python

/-- `stripExtension` (Python pack): `relPath.replace(/\.py$/i, "")`. -/
def stripExtension (relPath : String) : String :=
  if strEndsWith (jsToLower relPath) ".py" then
    String.mk (relPath.data.take (relPath.data.length - 3))
  else relPath

/-- `stripTestSuffix` (Python pack):
`relPath.replace(/^test_/, "").replace(/_test\.py$/i, ".py")`. -/
def stripTestSuffix (relPath : String) : String :=
  let p1 := if strStartsWith relPath "test_" then String.mk (relPath.data.drop 5) else relPath
  if strEndsWith (jsToLower p1) "_test.py" then
    String.mk (p1.data.take (p1.data.length - 8)) ++ ".py"
  else p1

/-- `normFile.replace(/^src\//, "")`. -/
def stripSrcPrefix (p : String) : String :=
  if strStartsWith p "src/" then String.mk (p.data.drop 4) else p

/-- The loop body of the Python `computeTestProximityScore`. -/
def proximityStep (filePath : String) (best : ℕ) (testFile : String) : ℕ :=
  let normFile := normalizeRelPath filePath
  let fileDir := posixDirname normFile
  let strippedFile := stripExtension normFile
  let strippedFileSansSrc := stripExtension (stripSrcPrefix normFile)
  let normTest := normalizeRelPath testFile
  let testDir := posixDirname normTest
  if testDir = fileDir then max best 100
  else if testDir = fileDir ++ "/__tests__" ||
      strStartsWith normTest (fileDir ++ "/__tests__/") then max best 90
  else if strStartsWith normTest "tests/" || strStartsWith normTest "test/" then
    let after :=
      if strStartsWith normTest "tests/" then String.mk (normTest.data.drop 6)
      else String.mk (normTest.data.drop 5)
    let mirrored := stripTestSuffix after
    let mirroredStripped := stripExtension mirrored
    if mirroredStripped = strippedFile || mirroredStripped = strippedFileSansSrc ||
        strEndsWith mirroredStripped ("/" ++ posixBasename strippedFile) then
      max best 80
    else best
  else best

/-- `computeTestProximityScore` (Python pack). -/
def computeTestProximityScore (filePath : String) (testFiles : JsSet) : ℕ :=
  if JsSet.has testFiles filePath then 100
  else testFiles.foldl (proximityStep filePath) 0

end Python

namespace Java

/-- `path.basename(p, ".java")`: the last segment with a trailing `.java`
stripped. -/
def javaBasenameNoExt (p : String) : String :=
  let base := posixBasename p
  if strEndsWith base ".java" && decide (base.data.length > 5) then
    String.mk (base.data.take (base.data.length - 5))
  else base

/-- The first same-directory test file decides the score: 100 for an exact
naming-convention match, 90 for the `IT` variant, 80 otherwise. -/
def sameDirScan (baseName fileDir : String) : List String → Option ℕ
  | [] => none
  | t :: rest =>
      if posixDirname t = fileDir then
        let testBase := javaBasenameNoExt t
        if testBase = baseName ++ "Test" || testBase = baseName ++ "Tests" ||
            testBase = baseName ++ "TestCase" then some 100
        else if testBase = baseName ++ "IT" then some 90
        else some 80
      else sameDirScan baseName fileDir rest

/-- The match of `^(.*)src[\/\\]main[\/\\]java[\/\\](.+)$` against a
normalized (slash-separated) path: the greedy `(.*)` picks the last
occurrence of `src/main/java/` that leaves a non-empty remainder. -/
def mainJavaMatch (p : String) : Option (String × String) :=
  let s := p.data
  let hits := (List.range (s.length + 1)).filter
    (fun i => "src/main/java/".data.isPrefixOf (s.drop i) && !(s.drop (i + 14)).isEmpty)
  match hits.getLast? with
  | some i => some (String.mk (s.take i), String.mk (s.drop (i + 14)))
  | none => none

/-- `replace(/\/+/g, "/")`: collapse slash runs. -/
def collapseSlashesAux : Bool → List Char → List Char
  | _, [] => []
  | prev, c :: rest =>
      if c = '/' then
        if prev then collapseSlashesAux true rest
        else '/' :: collapseSlashesAux true rest
      else c :: collapseSlashesAux false rest

/-- `replace(/\/+/g, "/")` on strings. -/
def collapseSlashes (p : String) : String :=
  String.mk (collapseSlashesAux false p.data)

/-- Replace the first occurrence of `pat` in `s` by `rep` (non-global
`String.prototype.replace` with a literal-ish pattern). -/
def replaceFirstSub (s pat rep : String) : String :=
  let d := s.data
  match (List.range (d.length + 1)).find? (fun i => pat.data.isPrefixOf (d.drop i)) with
  | some i => String.mk (d.take i ++ rep.data ++ d.drop (i + pat.data.length))
  | none => s

/-- `replace(/\/[^/]+\.java$/, "")`: strip a final `/<base>.java` segment. -/
def stripSlashBaseJava (s : String) : String :=
  let parts := s.data.splitOn '/'
  let base := parts.getLastD []
  if parts.length ≥ 2 && decide (base.length ≥ 6) &&
      (".java".data.reverse.isPrefixOf base.reverse) then
    String.mk (List.intercalate ['/'] parts.dropLast)
  else s

/-- The final package-directory comparison loop (80 tier). -/
def pkgMirrorScan (normFile : String) : List String → Bool
  | [] => false
  | t :: rest =>
      let testPackageDir := stripSlashBaseJava (replaceFirstSub t "/src/test/java/" "/")
      let prodPackageDir := stripSlashBaseJava (replaceFirstSub normFile "/src/main/java/" "/")
      if testPackageDir = prodPackageDir then true else pkgMirrorScan normFile rest

/-- `computeTestProximityScore` (Java pack, part_007 lines 252–308). -/
def computeTestProximityScore (prodFile : String) (testFiles : JsSet) : ℕ :=
  let normFile := normalizeRelPath prodFile
  let normTestFiles := JsSet.addAll [] (testFiles.map normalizeRelPath)
  if JsSet.has normTestFiles normFile then 100
  else
    let baseName := javaBasenameNoExt normFile
    let fileDir := posixDirname normFile
    match sameDirScan baseName fileDir normTestFiles with
    | some r => r
    | none =>
        match mainJavaMatch normFile with
        | none => 0
        | some (pfx, relPath) =>
            let pkgDir := posixDirname relPath
            let testDir := pfx ++ "src/test/java/" ++ pkgDir
            let testPath := collapseSlashes (testDir ++ "/" ++ baseName ++ "Test.java")
            if JsSet.has normTestFiles testPath then 100
            else
              let itPath := testDir ++ "/" ++ baseName ++ "IT.java"
              if JsSet.has normTestFiles itPath then 90
              else
                let testsPath := testDir ++ "/" ++ baseName ++ "Tests.java"
                if JsSet.has normTestFiles testsPath then 100
                else if pkgMirrorScan normFile normTestFiles then 80
                else 0

end Java

/-! ## Pack graph loops (`runTsJsPack`, `runPythonPack`, `runJavaPack`) -/

/-- The per-file maps each pack accumulates while looping over its files. -/
structure PackMaps where
  imports : JsMap (List String)
  fanIn : JsMap ℚ
  fanOut : JsMap ℚ
  complexity : JsMap ℚ
  loc : JsMap ℚ
  maxNesting : JsMap ℚ
  testProximity : JsMap ℚ

/-- All maps empty (the `new Map()` initialisers). -/
def emptyPackMaps : PackMaps := ⟨[], [], [], [], [], [], []⟩

namespace TsJs

/-- `CODE_EXTENSIONS` (TS/JS pack). -/
def CODE_EXTENSIONS : List String := [".ts", ".tsx", ".js", ".jsx", ".mjs", ".cjs"]

/-- `IGNORED_DIRS` (TS/JS pack). -/
def IGNORED_DIRS : List String := ["node_modules", ".next", "dist", "build", "coverage"]

/-- `isIgnoredPath` (TS/JS pack): some slash-separated segment of the
normalised path is an ignored directory. -/
def isIgnoredPath (relPath : String) : Bool :=
  (jsSplitOnStr (normalizeRelPath relPath) "/").any (fun seg => IGNORED_DIRS.contains seg)

/-- The twelve suffixes matched by the first TS/JS `TEST_PATTERNS` regex
`\.(test|spec)\.(ts|tsx|js|jsx|mjs|cjs)$` (case-insensitive). -/
def TEST_SUFFIXES : List String :=
  [".test.ts", ".test.tsx", ".test.js", ".test.jsx", ".test.mjs", ".test.cjs",
   ".spec.ts", ".spec.tsx", ".spec.js", ".spec.jsx", ".spec.mjs", ".spec.cjs"]

/-- `TEST_PATTERNS.some((p) => p.test(n))` (TS/JS pack): a test/spec suffix
(case-insensitive) or a `__tests__/` path segment. -/
def isTestPath (n : String) : Bool :=
  TEST_SUFFIXES.any (fun s => strEndsWith (jsToLower n) s) || strContains n "__tests__/"

/-- One iteration of the TS/JS target accumulation: resolve the specifier
and add the result when it is truthy, present in the file metadata and not
ignored. -/
def targetStep (resolve : String → String → Option String)
    (pipeline : IndexingPipelineResult) (f : String) (ts : JsSet) (imp : String) : JsSet :=
  match resolve f imp with
  | some r =>
      if !(r == "") && JsMap.has pipeline.file_metadata r && !(isIgnoredPath r) then
        JsSet.add ts r
      else ts
  | none => ts

/-- The target set of the TS/JS pack loop. -/
def targetsOf (resolve : String → String → Option String)
    (pipeline : IndexingPipelineResult) (f : String) (specs : List String) : JsSet :=
  specs.foldl (targetStep resolve pipeline f) []

/-- The body of the TS/JS pack's per-file loop. A missing file-system entry
is the `catch` branch: the file is skipped entirely (`continue`). -/
def packFileStep (extract : String → List String)
    (resolve : String → String → Option String)
    (pipeline : IndexingPipelineResult) (fsMap : JsMap String) (testFiles : JsSet)
    (st : PackMaps) (f : String) : PackMaps :=
  match JsMap.get? fsMap f with
  | none => st
  | some content =>
      let sig := computeComplexitySignals content
      let targets := targetsOf resolve pipeline f (extract content)
      { imports := JsMap.set st.imports f targets
        fanIn := targets.foldl (fun m t => JsMap.set m t (JsMap.getD m t 0 + 1)) st.fanIn
        fanOut := JsMap.set st.fanOut f ((targets.length : ℚ))
        complexity := JsMap.set st.complexity f ((sig.score : ℚ))
        loc := JsMap.set st.loc f ((sig.loc : ℚ))
        maxNesting := JsMap.set st.maxNesting f ((sig.maxNesting : ℚ))
        testProximity := JsMap.set st.testProximity f
          ((computeTestProximityScore f testFiles : ℚ)) }

/-- The TS/JS pack's file set: metadata keys with a code extension that are
not ignored. -/
def filesOf (pipeline : IndexingPipelineResult) : List String :=
  (JsMap.keys pipeline.file_metadata).filter
    (fun f => CODE_EXTENSIONS.contains (extname f) && !(isIgnoredPath f))

/-- `runTsJsPack` (TS/JS pack). Import-specifier extraction, import
resolution and entry-point detection only read file contents; they are
taken as parameters (`extract`, `resolve`, and the detection results), and
the workspace file system is the map `fsMap` from path to content. -/
def runTsJsPack (extract : String → List String)
    (resolve : String → String → Option String)
    (detectedEntrypoints : List String) (entrypointWarnings : List String)
    (fsMap : JsMap String) (pipeline : IndexingPipelineResult) : PackResult :=
  let files := filesOf pipeline
  let testFiles := files.foldl (fun s f =>
    if isTestPath (normalizeRelPath f) then JsSet.add s f else s) []
  let entrypoints := JsSet.addAll [] detectedEntrypoints
  let st := files.foldl (packFileStep extract resolve pipeline fsMap testFiles)
    emptyPackMaps
  let arch := buildReducedArchitecture files st.imports
  { architecture := arch.1, imports := st.imports, fanIn := st.fanIn,
    fanOut := st.fanOut, entrypoints := entrypoints, testFiles := testFiles,
    complexity := st.complexity, loc := st.loc, maxNesting := st.maxNesting,
    testProximity := st.testProximity,
    warnings := entrypointWarnings ++ arch.2 }

end TsJs

namespace Python

/-- `PY_EXTENSION` (Python pack). -/
def PY_EXTENSION : String := ".py"

/-- `IGNORED_DIRS` (Python pack). -/
def IGNORED_DIRS : List String :=
  ["venv", ".venv", "site-packages", "dist", "build", "__pycache__",
   ".pytest_cache", ".tox", "eggs", ".eggs"]

/-- `isIgnoredPath` (Python pack). -/
def isIgnoredPath (relPath : String) : Bool :=
  (jsSplitOnStr (normalizeRelPath relPath) "/").any (fun seg => IGNORED_DIRS.contains seg)

/-- `TEST_PATTERNS.some((p) => p.test(n))` (Python pack):
`^test_.*\.py$` or `.*_test\.py$` (both case-insensitive), or a
`tests/`-or-`test/` prefix. -/
def isTestPath (n : String) : Bool :=
  (strStartsWith (jsToLower n) "test_" && strEndsWith (jsToLower n) ".py" &&
    decide (8 ≤ n.length)) ||
  strEndsWith (jsToLower n) "_test.py" ||
  strStartsWith n "tests/" || strStartsWith n "test/"

/-- One iteration of the Python target accumulation. -/
def targetStep (resolve : String → String → Option String)
    (pipeline : IndexingPipelineResult) (f : String) (ts : JsSet) (spec : String) : JsSet :=
  match resolve f spec with
  | some r =>
      if !(r == "") && JsMap.has pipeline.file_metadata r && !(isIgnoredPath r) then
        JsSet.add ts r
      else ts
  | none => ts

/-- The target set of the Python pack loop. -/
def targetsOf (resolve : String → String → Option String)
    (pipeline : IndexingPipelineResult) (f : String) (specs : List String) : JsSet :=
  specs.foldl (targetStep resolve pipeline f) []

/-- The body of the Python pack's per-file loop; the `catch` branch (a
missing file-system entry) records empty imports and zeroed signals. -/
def packFileStep (extract : String → List String)
    (resolve : String → String → Option String)
    (pipeline : IndexingPipelineResult) (fsMap : JsMap String) (testFiles : JsSet)
    (st : PackMaps) (f : String) : PackMaps :=
  match JsMap.get? fsMap f with
  | none =>
      { imports := JsMap.set st.imports f []
        fanIn := st.fanIn
        fanOut := JsMap.set st.fanOut f 0
        complexity := JsMap.set st.complexity f 0
        loc := JsMap.set st.loc f 0
        maxNesting := JsMap.set st.maxNesting f 0
        testProximity := JsMap.set st.testProximity f
          ((computeTestProximityScore f testFiles : ℚ)) }
  | some content =>
      let sig := computeComplexitySignals content
      let targets := targetsOf resolve pipeline f (extract content)
      { imports := JsMap.set st.imports f targets
        fanIn := targets.foldl (fun m t => JsMap.set m t (JsMap.getD m t 0 + 1)) st.fanIn
        fanOut := JsMap.set st.fanOut f ((targets.length : ℚ))
        complexity := JsMap.set st.complexity f ((sig.score : ℚ))
        loc := JsMap.set st.loc f ((sig.loc : ℚ))
        maxNesting := JsMap.set st.maxNesting f ((sig.maxNesting : ℚ))
        testProximity := JsMap.set st.testProximity f
          ((computeTestProximityScore f testFiles : ℚ)) }

/-- The Python pack's file set. -/
def filesOf (pipeline : IndexingPipelineResult) : List String :=
  (JsMap.keys pipeline.file_metadata).filter
    (fun f => extname f == PY_EXTENSION && !(isIgnoredPath f))

/-- `runPythonPack` (Python pack), with extraction, resolution and
entry-point detection taken as parameters as for the TS/JS pack. After the
loop, `fanIn` is backfilled with a zero entry for every file without one. -/
def runPythonPack (extract : String → List String)
    (resolve : String → String → Option String)
    (detectedEntrypoints : List String)
    (fsMap : JsMap String) (pipeline : IndexingPipelineResult) : PackResult :=
  let files := filesOf pipeline
  if files.length = 0 then
    { architecture := { nodes := [], edges := [] }, imports := [], fanIn := [],
      fanOut := [], entrypoints := [], testFiles := [], complexity := [],
      loc := [], maxNesting := [], testProximity := [], warnings := [] }
  else
    let testFiles := files.foldl (fun s f =>
      if isTestPath (normalizeRelPath f) then JsSet.add s f else s) []
    let entrypoints := JsSet.addAll [] detectedEntrypoints
    let st := files.foldl (packFileStep extract resolve pipeline fsMap testFiles)
      emptyPackMaps
    let fanIn := files.foldl (fun m f =>
      if JsMap.has m f then m else JsMap.set m f 0) st.fanIn
    let arch := buildReducedArchitecture files st.imports
    { architecture := arch.1, imports := st.imports, fanIn := fanIn,
      fanOut := st.fanOut, entrypoints := entrypoints, testFiles := testFiles,
      complexity := st.complexity, loc := st.loc, maxNesting := st.maxNesting,
      testProximity := st.testProximity, warnings := arch.2 }

end Python

namespace Java

/-- `JAVA_EXTENSION` (Java pack). -/
def JAVA_EXTENSION : String := ".java"

/-- `IGNORED_DIRS` (Java pack). -/
def IGNORED_DIRS : List String :=
  ["target", "build", ".gradle", ".idea", "out", "bin", ".settings",
   ".classpath", ".project"]

/-- `isIgnoredPath` (Java pack). -/
def isIgnoredPath (relPath : String) : Bool :=
  (jsSplitOnStr (normalizeRelPath relPath) "/").any (fun seg => IGNORED_DIRS.contains seg)

/-- `TEST_PATTERNS.some((p) => p.test(n))` (Java pack): one of the four
case-sensitive suffixes. -/
def isTestPath (n : String) : Bool :=
  ["Test.java", "IT.java", "Tests.java", "TestCase.java"].any
    (fun s => strEndsWith n s)

/-- The target accumulation of the Java pack loop: resolution yields a list
of candidates; a candidate is kept when it is in the file metadata, not
ignored, and — unlike the other packs — different from the importing file
(`r !== f`). -/
def candStep (pipeline : IndexingPipelineResult) (f : String)
    (ts : JsSet) (r : String) : JsSet :=
  if JsMap.has pipeline.file_metadata r && !(isIgnoredPath r) && !(r == f) then
    JsSet.add ts r
  else ts

/-- One iteration of the Java target accumulation over a specifier. -/
def targetStep (resolve : String → List String)
    (pipeline : IndexingPipelineResult) (f : String) (ts : JsSet) (spec : String) : JsSet :=
  (resolve spec).foldl (candStep pipeline f) ts

/-- The target set of the Java pack loop. -/
def targetsOf (resolve : String → List String)
    (pipeline : IndexingPipelineResult) (f : String) (specs : List String) : JsSet :=
  specs.foldl (targetStep resolve pipeline f) []

/-- The body of the Java pack's per-file loop; the `catch` branch records
empty imports and zeroed signals. -/
def packFileStep (extract : String → List String) (resolve : String → List String)
    (pipeline : IndexingPipelineResult) (fsMap : JsMap String) (testFiles : JsSet)
    (st : PackMaps) (f : String) : PackMaps :=
  match JsMap.get? fsMap f with
  | none =>
      { imports := JsMap.set st.imports f []
        fanIn := st.fanIn
        fanOut := JsMap.set st.fanOut f 0
        complexity := JsMap.set st.complexity f 0
        loc := JsMap.set st.loc f 0
        maxNesting := JsMap.set st.maxNesting f 0
        testProximity := JsMap.set st.testProximity f
          ((computeTestProximityScore f testFiles : ℚ)) }
  | some content =>
      let sig := computeComplexitySignals content
      let targets := targetsOf resolve pipeline f (extract content)
      { imports := JsMap.set st.imports f targets
        fanIn := targets.foldl (fun m t => JsMap.set m t (JsMap.getD m t 0 + 1)) st.fanIn
        fanOut := JsMap.set st.fanOut f ((targets.length : ℚ))
        complexity := JsMap.set st.complexity f ((sig.score : ℚ))
        loc := JsMap.set st.loc f ((sig.loc : ℚ))
        maxNesting := JsMap.set st.maxNesting f ((sig.maxNesting : ℚ))
        testProximity := JsMap.set st.testProximity f
          ((computeTestProximityScore f testFiles : ℚ)) }

/-- The Java pack's file set (additionally excluding `/target/` and
`/build/` path segments). -/
def filesOf (pipeline : IndexingPipelineResult) : List String :=
  (JsMap.keys pipeline.file_metadata).filter
    (fun f => extname f == JAVA_EXTENSION && !(isIgnoredPath f) &&
      !(strContains f "/target/") && !(strContains f "/build/"))

/-- `runJavaPack` (Java pack), with extraction, resolution (via the
FQN/package indices) and entry-point detection taken as parameters. -/
def runJavaPack (extract : String → List String) (resolve : String → List String)
    (detectedEntrypoints : List String) (entrypointWarnings : List String)
    (fsMap : JsMap String) (pipeline : IndexingPipelineResult) : PackResult :=
  let files := filesOf pipeline
  if files.length = 0 then
    { architecture := { nodes := [], edges := [] }, imports := [], fanIn := [],
      fanOut := [], entrypoints := [], testFiles := [], complexity := [],
      loc := [], maxNesting := [], testProximity := [], warnings := [] }
  else
    let testFiles := files.foldl (fun s f =>
      if isTestPath (normalizeRelPath f) then JsSet.add s f else s) []
    let entrypoints := JsSet.addAll [] detectedEntrypoints
    let st := files.foldl (packFileStep extract resolve pipeline fsMap testFiles)
      emptyPackMaps
    let fanIn := files.foldl (fun m f =>
      if JsMap.has m f then m else JsMap.set m f 0) st.fanIn
    let arch := buildReducedArchitecture files st.imports
    { architecture := arch.1, imports := st.imports, fanIn := fanIn,
      fanOut := st.fanOut, entrypoints := entrypoints, testFiles := testFiles,
      complexity := st.complexity, loc := st.loc, maxNesting := st.maxNesting,
      testProximity := st.testProximity,
      warnings := entrypointWarnings ++ arch.2 }

end Java

/-- Modelled from the claim (C4): the number of import-graph edges whose
target is `x`, counting one edge per importing file listing `x`. -/
def edgesInto (m : JsMap (List String)) (x : String) : ℕ :=
  (m.filter (fun p => decide (x ∈ p.2))).length

/-- Concrete single-file pipeline for the C3/C4 counterexamples. -/
def c34PipelineW : IndexingPipelineResult where
  folder_map := FolderMapNode.node "." "dir" []
  run_commands := []
  contribute_signals := { key_docs := [], ci_configs := [] }
  file_metadata := [("a.ts", { path := "a.ts", size := 1, extension := ".ts",
                               language := "typescript" })]
  key_docs := []
  ci_configs := []
  warnings := []

/-- The file system of the C3 counterexample: `a.ts` importing itself. -/
def c3FsW : JsMap String := [("a.ts", "import \"./a\";\n")]

/-- The value of `extractImportSpecifiers` on the C3 counterexample content
(`STATIC_IMPORT_RE` captures `./a`). -/
def c3ExtractW : String → List String := fun _ => ["./a"]

/-- The value of `resolveImport` at the C3 counterexample: `./a` resolved
from `a.ts` hits the extension candidate `a.ts` itself. -/
def c3ResolveW : String → String → Option String :=
  fun f imp => if f = "a.ts" && imp = "./a" then some "a.ts" else none

/-- The file system of the C4 counterexample: `a.ts` readable with no
imports. -/
def c4FsW : JsMap String := [("a.ts", "export const x = 1;\n")]

/-- Extraction for the C4 counterexample: no import specifiers. -/
def c4ExtractW : String → List String := fun _ => []

/-- Resolution for the C4 counterexample (never consulted). -/
def c4ResolveW : String → String → Option String := fun _ _ => none

/-- A pipeline with a single unreadable Python file for the C4 witness. -/
def c4PyPipelineW : IndexingPipelineResult where
  folder_map := FolderMapNode.node "." "dir" []
  run_commands := []
  contribute_signals := { key_docs := [], ci_configs := [] }
  file_metadata := [("m.py", { path := "m.py", size := 1, extension := ".py",
                               language := "python" })]
  key_docs := []
  ci_configs := []
  warnings := []

/-! ## Start Here final ranking (`computeStartHere`, scoring.ts) -/

/-- A Start Here raw-score accumulator (`StartHereCandidate`). -/
structure StartHereCandidate where
  path : String
  rawScore : ℚ
  reasons : List String
  deriving DecidableEq, Repr

namespace Scoring

/-- The comparator of the final Start Here sort: raw score descending,
ties broken by path ascending (`localeCompare`). -/
def startHereCmp (a b : StartHereCandidate) : ℚ :=
  if b.rawScore - a.rawScore ≠ 0 then b.rawScore - a.rawScore
  else (strCompare a.path b.path : ℚ)

/-- The `ranked` list of `computeStartHere` (scoring.ts): candidates with
positive raw score and a recorded reason, sorted by raw score descending
then path ascending, truncated to the top 12. -/
def startHereRanked (candidates : List StartHereCandidate) : List StartHereCandidate :=
  ((candidates.filter
      (fun c => decide (0 < c.rawScore) && !c.reasons.isEmpty)).insertionSort
    (fun a b => startHereCmp a b ≤ 0)).take 12

/-- The tail of `computeStartHere` (scoring.ts): surviving candidates
paired with their min–max normalised scores and joined reasons. -/
def startHereFinalize (candidates : List StartHereCandidate) : List StartHereItem :=
  let ranked := startHereRanked candidates
  let normalizedScores := normalizeScores (ranked.map (·.rawScore))
  (ranked.zip normalizedScores).map
    (fun p =>
      { path := p.1.path, score := p.2,
        explanation := String.intercalate "; " p.1.reasons })

/-- The raw score of the `i`-th surviving candidate. -/
def startHereRawAt (candidates : List StartHereCandidate) (i : ℕ) : ℚ :=
  ((startHereRanked candidates).map (fun c => c.rawScore)).getD i 0

/-- The final score of the `i`-th Start Here item. -/
def startHereScoreAt (candidates : List StartHereCandidate) (i : ℕ) : ℤ :=
  ((startHereFinalize candidates).map (fun it => it.score)).getD i 0


/-- Inner loop of the BFS of `computeEntrypointDistance` (scoring.ts): scan
the successor list of the current node; a target already in the distance map
is skipped, any other is recorded at distance `d1` and appended to the
queue. -/
def bfsVisit (d1 : ℕ) : JsMap ℕ → List String → List String → JsMap ℕ × List String
  | dist, queue, [] => (dist, queue)
  | dist, queue, t :: rest =>
      if dist.has t then bfsVisit d1 dist queue rest
      else bfsVisit d1 (dist.set t d1) (queue ++ [t]) rest

/-- The `while (queue.length)` loop of `computeEntrypointDistance`
(scoring.ts), with explicit fuel. `queue.shift()` yields the head of the
queue; a falsy head — the empty string — is skipped by
`if (!current) continue`. -/
def bfsLoop (imports : JsMap (List String)) : ℕ → JsMap ℕ → List String → JsMap ℕ
  | 0, dist, _ => dist
  | _ + 1, dist, [] => dist
  | fuel + 1, dist, current :: rest =>
      if current = "" then bfsLoop imports fuel dist rest
      else
        let d := (JsMap.get? dist current).getD 0
        match bfsVisit (d + 1) dist rest ((JsMap.get? imports current).getD []) with
        | (dist2, queue2) => bfsLoop imports fuel dist2 queue2

/-- Every string the BFS can ever enqueue: the entry points together with
every import target, deduplicated. Only used to size the loop fuel. -/
def bfsUniverse (eps : List String) (imports : JsMap (List String)) : List String :=
  (eps ++ imports.foldr (fun (p : String × List String) acc => p.2 ++ acc) []).dedup

/-- `computeEntrypointDistance` (scoring.ts): seed every entry point at
distance 0 with the entry points as the initial queue, then run the BFS
loop. The fuel strictly exceeds the loop measure (queue length plus
undiscovered universe strings), so the loop always drains the queue. -/
def computeEntrypointDistance (eps : List String)
    (imports : JsMap (List String)) : JsMap ℕ :=
  let dist0 := eps.foldl (fun m ep => JsMap.set m ep 0) []
  bfsLoop imports (eps.length + (bfsUniverse eps imports).length + 1) dist0 eps

/-- The entry-point distance branch of `computeStartHere` (scoring.ts): the
additive `rawScore` contribution made for a candidate whose distance lookup
returns the given value (`undefined` ↔ `none` contributes nothing). -/
def entrypointBonus : Option ℕ → ℚ
  | none => 0
  | some d =>
      if d = 0 then 90
      else if d = 1 then 35
      else if d ≤ 3 then 18 - (d : ℚ) * 4
      else 0

end Scoring

/-- Modelled from the claim (C8): reachability from the detected entry
points in exactly `d` forward import hops. -/
inductive Reach (eps : List String) (imports : JsMap (List String)) : ℕ → String → Prop
  | entry (f : String) (h : f ∈ eps) : Reach eps imports 0 f
  | step (d : ℕ) (c f : String) (hc : Reach eps imports d c)
      (hf : f ∈ (JsMap.get? imports c).getD []) : Reach eps imports (d + 1) f

/-- Modelled from the claim (C8): `d` is the breadth-first shortest forward
import-hop distance of `f` from the entry points. -/
def IsMinDist (eps : List String) (imports : JsMap (List String))
    (f : String) (d : ℕ) : Prop :=
  Reach eps imports d f ∧ ∀ e, Reach eps imports e f → d ≤ e

/-- Modelled from the claim (C8): the additive bonus for a candidate at
shortest distance `d`: 90 at 0, 35 at 1, `18 - 4·d` at 2 or 3, else none. -/
def specEntrypointBonus (d : ℕ) : ℚ :=
  if d = 0 then 90
  else if d = 1 then 35
  else if d = 2 ∨ d = 3 then 18 - (d : ℚ) * 4
  else 0

/-- Invariant of the BFS loop of `computeEntrypointDistance`: the distance
map is sound for reachability, entry points sit at distance 0, queue
entries are discovered members of the universe, every processed node has
all successors discovered within one extra hop, every recorded distance is
bounded by the head distance plus one, and the queued distances are
pairwise nondecreasing. -/
structure BfsInv (eps : List String) (imports : JsMap (List String))
    (dist : JsMap ℕ) (queue : List String) : Prop where
  sound : ∀ f v, JsMap.get? dist f = some v → Reach eps imports v f
  entries0 : ∀ e ∈ eps, JsMap.get? dist e = some 0
  queue_key : ∀ c ∈ queue, (JsMap.get? dist c).isSome
  queue_univ : ∀ c ∈ queue, c ∈ Scoring.bfsUniverse eps imports
  closed : ∀ c v, JsMap.get? dist c = some v → c ∉ queue →
    ∀ t ∈ (JsMap.get? imports c).getD [], ∃ w, JsMap.get? dist t = some w ∧ w ≤ v + 1
  bound : ∀ c₀ rest, queue = c₀ :: rest → ∀ f v, JsMap.get? dist f = some v →
    v ≤ (JsMap.get? dist c₀).getD 0 + 1
  sorted : List.Pairwise (· ≤ ·) (queue.map (fun c => (JsMap.get? dist c).getD 0))

/-- Concrete entry points used to witness the C8 theorem. -/
def c8EpsW : List String := ["src/a.ts"]

/-- Concrete import map used to witness the C8 theorem. -/
def c8ImportsW : JsMap (List String) := [("src/a.ts", ["src/b.ts"])]

/-- A directory entry of the modelled workspace file system (`readdirSync`
with `withFileTypes`; `statSync` sizes are carried on the file entries). -/
inductive FsEntry where
  | file (name : String) (size : ℚ)
  | dir (name : String) (entries : List FsEntry)

namespace Indexer

/-- `MAX_DEPTH` (pipeline). -/
def MAX_DEPTH : ℕ := 10

/-- `MAX_FILE_COUNT` (pipeline). -/
def MAX_FILE_COUNT : ℕ := 10000

/-- The `EXT_TO_LANG` table (pipeline), with the `?? "unknown"` fallback. -/
def extToLang (ext : String) : String :=
  if ext = ".ts" then "typescript"
  else if ext = ".tsx" then "typescript"
  else if ext = ".js" then "javascript"
  else if ext = ".jsx" then "javascript"
  else if ext = ".mjs" then "javascript"
  else if ext = ".cjs" then "javascript"
  else if ext = ".py" then "python"
  else if ext = ".java" then "java"
  else if ext = ".md" then "markdown"
  else if ext = ".json" then "json"
  else if ext = ".yml" then "yaml"
  else if ext = ".yaml" then "yaml"
  else "unknown"

/-- The stems of `KEY_DOC_PATTERNS` (pipeline). -/
def keyDocStems : List String := ["readme", "contributing", "license", "changelog"]

/-- `KEY_DOC_PATTERNS.some((p) => p.test(name))` (pipeline): each pattern is
`^STEM(\.[^.]+)?$` with the `i` flag — the lower-cased name is the stem
alone, or the stem, a dot, and at least one further dot-free character. -/
def keyDocTest (name : String) : Bool :=
  keyDocStems.any (fun stem =>
    let ln := jsToLower name
    ln = stem ||
      (strStartsWith ln (stem ++ ".") &&
        decide (stem.length + 1 < ln.length) &&
        ((ln.data.drop (stem.length + 1)).all (fun c => c ≠ '.'))))

/-- `CI_PATTERNS` (pipeline). -/
def ciPatterns : List String :=
  [".github/workflows", ".gitlab-ci.yml", "Jenkinsfile", "azure-pipelines.yml"]

/-- `CI_PATTERNS.some((p) => childRel.includes(p) || childRel.endsWith(p))`
(pipeline). -/
def ciTest (childRel : String) : Bool :=
  ciPatterns.any (fun p => strContains childRel p || strEndsWith childRel p)

/-- `relPath ? path.join(relPath, ent.name) : ent.name` (pipeline): the
empty relative path is falsy, and joining onto `"."` drops the dot. -/
def joinRel (relPath name : String) : String :=
  if relPath = "" then name
  else if relPath = "." then name
  else relPath ++ "/" ++ name

/-- The mutable traversal state of `runIndexingPipeline` (pipeline):
`fileCount`, `file_metadata`, `key_docs` and `ci_configs`. -/
structure IndexState where
  fileCount : ℕ
  file_metadata : JsMap FileMetadata
  key_docs : List String
  ci_configs : List String

/-- Path of a folder-map node. -/
def nodePath : FolderMapNode → String
  | FolderMapNode.node p _ _ => p

/-- Type tag of a folder-map node. -/
def nodeType : FolderMapNode → String
  | FolderMapNode.node _ t _ => t

/-- The child comparator of `buildFolderMap` (pipeline): directories before
files, ties by `localeCompare` on the path. -/
def folderCmp (a b : FolderMapNode) : ℤ :=
  if nodeType a ≠ nodeType b then (if nodeType a = "dir" then -1 else 1)
  else strCompare (nodePath a) (nodePath b)

/-- The file branch of the entry loop of `buildFolderMap` (pipeline):
record metadata while below the file cap, then collect key-doc and CI
pattern hits. -/
def fileStep (relPath name : String) (size : ℚ) (st : IndexState) : IndexState :=
  let childRel := joinRel relPath name
  let st₁ :=
    if st.fileCount < MAX_FILE_COUNT then
      { st with
        fileCount := st.fileCount + 1,
        file_metadata := JsMap.set st.file_metadata childRel
          { path := childRel, size := size,
            extension := extname name, language := extToLang (extname name) } }
    else st
  let st₂ :=
    if keyDocTest name then { st₁ with key_docs := st₁.key_docs ++ [childRel] }
    else st₁
  if ciTest childRel then { st₂ with ci_configs := st₂.ci_configs ++ [childRel] }
  else st₂

mutual

/-- `buildFolderMap` (pipeline): stop with an empty directory node at
`MAX_DEPTH`, otherwise process the entries and sort the children. -/
def buildFolderMap (entries : List FsEntry) (relPath : String) (depth : ℕ)
    (st : IndexState) : FolderMapNode × IndexState :=
  if depth ≥ MAX_DEPTH then
    (FolderMapNode.node (if relPath = "" then "." else relPath) "dir" [], st)
  else
    match buildChildren entries relPath depth st with
    | (children, st') =>
        (FolderMapNode.node (if relPath = "" then "." else relPath) "dir"
          (children.insertionSort (fun a b => folderCmp a b ≤ 0)), st')
termination_by (sizeOf entries, 1)

/-- The entry loop of `buildFolderMap` (pipeline): skip `.git` and
`node_modules`, recurse into directories, and for files record metadata
while the file cap is not reached, always pushing a file node and checking
the key-doc and CI patterns. -/
def buildChildren (entries : List FsEntry) (relPath : String) (depth : ℕ)
    (st : IndexState) : List FolderMapNode × IndexState :=
  match entries with
  | [] => ([], st)
  | FsEntry.file name size :: rest =>
      if name = ".git" ∨ name = "node_modules" then
        buildChildren rest relPath depth st
      else
        match buildChildren rest relPath depth (fileStep relPath name size st) with
        | (nodes, st') =>
            (FolderMapNode.node (joinRel relPath name) "file" [] :: nodes, st')
  | FsEntry.dir name sub :: rest =>
      if name = ".git" ∨ name = "node_modules" then
        buildChildren rest relPath depth st
      else
        let childRel := joinRel relPath name
        match buildFolderMap sub childRel (depth + 1) st with
        | (node, st₁) =>
            match buildChildren rest relPath depth st₁ with
            | (nodes, st') => (node :: nodes, st')
termination_by (sizeOf entries, 0)

end

/-- `runIndexingPipeline` (pipeline): build the folder map from the
workspace root at relative path `"."` and depth 0, then append the cap
warning exactly when the file cap was reached. Run-command extraction only
reads manifest files and neither touches the folder map nor the cap; the
already-extracted commands are taken as an argument. -/
def runIndexingPipeline (root : List FsEntry) (run_commands : List RunCommand) :
    IndexingPipelineResult :=
  match buildFolderMap root "." 0 ⟨0, [], [], []⟩ with
  | (folder_map, st) =>
      { folder_map := folder_map
        run_commands := run_commands
        contribute_signals := { key_docs := st.key_docs, ci_configs := st.ci_configs }
        file_metadata := st.file_metadata
        key_docs := st.key_docs
        ci_configs := st.ci_configs
        warnings :=
          if st.fileCount ≥ MAX_FILE_COUNT then
            ["Max file count reached; some files omitted"]
          else [] }

end Indexer

/-- Modelled from the claim (C9): the relative paths of every file the
traversal visits — skipping `.git`/`node_modules` and depth-capped
directories — independent of the file cap. -/
def traversedFiles : List FsEntry → String → ℕ → List String
  | [], _, _ => []
  | FsEntry.file name _ :: rest, relPath, depth =>
      if name = ".git" ∨ name = "node_modules" then traversedFiles rest relPath depth
      else Indexer.joinRel relPath name :: traversedFiles rest relPath depth
  | FsEntry.dir name sub :: rest, relPath, depth =>
      if name = ".git" ∨ name = "node_modules" then traversedFiles rest relPath depth
      else
        (if depth + 1 ≥ Indexer.MAX_DEPTH then []
         else traversedFiles sub (Indexer.joinRel relPath name) (depth + 1)) ++
        traversedFiles rest relPath depth

/-- Modelled from the claim (C9): whether a file node with the given path
occurs somewhere in a folder-map tree. -/
def hasFileNode : FolderMapNode → String → Bool
  | FolderMapNode.node p t cs, q =>
      (t == "file" && p == q) || cs.attach.any (fun c => hasFileNode c.1 q)
termination_by n _ => sizeOf n
decreasing_by
  have hlt := List.sizeOf_lt_of_mem c.2
  simp only [FolderMapNode.node.sizeOf_spec]
  omega

/-- Concrete workspace tree used to witness the C9 theorem. -/
def c9RootW : List FsEntry :=
  [FsEntry.dir "a" [FsEntry.file "x.ts" 10], FsEntry.file "README.md" 5]

/-- The induction package for the traversal of `buildFolderMap`: the final
file count saturates at the cap, the metadata size never exceeds the file
count, and every traversed file path occurs as a file node among the
produced children. -/
def BuildStats (entries : List FsEntry) (relPath : String) (depth : ℕ)
    (st : Indexer.IndexState) : Prop :=
  (Indexer.buildChildren entries relPath depth st).2.fileCount =
      min (st.fileCount + (traversedFiles entries relPath depth).length)
        Indexer.MAX_FILE_COUNT ∧
  (Indexer.buildChildren entries relPath depth st).2.file_metadata.length ≤
      (Indexer.buildChildren entries relPath depth st).2.fileCount ∧
  (∀ p ∈ traversedFiles entries relPath depth,
      ∃ nd ∈ (Indexer.buildChildren entries relPath depth st).1,
        hasFileNode nd p = true)

/-- Modelled from the claim (§4.2 tier 100, TS/JS and Python): a test file
in the exact same directory. -/
def sameDirTier (f t : String) : Prop :=
  posixDirname (normalizeRelPath t) = posixDirname (normalizeRelPath f)

instance (f t : String) : Decidable (sameDirTier f t) := by
  unfold sameDirTier; infer_instance

/-- Modelled from the claim (§4.2 tier 90, TS/JS and Python): a test file
in the nested `__tests__` subdirectory of the file's directory. -/
def nestedTier (f t : String) : Prop :=
  posixDirname (normalizeRelPath t) =
      posixDirname (normalizeRelPath f) ++ "/__tests__" ∨
    strStartsWith (normalizeRelPath t)
      (posixDirname (normalizeRelPath f) ++ "/__tests__/") = true

instance (f t : String) : Decidable (nestedTier f t) := by
  unfold nestedTier; infer_instance

/-- Modelled from the claim (§4.2 tier 80, TS/JS): a directory-mirrored
test under the top-level `tests/` root. -/
def tsjsMirrorTier (f t : String) : Prop :=
  strStartsWith (normalizeRelPath t) "tests/" = true ∧
  (TsJs.stripTestSuffix (String.mk ((normalizeRelPath t).data.drop 6)) =
      TsJs.stripExtension (normalizeRelPath f) ∨
   TsJs.stripTestSuffix (String.mk ((normalizeRelPath t).data.drop 6)) =
      TsJs.stripExtension (TsJs.stripSrcPrefix (normalizeRelPath f)) ∨
   strEndsWith (TsJs.stripTestSuffix (String.mk ((normalizeRelPath t).data.drop 6)))
      ("/" ++ posixBasename (TsJs.stripExtension (normalizeRelPath f))) = true)

instance (f t : String) : Decidable (tsjsMirrorTier f t) := by
  unfold tsjsMirrorTier; infer_instance

/-- Modelled from the claim (§4.2 tier 80, Python): a directory-mirrored
test under a top-level `tests/` or `test/` root. -/
def pythonMirrorTier (f t : String) : Prop :=
  (strStartsWith (normalizeRelPath t) "tests/" = true ∨
   strStartsWith (normalizeRelPath t) "test/" = true) ∧
  (let after :=
      if strStartsWith (normalizeRelPath t) "tests/" then
        String.mk ((normalizeRelPath t).data.drop 6)
      else String.mk ((normalizeRelPath t).data.drop 5)
   let mirroredStripped := Python.stripExtension (Python.stripTestSuffix after)
   mirroredStripped = Python.stripExtension (normalizeRelPath f) ∨
   mirroredStripped =
      Python.stripExtension (Python.stripSrcPrefix (normalizeRelPath f)) ∨
   strEndsWith mirroredStripped
      ("/" ++ posixBasename (Python.stripExtension (normalizeRelPath f))) = true)

instance (f t : String) : Decidable (pythonMirrorTier f t) := by
  unfold pythonMirrorTier; infer_instance

/-- The highest tier a single test file matches for a given file (TS/JS),
per the claim's precedence order. -/
def tsjsTierOf (f t : String) : ℕ :=
  if sameDirTier f t then 100
  else if nestedTier f t then 90
  else if tsjsMirrorTier f t then 80
  else 0

/-- The highest tier a single test file matches for a given file (Python). -/
def pythonTierOf (f t : String) : ℕ :=
  if sameDirTier f t then 100
  else if nestedTier f t then 90
  else if pythonMirrorTier f t then 80
  else 0

/-- Modelled from the claim (§4.2 + "highest matching tier wins", TS/JS):
100 when the file is itself a test file or some test file matches the
same-directory tier; else 90 when some test file matches the nested tier;
else 80 when some test file matches the mirrored tier; else 0. -/
def specTsJsProximity (f : String) (ts : JsSet) : ℕ :=
  if f ∈ ts ∨ ∃ t ∈ ts, sameDirTier f t then 100
  else if ∃ t ∈ ts, nestedTier f t then 90
  else if ∃ t ∈ ts, tsjsMirrorTier f t then 80
  else 0

/-- Modelled from the claim ("highest matching tier wins", Python). -/
def specPythonProximity (f : String) (ts : JsSet) : ℕ :=
  if f ∈ ts ∨ ∃ t ∈ ts, sameDirTier f t then 100
  else if ∃ t ∈ ts, nestedTier f t then 90
  else if ∃ t ∈ ts, pythonMirrorTier f t then 80
  else 0

/-- Modelled from the spec (§4.2, tier 100, Java variant): an exact
naming-convention match `<Name>Test.java` for the file is present in the
mirrored test root.  This is the claim's tier-100 condition, used to show
the Java pack does not give the highest matching tier precedence. -/
def specJavaMirroredExactTest (prodFile : String) (testFiles : JsSet) : Bool :=
  let normFile := normalizeRelPath prodFile
  match Java.mainJavaMatch normFile with
  | some (pfx, relPath) =>
      decide ((pfx ++ "src/test/java/" ++ posixDirname relPath ++ "/" ++
        Java.javaBasenameNoExt normFile ++ "Test.java") ∈ testFiles)
  | none => false

/-- Claim-side: the number of distinct groups (folders/packages) of the
file population. -/
def distinctGroupCount (groupOf : String → String) (files : List String) : ℕ :=
  (JsMap.keys (groupFileCounts groupOf files)).length

/-- Claim-side: the number of distinct group-to-group edges of the
file-level import graph (all of them, not only those between kept groups). -/
def distinctGroupEdgeCount (groupOf : String → String)
    (imports : JsMap (List String)) : ℕ :=
  (JsMap.keys (groupEdgeWeights groupOf imports)).length

/-- Claim-side: some warning in the list starts with the given text. -/
def hasWarnStartingWith (p : String) (ws : List String) : Prop :=
  ∃ w ∈ ws, strStartsWith w p = true

instance (p : String) (ws : List String) : Decidable (hasWarnStartingWith p ws) :=
  List.decidableBEx _ ws

/-! ## Claim-side definitions for C1

These follow the words of the claim, not the code: the percentile rank of a
value `v` within a population is `(#(strictly below) + 0.5·#(equal)) / n ·
100`, counted directly over the population (no sorting, no clamping), and
the danger score is the weighted composite, clamped to `[0,100]` and
rounded. -/

/-- Percentile rank as stated by the claim: `((count of population values
strictly below v) + 0.5·(count of population values equal to v)) /
(population size) · 100`. -/
def specPercentileRank (pop : List ℚ) (v : ℚ) : ℚ :=
  (((pop.countP (fun x => decide (x < v)) : ℚ) +
      (pop.countP (fun x => decide (x = v)) : ℚ) * (1 / 2)) / (pop.length : ℚ)) * 100

/-- `clamp(x, 0, 100)`. -/
def clamp0100 (x : ℚ) : ℚ := max 0 (min 100 x)

/-- The Danger Zones score of an eligible file, as stated by the claim:
`round(clamp(0.20·sizeP + 0.25·fanInP + 0.20·fanOutP + 0.25·complexityP +
0.10·(100 − proximityP), 0, 100))` with each `P` a `specPercentileRank`
within the eligible-file population. -/
def specDangerScore (pipeline : IndexingPipelineResult)
    (tsjs python : Option PackResult) (f : String) : ℤ :=
  let files := Scoring.eligibleFiles pipeline tsjs python
  let pack := Scoring.packFor tsjs python
  let sizeP := specPercentileRank (files.map (Scoring.fileSizeOf pipeline))
    (Scoring.fileSizeOf pipeline f)
  let fanInP := specPercentileRank (files.map (fun g => JsMap.getD (pack g).fanIn g 0))
    (JsMap.getD (pack f).fanIn f 0)
  let fanOutP := specPercentileRank (files.map (fun g => JsMap.getD (pack g).fanOut g 0))
    (JsMap.getD (pack f).fanOut f 0)
  let complexityP := specPercentileRank (files.map (fun g => JsMap.getD (pack g).complexity g 0))
    (JsMap.getD (pack f).complexity f 0)
  let proximityP := specPercentileRank (files.map (fun g => JsMap.getD (pack g).testProximity g 0))
    (JsMap.getD (pack f).testProximity f 0)
  round (clamp0100
    (0.20 * sizeP + 0.25 * fanInP + 0.20 * fanOutP + 0.25 * complexityP +
      0.10 * (100 - proximityP)))

/-! ## Concrete witness inputs -/

/-- Concrete pipeline for the C1 witness: one TS file of size 10. -/
def c1PipelineW : IndexingPipelineResult where
  folder_map := .node "." "dir" []
  run_commands := []
  contribute_signals := { key_docs := [], ci_configs := [] }
  file_metadata :=
    [("a.ts", { path := "a.ts", size := 10, extension := ".ts", language := "typescript" })]
  key_docs := []
  ci_configs := []
  warnings := []

/-- The first Danger Zones item of the witness run. -/
def c1ItemW : DangerZoneItem :=
  (Scoring.computeDangerZones c1PipelineW (some emptyPackResult) none).headI

/-- Sixty non-empty one-character lines: `loc = 60`, no branch keywords, no
nesting; `60 / 40` rounds half-up to 2 but floors to 1. -/
def c2ContentW : String := String.join (List.replicate 60 "x\n")

/-- Concrete Start Here candidates used to witness the C7 theorem. -/
def c7CandsW : List StartHereCandidate :=
  [{ path := "src/a.ts", rawScore := 5, reasons := ["Key documentation"] },
   { path := "src/b.ts", rawScore := 3, reasons := ["Entry point"] }]

/-- Folder name `f01` … `f50` for the C5 counterexample. -/
def c5Name (i : ℕ) : String :=
  "f" ++ (if i < 10 then "0" else "") ++ toString i

/-- 51 files in 51 distinct folders (`f01` … `f50` and `zz`). -/
def c5FilesW : List String :=
  ((List.range 50).map (fun i => c5Name (i + 1) ++ "/x")) ++ ["zz/x"]

/-- Import graph: each `fNN/x` imports the files of the next four folders
(cyclically), giving 200 distinct folder edges among `f01`…`f50`, and
`zz/x` imports `f01/x`, giving a 201st distinct folder edge.  Folder
degrees: `f01` 9, `f02`…`f50` 8, `zz` 1, so the node cap drops exactly
`zz` and only 200 folder edges survive. -/
def c5ImportsW : JsMap (List String) :=
  ((List.range 50).map (fun i =>
    (c5Name (i + 1) ++ "/x",
     (List.range 4).map (fun k => c5Name ((i + k + 1) % 50 + 1) ++ "/x")))) ++
  [("zz/x", ["f01/x"])]

/-- The edge-weight map of the C5 counterexample, as a literal. -/
def c5GewLit : JsMap ℕ :=
  [("f01=>f02", 1), ("f01=>f03", 1), ("f01=>f04", 1), ("f01=>f05", 1),
   ("f02=>f03", 1), ("f02=>f04", 1), ("f02=>f05", 1), ("f02=>f06", 1),
   ("f03=>f04", 1), ("f03=>f05", 1), ("f03=>f06", 1), ("f03=>f07", 1),
   ("f04=>f05", 1), ("f04=>f06", 1), ("f04=>f07", 1), ("f04=>f08", 1),
   ("f05=>f06", 1), ("f05=>f07", 1), ("f05=>f08", 1), ("f05=>f09", 1),
   ("f06=>f07", 1), ("f06=>f08", 1), ("f06=>f09", 1), ("f06=>f10", 1),
   ("f07=>f08", 1), ("f07=>f09", 1), ("f07=>f10", 1), ("f07=>f11", 1),
   ("f08=>f09", 1), ("f08=>f10", 1), ("f08=>f11", 1), ("f08=>f12", 1),
   ("f09=>f10", 1), ("f09=>f11", 1), ("f09=>f12", 1), ("f09=>f13", 1),
   ("f10=>f11", 1), ("f10=>f12", 1), ("f10=>f13", 1), ("f10=>f14", 1),
   ("f11=>f12", 1), ("f11=>f13", 1), ("f11=>f14", 1), ("f11=>f15", 1),
   ("f12=>f13", 1), ("f12=>f14", 1), ("f12=>f15", 1), ("f12=>f16", 1),
   ("f13=>f14", 1), ("f13=>f15", 1), ("f13=>f16", 1), ("f13=>f17", 1),
   ("f14=>f15", 1), ("f14=>f16", 1), ("f14=>f17", 1), ("f14=>f18", 1),
   ("f15=>f16", 1), ("f15=>f17", 1), ("f15=>f18", 1), ("f15=>f19", 1),
   ("f16=>f17", 1), ("f16=>f18", 1), ("f16=>f19", 1), ("f16=>f20", 1),
   ("f17=>f18", 1), ("f17=>f19", 1), ("f17=>f20", 1), ("f17=>f21", 1),
   ("f18=>f19", 1), ("f18=>f20", 1), ("f18=>f21", 1), ("f18=>f22", 1),
   ("f19=>f20", 1), ("f19=>f21", 1), ("f19=>f22", 1), ("f19=>f23", 1),
   ("f20=>f21", 1), ("f20=>f22", 1), ("f20=>f23", 1), ("f20=>f24", 1),
   ("f21=>f22", 1), ("f21=>f23", 1), ("f21=>f24", 1), ("f21=>f25", 1),
   ("f22=>f23", 1), ("f22=>f24", 1), ("f22=>f25", 1), ("f22=>f26", 1),
   ("f23=>f24", 1), ("f23=>f25", 1), ("f23=>f26", 1), ("f23=>f27", 1),
   ("f24=>f25", 1), ("f24=>f26", 1), ("f24=>f27", 1), ("f24=>f28", 1),
   ("f25=>f26", 1), ("f25=>f27", 1), ("f25=>f28", 1), ("f25=>f29", 1),
   ("f26=>f27", 1), ("f26=>f28", 1), ("f26=>f29", 1), ("f26=>f30", 1),
   ("f27=>f28", 1), ("f27=>f29", 1), ("f27=>f30", 1), ("f27=>f31", 1),
   ("f28=>f29", 1), ("f28=>f30", 1), ("f28=>f31", 1), ("f28=>f32", 1),
   ("f29=>f30", 1), ("f29=>f31", 1), ("f29=>f32", 1), ("f29=>f33", 1),
   ("f30=>f31", 1), ("f30=>f32", 1), ("f30=>f33", 1), ("f30=>f34", 1),
   ("f31=>f32", 1), ("f31=>f33", 1), ("f31=>f34", 1), ("f31=>f35", 1),
   ("f32=>f33", 1), ("f32=>f34", 1), ("f32=>f35", 1), ("f32=>f36", 1),
   ("f33=>f34", 1), ("f33=>f35", 1), ("f33=>f36", 1), ("f33=>f37", 1),
   ("f34=>f35", 1), ("f34=>f36", 1), ("f34=>f37", 1), ("f34=>f38", 1),
   ("f35=>f36", 1), ("f35=>f37", 1), ("f35=>f38", 1), ("f35=>f39", 1),
   ("f36=>f37", 1), ("f36=>f38", 1), ("f36=>f39", 1), ("f36=>f40", 1),
   ("f37=>f38", 1), ("f37=>f39", 1), ("f37=>f40", 1), ("f37=>f41", 1),
   ("f38=>f39", 1), ("f38=>f40", 1), ("f38=>f41", 1), ("f38=>f42", 1),
   ("f39=>f40", 1), ("f39=>f41", 1), ("f39=>f42", 1), ("f39=>f43", 1),
   ("f40=>f41", 1), ("f40=>f42", 1), ("f40=>f43", 1), ("f40=>f44", 1),
   ("f41=>f42", 1), ("f41=>f43", 1), ("f41=>f44", 1), ("f41=>f45", 1),
   ("f42=>f43", 1), ("f42=>f44", 1), ("f42=>f45", 1), ("f42=>f46", 1),
   ("f43=>f44", 1), ("f43=>f45", 1), ("f43=>f46", 1), ("f43=>f47", 1),
   ("f44=>f45", 1), ("f44=>f46", 1), ("f44=>f47", 1), ("f44=>f48", 1),
   ("f45=>f46", 1), ("f45=>f47", 1), ("f45=>f48", 1), ("f45=>f49", 1),
   ("f46=>f47", 1), ("f46=>f48", 1), ("f46=>f49", 1), ("f46=>f50", 1),
   ("f47=>f48", 1), ("f47=>f49", 1), ("f47=>f50", 1), ("f47=>f01", 1),
   ("f48=>f49", 1), ("f48=>f50", 1), ("f48=>f01", 1), ("f48=>f02", 1),
   ("f49=>f50", 1), ("f49=>f01", 1), ("f49=>f02", 1), ("f49=>f03", 1),
   ("f50=>f01", 1), ("f50=>f02", 1), ("f50=>f03", 1), ("f50=>f04", 1),
   ("zz=>f01", 1)]

/-- The per-folder file counts of the C5 counterexample, as a literal. -/
def c5CntLit : JsMap ℕ :=
  [("f01", 1), ("f02", 1), ("f03", 1), ("f04", 1),
   ("f05", 1), ("f06", 1), ("f07", 1), ("f08", 1),
   ("f09", 1), ("f10", 1), ("f11", 1), ("f12", 1),
   ("f13", 1), ("f14", 1), ("f15", 1), ("f16", 1),
   ("f17", 1), ("f18", 1), ("f19", 1), ("f20", 1),
   ("f21", 1), ("f22", 1), ("f23", 1), ("f24", 1),
   ("f25", 1), ("f26", 1), ("f27", 1), ("f28", 1),
   ("f29", 1), ("f30", 1), ("f31", 1), ("f32", 1),
   ("f33", 1), ("f34", 1), ("f35", 1), ("f36", 1),
   ("f37", 1), ("f38", 1), ("f39", 1), ("f40", 1),
   ("f41", 1), ("f42", 1), ("f43", 1), ("f44", 1),
   ("f45", 1), ("f46", 1), ("f47", 1), ("f48", 1),
   ("f49", 1), ("f50", 1), ("zz", 1)]

/-- The folder degrees of the C5 counterexample, as a literal. -/
def c5DegLit : JsMap ℕ :=
  [("f01", 9), ("f02", 8), ("f03", 8), ("f04", 8),
   ("f05", 8), ("f06", 8), ("f07", 8), ("f08", 8),
   ("f09", 8), ("f10", 8), ("f11", 8), ("f12", 8),
   ("f13", 8), ("f14", 8), ("f15", 8), ("f16", 8),
   ("f17", 8), ("f18", 8), ("f19", 8), ("f20", 8),
   ("f21", 8), ("f22", 8), ("f23", 8), ("f24", 8),
   ("f25", 8), ("f26", 8), ("f27", 8), ("f28", 8),
   ("f29", 8), ("f30", 8), ("f31", 8), ("f32", 8),
   ("f33", 8), ("f34", 8), ("f35", 8), ("f36", 8),
   ("f37", 8), ("f38", 8), ("f39", 8), ("f40", 8),
   ("f41", 8), ("f42", 8), ("f43", 8), ("f44", 8),
   ("f45", 8), ("f46", 8), ("f47", 8), ("f48", 8),
   ("f49", 8), ("f50", 8), ("zz", 1)]

/-- The sorted folder list of the C5 counterexample, as a literal. -/
def c5SortedLit : List String :=
  ["f01", "f02", "f03", "f04", "f05", "f06", "f07", "f08",
   "f09", "f10", "f11", "f12", "f13", "f14", "f15", "f16",
   "f17", "f18", "f19", "f20", "f21", "f22", "f23", "f24",
   "f25", "f26", "f27", "f28", "f29", "f30", "f31", "f32",
   "f33", "f34", "f35", "f36", "f37", "f38", "f39", "f40",
   "f41", "f42", "f43", "f44", "f45", "f46", "f47", "f48",
   "f49", "f50", "zz"]

/-- Two files in two folders with one import edge, for the C10 witness. -/
def c10FilesW : List String := ["a/x", "b/y"]

/-- `a/x` imports `b/y`. -/
def c10ImportsW : JsMap (List String) := [("a/x", ["b/y"])]

/-- The first edge of the TS/JS-reduced witness architecture. -/
def c10EdgeW : ArchEdge :=
  (TsJs.buildReducedArchitecture c10FilesW c10ImportsW).1.edges.headI

/-! ## Library lemmas -/

theorem JsMap.get?_set_self {β : Type} (m : JsMap β) (k : String) (v : β) :
    get? (set m k v) k = some v := by
  induction m with
  | nil => simp [set, get?]
  | cons hd tl ih =>
      by_cases h : hd.1 = k
      · cases hd; simp_all [set, get?]
      · cases hd; simp_all [set, get?]

theorem JsMap.get?_set_ne {β : Type} (m : JsMap β) (k k' : String) (v : β) (h : k ≠ k') :
    get? (set m k v) k' = get? m k' := by
  induction m with
  | nil => simp [set, get?, h]
  | cons hd tl ih =>
      cases hd with
      | mk k₀ v₀ =>
        by_cases hk : k₀ = k
        · subst hk; simp_all [set, get?]
        · by_cases hk' : k₀ = k' <;> simp_all [set, get?]

theorem JsMap.has_set {β : Type} (m : JsMap β) (k k' : String) (v : β) :
    has (set m k v) k' = (k = k' || has m k') := by
  by_cases h : k = k'
  · subst h; simp [has, get?_set_self]
  · simp [has, get?_set_ne m k k' v h, h]

theorem JsMap.keys_set_subset {β : Type} (m : JsMap β) (k : String) (v : β) :
    ∀ x ∈ keys (set m k v), x = k ∨ x ∈ keys m := by
  induction m with
  | nil => intro x hx; simp [set, keys] at hx; exact Or.inl hx
  | cons hd tl ih =>
      intro x hx
      cases hd with
      | mk k₀ v₀ =>
        by_cases h : k₀ = k
        · subst h; simp [set, keys] at hx ⊢; tauto
        · simp [set, keys, h] at hx
          rcases hx with hx | hx
          · exact Or.inr (by simp [keys, hx])
          · rcases ih x (by simpa [keys] using hx) with h' | h'
            · exact Or.inl h'
            · exact Or.inr (by simp [keys]; right; simpa [keys] using h')

theorem JsMap.mem_keys_of_get? {β : Type} (m : JsMap β) (k : String) (v : β)
    (h : get? m k = some v) : k ∈ keys m := by
  induction m with
  | nil => simp [get?] at h
  | cons hd tl ih =>
      cases hd with
      | mk k₀ v₀ =>
        by_cases hk : k₀ = k
        · subst hk; simp [keys]
        · simp [get?, hk] at h
          simp [keys]
          exact Or.inr (by simpa [keys] using ih h)

theorem JsMap.get?_isSome_of_mem_keys {β : Type} (m : JsMap β) (k : String)
    (h : k ∈ keys m) : (get? m k).isSome := by
  induction m with
  | nil => simp [keys] at h
  | cons hd tl ih =>
      cases hd with
      | mk k₀ v₀ =>
        by_cases hk : k₀ = k
        · subst hk; simp [get?]
        · simp [keys, hk] at h
          rcases h with h | h
          · exact absurd h.symm hk
          · simpa [get?, hk] using ih (by simpa [keys] using h)

theorem JsMap.has_iff_mem_keys {β : Type} (m : JsMap β) (k : String) :
    has m k = true ↔ k ∈ keys m := by
  constructor
  · intro h
    simp [has] at h
    rcases Option.isSome_iff_exists.mp h with ⟨v, hv⟩
    exact mem_keys_of_get? m k v hv
  · intro h
    simpa [has] using get?_isSome_of_mem_keys m k h

theorem JsSet.mem_add (s : JsSet) (x y : String) :
    y ∈ add s x ↔ y = x ∨ y ∈ s := by
  unfold add
  by_cases h : x ∈ s
  · simp only [if_pos h]
    constructor
    · exact Or.inr
    · rintro (rfl | hy) <;> [exact h; exact hy]
  · simp [h, or_comm]

theorem JsSet.mem_addAll (s : JsSet) (l : List String) (y : String) :
    y ∈ addAll s l ↔ y ∈ s ∨ y ∈ l := by
  induction l generalizing s with
  | nil => simp [addAll]
  | cons hd tl ih =>
      simp only [addAll, List.foldl_cons]
      rw [show List.foldl add (add s hd) tl = addAll (add s hd) tl from rfl, ih, mem_add]
      simp only [List.mem_cons]
      tauto

theorem charListCompare_eq_iff : ∀ a b : List Char, charListCompare a b = .eq ↔ a = b := by
  intro a
  induction a with
  | nil => intro b; cases b <;> simp [charListCompare]
  | cons x xs ih =>
      intro b
      cases b with
      | nil => simp [charListCompare]
      | cons y ys =>
          by_cases h₁ : x < y
          · simp [charListCompare, h₁]
            intro he; subst he; simp at h₁
          · by_cases h₂ : y < x
            · simp [charListCompare, h₁, h₂]
              intro he; subst he; simp at h₂
            · have hxy : x = y := le_antisymm (not_lt.mp h₂) (not_lt.mp h₁)
              subst hxy
              simp [charListCompare, h₁, h₂, ih ys]


/-! ### C1: the code's percentile rank equals the claim's -/

theorem percentile_counts_fold (value : ℚ) (l : List ℚ) (acc : ℕ × ℕ) :
    l.foldl
      (fun (acc : ℕ × ℕ) entry =>
        if entry < value then (acc.1 + 1, acc.2)
        else if entry = value then (acc.1, acc.2 + 1)
        else acc)
      acc =
    (acc.1 + l.countP (fun x => decide (x < value)),
     acc.2 + l.countP (fun x => decide (x = value))) := by
  induction l generalizing acc with
  | nil => simp
  | cons hd tl ih =>
      by_cases h₁ : hd < value
      · have h₂ : hd ≠ value := ne_of_lt h₁
        simp [List.countP_cons, h₁, h₂, ih]
        omega
      · by_cases h₂ : hd = value
        · simp [List.countP_cons, h₁, h₂, ih]
          omega
        · simp [List.countP_cons, h₁, h₂, ih]

theorem countP_lt_add_countP_eq_le (value : ℚ) (l : List ℚ) :
    l.countP (fun x => decide (x < value)) + l.countP (fun x => decide (x = value))
      ≤ l.length := by
  induction l with
  | nil => simp
  | cons hd tl ih =>
      by_cases h₁ : hd < value
      · have h₂ : hd ≠ value := ne_of_lt h₁
        simp [List.countP_cons, h₁, h₂]
        omega
      · by_cases h₂ : hd = value
        · simp [List.countP_cons, h₁, h₂]
          omega
        · simp [List.countP_cons, h₁, h₂]
          omega

/-- For a nonempty population the claim's percentile rank already lies in
`[0, 100]`, so the clamp inside the code's `percentileRank` is inert. -/
theorem specPercentileRank_mem_Icc (pop : List ℚ) (v : ℚ) (h : pop ≠ []) :
    0 ≤ specPercentileRank pop v ∧ specPercentileRank pop v ≤ 100 := by
  have hlen : 0 < (pop.length : ℚ) := by
    have : 0 < pop.length := List.length_pos.mpr h
    exact_mod_cast this
  unfold specPercentileRank
  have hb : (0 : ℚ) ≤ (pop.countP (fun x => decide (x < v)) : ℚ) := by positivity
  have he : (0 : ℚ) ≤ (pop.countP (fun x => decide (x = v)) : ℚ) := by positivity
  constructor
  · have hnum : (0 : ℚ) ≤
        ((pop.countP (fun x => decide (x < v)) : ℚ) +
          (pop.countP (fun x => decide (x = v)) : ℚ) * (1 / 2)) := by nlinarith
    have := div_nonneg hnum (le_of_lt hlen)
    nlinarith
  · have hle := countP_lt_add_countP_eq_le v pop
    have hle' : ((pop.countP (fun x => decide (x < v)) : ℚ) +
        (pop.countP (fun x => decide (x = v)) : ℚ)) ≤ (pop.length : ℚ) := by
      exact_mod_cast hle
    have hnum : ((pop.countP (fun x => decide (x < v)) : ℚ) +
        (pop.countP (fun x => decide (x = v)) : ℚ) * (1 / 2)) ≤ (pop.length : ℚ) := by
      nlinarith
    have hdiv : ((pop.countP (fun x => decide (x < v)) : ℚ) +
        (pop.countP (fun x => decide (x = v)) : ℚ) * (1 / 2)) / (pop.length : ℚ) ≤ 1 := by
      rw [div_le_one hlen]; exact hnum
    nlinarith

/-- The code's `percentileRank` (sorted-copy counting loop, clamped) agrees
with the claim's count-based percentile rank on every input. -/
theorem percentileRank_eq_spec (values : List ℚ) (v : ℚ) :
    Scoring.percentileRank values v = specPercentileRank values v := by
  by_cases h : values.length = 0
  · have hnil : values = [] := List.length_eq_zero.mp h
    subst hnil
    simp [Scoring.percentileRank, specPercentileRank]
  · have hne : values ≠ [] := fun hc => h (by simp [hc])
    unfold Scoring.percentileRank
    rw [if_neg h]
    have hperm := List.perm_insertionSort (fun a b : ℚ => a ≤ b) values
    have hfold := percentile_counts_fold v (values.insertionSort (fun a b : ℚ => a ≤ b)) (0, 0)
    have hcLt : (values.insertionSort (fun a b : ℚ => a ≤ b)).countP
        (fun x => decide (x < v)) = values.countP (fun x => decide (x < v)) :=
      hperm.countP_eq _
    have hcEq : (values.insertionSort (fun a b : ℚ => a ≤ b)).countP
        (fun x => decide (x = v)) = values.countP (fun x => decide (x = v)) :=
      hperm.countP_eq _
    have hlen : (values.insertionSort (fun a b : ℚ => a ≤ b)).length = values.length :=
      hperm.length_eq
    simp only [hfold, hcLt, hcEq, hlen, Nat.zero_add]
    have hhalf : (0.5 : ℚ) = 1 / 2 := by norm_num
    have hrank :
        (((values.countP (fun x => decide (x < v)) : ℚ) +
            (values.countP (fun x => decide (x = v)) : ℚ) * 0.5) / (values.length : ℚ)) * 100 =
          specPercentileRank values v := by
      unfold specPercentileRank
      rw [hhalf]
    rw [hrank]
    rcases specPercentileRank_mem_Icc values v hne with ⟨h₀, h₁⟩
    rw [min_eq_right h₁, max_eq_right h₀]

/-- The score of the item built for a file equals the claim's formula. -/
theorem dangerItemFor_score (pipeline : IndexingPipelineResult)
    (tsjs python : Option PackResult) (f : String) :
    (Scoring.dangerItemFor pipeline tsjs python f).score =
      specDangerScore pipeline tsjs python f := by
  unfold Scoring.dangerItemFor specDangerScore clamp0100
  simp only [percentileRank_eq_spec]
  norm_num

/-- C1.  For every file eligible for Danger Zones, the item's score equals
`round(clamp(0.20·sizeP + 0.25·fanInP + 0.20·fanOutP + 0.25·complexityP +
0.10·(100 − proximityP), 0, 100))`, where each percentile rank is computed
with the "below + half of equal over population size" rule within the
eligible-file population; moreover every eligible file yields an item. -/
theorem C1_danger_zone_score_formula (pipeline : IndexingPipelineResult)
    (tsjs python : Option PackResult) :
    (∀ item ∈ Scoring.computeDangerZones pipeline tsjs python,
        item.score = specDangerScore pipeline tsjs python item.path) ∧
    (∀ f ∈ Scoring.eligibleFiles pipeline tsjs python,
        ∃ item ∈ Scoring.computeDangerZones pipeline tsjs python, item.path = f) := by
  constructor
  · intro item hitem
    unfold Scoring.computeDangerZones at hitem
    by_cases h : (Scoring.eligibleFiles pipeline tsjs python).length = 0
    · simp [h] at hitem
    · simp only [if_neg h] at hitem
      have hperm := List.perm_insertionSort
        (fun a b : DangerZoneItem => b.score ≤ a.score)
        ((Scoring.eligibleFiles pipeline tsjs python).map
          (Scoring.dangerItemFor pipeline tsjs python))
      have hmem := hperm.mem_iff.mp hitem
      rcases List.mem_map.mp hmem with ⟨f, _, rfl⟩
      exact dangerItemFor_score pipeline tsjs python f
  · intro f hf
    have h : (Scoring.eligibleFiles pipeline tsjs python).length ≠ 0 := by
      intro hc
      rw [List.length_eq_zero.mp hc] at hf
      simp at hf
    refine ⟨Scoring.dangerItemFor pipeline tsjs python f, ?_, rfl⟩
    unfold Scoring.computeDangerZones
    simp only [if_neg h]
    have hperm := List.perm_insertionSort
      (fun a b : DangerZoneItem => b.score ≤ a.score)
      ((Scoring.eligibleFiles pipeline tsjs python).map
        (Scoring.dangerItemFor pipeline tsjs python))
    exact hperm.mem_iff.mpr (List.mem_map_of_mem _ hf)

unseal Rat.mul Rat.add Rat.sub Rat.inv Rat.ofScientific in
theorem C1_danger_zone_score_formula_witness :
    c1ItemW.score = specDangerScore c1PipelineW (some emptyPackResult) none c1ItemW.path :=
  (C1_danger_zone_score_formula c1PipelineW (some emptyPackResult) none).1 c1ItemW (by decide)

/-! ### C2: the composite complexity score -/

theorem round_natDiv40 (n : ℕ) :
    round ((n : ℚ) / 40) = (((n + 20) / 40 : ℕ) : ℤ) := by
  have h1 : ((n : ℚ) / 40 + 1 / 2) = ((2 * n + 40 : ℤ) : ℚ) / ((80 : ℕ) : ℚ) := by
    push_cast
    ring
  rw [round_eq, h1, Rat.floor_intCast_div_natCast]
  have h2 : (2 * (n : ℤ) + 40) = 2 * ((n : ℤ) + 20) := by ring
  have h3 : ((80 : ℕ) : ℤ) = 2 * 40 := by norm_num
  rw [h2, h3, Int.mul_ediv_mul_of_pos _ _ (by norm_num : (0 : ℤ) < 2)]
  omega

/-- C2 (amended).  In every Language Pack the composite complexity score is
`3·branches + 2·maxNesting + round(loc/40)` with JavaScript round-half-up,
i.e. `3·branches + 2·maxNesting + ⌊(loc + 20)/40⌋` — not `⌊loc/40⌋` as the
claim states. -/
theorem C2_complexity_score_rounds (content : String) :
    ((TsJs.computeComplexitySignals content).score =
        3 * ((TsJs.computeComplexitySignals content).branchCount : ℤ) +
        2 * ((TsJs.computeComplexitySignals content).maxNesting : ℤ) +
        ((((TsJs.computeComplexitySignals content).loc + 20) / 40 : ℕ) : ℤ)) ∧
    ((Python.computeComplexitySignals content).score =
        3 * ((Python.computeComplexitySignals content).branchCount : ℤ) +
        2 * ((Python.computeComplexitySignals content).maxNesting : ℤ) +
        ((((Python.computeComplexitySignals content).loc + 20) / 40 : ℕ) : ℤ)) ∧
    ((Java.computeComplexitySignals content).score =
        3 * ((Java.computeComplexitySignals content).branchCount : ℤ) +
        2 * ((Java.computeComplexitySignals content).maxNesting : ℤ) +
        ((((Java.computeComplexitySignals content).loc + 20) / 40 : ℕ) : ℤ)) := by
  refine ⟨?_, ?_, ?_⟩
  · unfold TsJs.computeComplexitySignals
    simp only [round_natDiv40]
    ring
  · unfold Python.computeComplexitySignals
    simp only [round_natDiv40]
    ring
  · unfold Java.computeComplexitySignals
    simp only [round_natDiv40]
    ring

unseal Rat.mul Rat.add Rat.sub Rat.inv Rat.ofScientific in
/-- C2 (counterexample).  On sixty non-empty lines the Python pack (the
other two packs use the identical formula) computes `loc = 60`, no branches,
no nesting, and score `round(60/40) = 2`, while the claim's
`3·branches + 2·maxNesting + floor(loc/40)` is `1`. -/
theorem C2_complexity_floor_counterexample :
    (Python.computeComplexitySignals c2ContentW).loc = 60 ∧
    (Python.computeComplexitySignals c2ContentW).branchCount = 0 ∧
    (Python.computeComplexitySignals c2ContentW).maxNesting = 0 ∧
    (Python.computeComplexitySignals c2ContentW).score = 2 ∧
    (Python.computeComplexitySignals c2ContentW).score ≠
      3 * ((Python.computeComplexitySignals c2ContentW).branchCount : ℤ) +
      2 * ((Python.computeComplexitySignals c2ContentW).maxNesting : ℤ) +
      ((((Python.computeComplexitySignals c2ContentW).loc / 40 : ℕ)) : ℤ) := by
  decide

/-! ### C5 and C10: the Architecture Reducer -/

theorem strStartsWith_true_of_data_prefix (s p : String)
    (h : p.data <+: s.data) : strStartsWith s p = true := by
  unfold strStartsWith
  exact List.isPrefixOf_iff_prefix.mpr h

theorem strStartsWith_false_of_take_ne (s p : String)
    (h : p.data ≠ s.data.take p.data.length) : strStartsWith s p = false := by
  unfold strStartsWith
  rw [Bool.eq_false_iff]
  intro hc
  exact h (List.prefix_iff_eq_take.mp (List.isPrefixOf_iff_prefix.mp hc))

theorem nodeCapWarn_startsWith_nodeCap (u : String) (n : ℕ) :
    strStartsWith (nodeCapWarnStr u n) "Architecture nodes capped" = true := by
  apply strStartsWith_true_of_data_prefix
  unfold nodeCapWarnStr
  simp only [String.data_append, List.append_assoc]
  refine List.IsPrefix.trans
    (show "Architecture nodes capped".data <+: "Architecture nodes capped at ".data by decide) ?_
  exact List.prefix_append _ _

theorem edgeCapWarn_startsWith_edgeCap (n : ℕ) :
    strStartsWith (edgeCapWarnStr n) "Architecture edges capped" = true := by
  apply strStartsWith_true_of_data_prefix
  unfold edgeCapWarnStr
  simp only [String.data_append, List.append_assoc]
  refine List.IsPrefix.trans
    (show "Architecture edges capped".data <+: "Architecture edges capped at ".data by decide) ?_
  exact List.prefix_append _ _

theorem reducedWarn_not_startsWith_nodeCap (u l : String) (nf ns : ℕ) :
    strStartsWith (reducedWarnStr u l nf ns) "Architecture nodes capped" = false := by
  apply strStartsWith_false_of_take_ne
  unfold reducedWarnStr
  simp only [String.data_append, List.append_assoc]
  rw [List.take_append_of_le_length (by decide)]
  decide

theorem reducedWarn_not_startsWith_edgeCap (u l : String) (nf ns : ℕ) :
    strStartsWith (reducedWarnStr u l nf ns) "Architecture edges capped" = false := by
  apply strStartsWith_false_of_take_ne
  unfold reducedWarnStr
  simp only [String.data_append, List.append_assoc]
  rw [List.take_append_of_le_length (by decide)]
  decide

theorem edgeCapWarn_not_startsWith_nodeCap (n : ℕ) :
    strStartsWith (edgeCapWarnStr n) "Architecture nodes capped" = false := by
  apply strStartsWith_false_of_take_ne
  unfold edgeCapWarnStr
  simp only [String.data_append, List.append_assoc]
  rw [List.take_append_of_le_length (by decide)]
  decide

theorem nodeCapWarn_not_startsWith_edgeCap (u : String) (n : ℕ) :
    strStartsWith (nodeCapWarnStr u n) "Architecture edges capped" = false := by
  apply strStartsWith_false_of_take_ne
  unfold nodeCapWarnStr
  simp only [String.data_append, List.append_assoc]
  rw [List.take_append_of_le_length (by decide)]
  decide

/-- The warnings list of the reducer, unfolded. -/
theorem buildReducedArchitecture_warnings (groupOf : String → String)
    (u l : String) (labelOf : String → String)
    (files : List String) (imports : JsMap (List String)) :
    (buildReducedArchitecture groupOf u l labelOf files imports).2 =
      (if ARCH_NODE_CAP < (sortedGroups groupOf files imports).length then
        [nodeCapWarnStr u (sortedGroups groupOf files imports).length] else []) ++
      (if (selectedGroups groupOf files imports).length < files.length then
        [reducedWarnStr u l files.length (selectedGroups groupOf files imports).length]
       else []) ++
      (if ARCH_EDGE_CAP < keptEdgeCount groupOf files imports then
        [edgeCapWarnStr (keptEdgeCount groupOf files imports)] else []) := by
  rfl

/-- The core cap/warning facts of the shared reducer body. -/
theorem buildReducedArchitecture_caps (groupOf : String → String)
    (u l : String) (labelOf : String → String)
    (files : List String) (imports : JsMap (List String)) :
    (buildReducedArchitecture groupOf u l labelOf files imports).1.nodes.length ≤
        ARCH_NODE_CAP ∧
    (buildReducedArchitecture groupOf u l labelOf files imports).1.edges.length ≤
        ARCH_EDGE_CAP ∧
    (hasWarnStartingWith "Architecture nodes capped"
        (buildReducedArchitecture groupOf u l labelOf files imports).2 ↔
      ARCH_NODE_CAP < distinctGroupCount groupOf files) ∧
    (hasWarnStartingWith "Architecture edges capped"
        (buildReducedArchitecture groupOf u l labelOf files imports).2 ↔
      ARCH_EDGE_CAP < keptEdgeCount groupOf files imports) := by
  have hsortlen : (sortedGroups groupOf files imports).length =
      distinctGroupCount groupOf files := by
    unfold sortedGroups distinctGroupCount
    dsimp only
    exact List.length_insertionSort _ _
  refine ⟨?_, ?_, ?_, ?_⟩
  · show (List.map _ (selectedGroups groupOf files imports)).length ≤ _
    rw [List.length_map]
    unfold selectedGroups
    simp [List.length_take_le]
  · show (List.map _ (List.take ARCH_EDGE_CAP _)).length ≤ _
    rw [List.length_map]
    simp [List.length_take_le]
  · rw [buildReducedArchitecture_warnings, ← hsortlen]
    unfold hasWarnStartingWith
    by_cases h₁ : ARCH_NODE_CAP < (sortedGroups groupOf files imports).length <;>
    by_cases h₂ : (selectedGroups groupOf files imports).length < files.length <;>
    by_cases h₃ : ARCH_EDGE_CAP < keptEdgeCount groupOf files imports <;>
    simp [h₁, h₂, h₃, nodeCapWarn_startsWith_nodeCap,
      reducedWarn_not_startsWith_nodeCap, edgeCapWarn_not_startsWith_nodeCap]
  · rw [buildReducedArchitecture_warnings]
    unfold hasWarnStartingWith
    by_cases h₁ : ARCH_NODE_CAP < (sortedGroups groupOf files imports).length <;>
    by_cases h₂ : (selectedGroups groupOf files imports).length < files.length <;>
    by_cases h₃ : ARCH_EDGE_CAP < keptEdgeCount groupOf files imports <;>
    simp [h₁, h₂, h₃, edgeCapWarn_startsWith_edgeCap,
      reducedWarn_not_startsWith_edgeCap, nodeCapWarn_not_startsWith_edgeCap]

/-- C5 (amended).  For every input to each pack's Architecture Reducer the
returned architecture has at most 50 nodes and at most 200 edges; a
node-cap warning is present iff the number of distinct groups exceeds 50;
an edge-cap warning is present iff the number of distinct group-to-group
edges *between kept groups* exceeds 200 (not the total distinct group-edge
count, as the claim states). -/
theorem C5_architecture_caps (files : List String) (imports : JsMap (List String)) :
    ((TsJs.buildReducedArchitecture files imports).1.nodes.length ≤ 50 ∧
     (TsJs.buildReducedArchitecture files imports).1.edges.length ≤ 200 ∧
     (hasWarnStartingWith "Architecture nodes capped"
        (TsJs.buildReducedArchitecture files imports).2 ↔
       50 < distinctGroupCount TsJs.toFolderPath files) ∧
     (hasWarnStartingWith "Architecture edges capped"
        (TsJs.buildReducedArchitecture files imports).2 ↔
       200 < keptEdgeCount TsJs.toFolderPath files imports)) ∧
    ((Python.buildReducedArchitecture files imports).1.nodes.length ≤ 50 ∧
     (Python.buildReducedArchitecture files imports).1.edges.length ≤ 200 ∧
     (hasWarnStartingWith "Architecture nodes capped"
        (Python.buildReducedArchitecture files imports).2 ↔
       50 < distinctGroupCount Python.toFolderPath files) ∧
     (hasWarnStartingWith "Architecture edges capped"
        (Python.buildReducedArchitecture files imports).2 ↔
       200 < keptEdgeCount Python.toFolderPath files imports)) ∧
    ((Java.buildReducedArchitecture files imports).1.nodes.length ≤ 50 ∧
     (Java.buildReducedArchitecture files imports).1.edges.length ≤ 200 ∧
     (hasWarnStartingWith "Architecture nodes capped"
        (Java.buildReducedArchitecture files imports).2 ↔
       50 < distinctGroupCount Java.toPackagePath files) ∧
     (hasWarnStartingWith "Architecture edges capped"
        (Java.buildReducedArchitecture files imports).2 ↔
       200 < keptEdgeCount Java.toPackagePath files imports)) :=
  ⟨buildReducedArchitecture_caps _ _ _ _ files imports,
   buildReducedArchitecture_caps _ _ _ _ files imports,
   buildReducedArchitecture_caps _ _ _ _ files imports⟩

set_option maxHeartbeats 4000000 in
/-- Evaluation of the C5 counterexample's edge-weight map. -/
theorem c5_gew_eval :
    groupEdgeWeights Python.toFolderPath c5ImportsW = c5GewLit := by
  decide

set_option maxHeartbeats 1000000 in
/-- Evaluation of the C5 counterexample's per-folder file counts. -/
theorem c5_cnt_eval :
    groupFileCounts Python.toFolderPath c5FilesW = c5CntLit := by
  decide

set_option maxHeartbeats 4000000 in
/-- Evaluation of the C5 counterexample's folder degrees. -/
theorem c5_deg_eval :
    groupDegrees Python.toFolderPath c5FilesW c5ImportsW = c5DegLit := by
  unfold groupDegrees
  rw [c5_gew_eval, c5_cnt_eval]
  decide

set_option maxHeartbeats 4000000 in
/-- Evaluation of the C5 counterexample's sorted folder list. -/
theorem c5_sorted_eval :
    sortedGroups Python.toFolderPath c5FilesW c5ImportsW = c5SortedLit := by
  unfold sortedGroups
  rw [c5_deg_eval, c5_cnt_eval]
  decide

set_option maxHeartbeats 4000000 in
/-- Evaluation of the C5 counterexample's kept-edge count: exactly the 200
edges between the 50 kept folders survive. -/
theorem c5_kept_eval :
    keptEdgeCount Python.toFolderPath c5FilesW c5ImportsW = 200 := by
  unfold keptEdgeCount selectedGroups
  rw [c5_sorted_eval, c5_gew_eval]
  decide

set_option maxHeartbeats 1000000 in
/-- C5 (counterexample).  On 51 folders with 201 distinct folder edges, one
of which touches the dropped 51st folder, the total distinct group-edge
count exceeds 200 yet no edge-cap warning is emitted (the code counts only
edges between kept groups). -/
theorem C5_edge_cap_iff_counterexample :
    200 < distinctGroupEdgeCount Python.toFolderPath c5ImportsW ∧
    ¬ hasWarnStartingWith "Architecture edges capped"
        (Python.buildReducedArchitecture c5FilesW c5ImportsW).2 := by
  constructor
  · unfold distinctGroupEdgeCount
    rw [c5_gew_eval]
    decide
  · unfold Python.buildReducedArchitecture
    rw [(buildReducedArchitecture_caps Python.toFolderPath "folders" "folder-level"
          (fun folder => if folder = "." then "." else posixBasename folder)
          c5FilesW c5ImportsW).2.2.2]
    rw [c5_kept_eval]
    decide

/-- Every edge kept by the shared reducer body has both endpoints among the
kept groups, which are exactly the node ids. -/
theorem buildReducedArchitecture_closed (groupOf : String → String)
    (u l : String) (labelOf : String → String)
    (files : List String) (imports : JsMap (List String)) :
    ∀ e ∈ (buildReducedArchitecture groupOf u l labelOf files imports).1.edges,
      (∃ nd ∈ (buildReducedArchitecture groupOf u l labelOf files imports).1.nodes,
        nd.id = e.efrom) ∧
      (∃ nd ∈ (buildReducedArchitecture groupOf u l labelOf files imports).1.nodes,
        nd.id = e.eto) := by
  intro e he
  unfold buildReducedArchitecture at he ⊢
  simp only at he ⊢
  rcases List.mem_map.mp he with ⟨t, ht, rfl⟩
  have ht' := List.mem_of_mem_take ht
  have hperm := List.perm_insertionSort
    (fun a b : String × String × ℕ => edgeCmp a b ≤ 0)
    (((groupEdgeWeights groupOf imports).map
        (fun kv => (edgeKeyFrom kv.1, edgeKeyTo kv.1, kv.2))).filter
      (fun e =>
        decide (e.1 ∈ selectedGroups groupOf files imports) &&
        decide (e.2.1 ∈ selectedGroups groupOf files imports)))
  have hf := hperm.mem_iff.mp ht'
  have hpred := List.of_mem_filter hf
  simp only [Bool.and_eq_true, decide_eq_true_eq] at hpred
  constructor
  · exact ⟨{ id := t.1, label := labelOf t.1, type := "folder" },
      List.mem_map_of_mem _ hpred.1, rfl⟩
  · exact ⟨{ id := t.2.1, label := labelOf t.2.1, type := "folder" },
      List.mem_map_of_mem _ hpred.2, rfl⟩

/-- C10.  Every reduced architecture returned by a Language Pack is closed
under its node set: each edge's source and target are the id of some node
of the same architecture, also when the node cap discards groups. -/
theorem C10_architecture_edge_closure (files : List String)
    (imports : JsMap (List String)) :
    (∀ e ∈ (TsJs.buildReducedArchitecture files imports).1.edges,
      (∃ nd ∈ (TsJs.buildReducedArchitecture files imports).1.nodes, nd.id = e.efrom) ∧
      (∃ nd ∈ (TsJs.buildReducedArchitecture files imports).1.nodes, nd.id = e.eto)) ∧
    (∀ e ∈ (Python.buildReducedArchitecture files imports).1.edges,
      (∃ nd ∈ (Python.buildReducedArchitecture files imports).1.nodes, nd.id = e.efrom) ∧
      (∃ nd ∈ (Python.buildReducedArchitecture files imports).1.nodes, nd.id = e.eto)) ∧
    (∀ e ∈ (Java.buildReducedArchitecture files imports).1.edges,
      (∃ nd ∈ (Java.buildReducedArchitecture files imports).1.nodes, nd.id = e.efrom) ∧
      (∃ nd ∈ (Java.buildReducedArchitecture files imports).1.nodes, nd.id = e.eto)) :=
  ⟨buildReducedArchitecture_closed _ _ _ _ files imports,
   buildReducedArchitecture_closed _ _ _ _ files imports,
   buildReducedArchitecture_closed _ _ _ _ files imports⟩

theorem C10_architecture_edge_closure_witness :
    (∃ nd ∈ (TsJs.buildReducedArchitecture c10FilesW c10ImportsW).1.nodes,
      nd.id = c10EdgeW.efrom) ∧
    (∃ nd ∈ (TsJs.buildReducedArchitecture c10FilesW c10ImportsW).1.nodes,
      nd.id = c10EdgeW.eto) :=
  (C10_architecture_edge_closure c10FilesW c10ImportsW).1 c10EdgeW (by decide)

/-! ### C6: test proximity tiers -/

theorem foldMax_ge_init (f : String → ℕ) (l : List String) (b : ℕ) :
    b ≤ l.foldl (fun x t => max x (f t)) b := by
  induction l generalizing b with
  | nil => simp
  | cons hd tl ih => exact le_trans (le_max_left b (f hd)) (ih (max b (f hd)))

theorem foldMax_ge_mem (f : String → ℕ) (l : List String) (b : ℕ)
    (t : String) (ht : t ∈ l) :
    f t ≤ l.foldl (fun x s => max x (f s)) b := by
  induction l generalizing b with
  | nil => simp at ht
  | cons hd tl ih =>
      rcases List.mem_cons.mp ht with rfl | h
      · exact le_trans (le_max_right b (f t)) (foldMax_ge_init f tl (max b (f t)))
      · exact ih (max b (f hd)) h

theorem foldMax_mem (f : String → ℕ) (l : List String) (b : ℕ) :
    l.foldl (fun x t => max x (f t)) b = b ∨
      ∃ t ∈ l, l.foldl (fun x s => max x (f s)) b = f t := by
  induction l generalizing b with
  | nil => simp
  | cons hd tl ih =>
      rcases ih (max b (f hd)) with h | ⟨t, ht, he⟩
      · rcases max_choice b (f hd) with hm | hm
        · left; simpa [hm] using h
        · right; exact ⟨hd, List.mem_cons_self hd tl, by simpa [hm] using h⟩
      · right; exact ⟨t, List.mem_cons_of_mem hd ht, he⟩

theorem foldMax_eq_chain (f : String → ℕ) (l : List String)
    (htier : ∀ t, f t = 0 ∨ f t = 80 ∨ f t = 90 ∨ f t = 100) :
    l.foldl (fun b t => max b (f t)) 0 =
      (if ∃ t ∈ l, f t = 100 then 100
       else if ∃ t ∈ l, f t = 90 then 90
       else if ∃ t ∈ l, f t = 80 then 80
       else 0) := by
  classical
  have hmem := foldMax_mem f l 0
  by_cases h100 : ∃ t ∈ l, f t = 100
  · obtain ⟨t, ht, he⟩ := h100
    have h1 : 100 ≤ l.foldl (fun b t => max b (f t)) 0 := he ▸ foldMax_ge_mem f l 0 t ht
    have h2 : l.foldl (fun b t => max b (f t)) 0 ≤ 100 := by
      rcases hmem with h | ⟨s, _, he'⟩
      · omega
      · rcases htier s with h' | h' | h' | h' <;> omega
    have : l.foldl (fun b t => max b (f t)) 0 = 100 := le_antisymm h2 h1
    rw [this, if_pos ⟨t, ht, he⟩]
  · rw [if_neg h100]
    by_cases h90 : ∃ t ∈ l, f t = 90
    · obtain ⟨t, ht, he⟩ := h90
      have h1 : 90 ≤ l.foldl (fun b t => max b (f t)) 0 := he ▸ foldMax_ge_mem f l 0 t ht
      have h2 : l.foldl (fun b t => max b (f t)) 0 ≤ 90 := by
        rcases hmem with h | ⟨s, hs, he'⟩
        · omega
        · rcases htier s with h' | h' | h' | h'
          · omega
          · omega
          · omega
          · exact absurd ⟨s, hs, h'⟩ h100
      rw [le_antisymm h2 h1, if_pos ⟨t, ht, he⟩]
    · rw [if_neg h90]
      by_cases h80 : ∃ t ∈ l, f t = 80
      · obtain ⟨t, ht, he⟩ := h80
        have h1 : 80 ≤ l.foldl (fun b t => max b (f t)) 0 :=
          he ▸ foldMax_ge_mem f l 0 t ht
        have h2 : l.foldl (fun b t => max b (f t)) 0 ≤ 80 := by
          rcases hmem with h | ⟨s, hs, he'⟩
          · omega
          · rcases htier s with h' | h' | h' | h'
            · omega
            · omega
            · exact absurd ⟨s, hs, h'⟩ h90
            · exact absurd ⟨s, hs, h'⟩ h100
        rw [le_antisymm h2 h1, if_pos ⟨t, ht, he⟩]
      · rw [if_neg h80]
        rcases hmem with h | ⟨s, hs, he'⟩
        · exact h
        · rcases htier s with h' | h' | h' | h'
          · omega
          · exact absurd ⟨s, hs, h'⟩ h80
          · exact absurd ⟨s, hs, h'⟩ h90
          · exact absurd ⟨s, hs, h'⟩ h100

/-! ### C6: test proximity -/

theorem tsjs_proximityStep_eq_max (f : String) (b : ℕ) (t : String) :
    TsJs.proximityStep f b t = max b (tsjsTierOf f t) := by
  unfold TsJs.proximityStep tsjsTierOf sameDirTier nestedTier tsjsMirrorTier
  simp only [Bool.or_eq_true, decide_eq_true_eq]
  split_ifs <;> simp_all

theorem python_proximityStep_eq_max (f : String) (b : ℕ) (t : String) :
    Python.proximityStep f b t = max b (pythonTierOf f t) := by
  unfold Python.proximityStep pythonTierOf sameDirTier nestedTier pythonMirrorTier
  simp only [Bool.or_eq_true, decide_eq_true_eq]
  split_ifs <;> simp_all

theorem tsjsTierOf_cases (f t : String) :
    tsjsTierOf f t = 0 ∨ tsjsTierOf f t = 80 ∨ tsjsTierOf f t = 90 ∨
      tsjsTierOf f t = 100 := by
  unfold tsjsTierOf
  split_ifs <;> simp

theorem pythonTierOf_cases (f t : String) :
    pythonTierOf f t = 0 ∨ pythonTierOf f t = 80 ∨ pythonTierOf f t = 90 ∨
      pythonTierOf f t = 100 := by
  unfold pythonTierOf
  split_ifs <;> simp

theorem tierChain_congr (P Q R : String → Prop) [DecidablePred P] [DecidablePred Q]
    [DecidablePred R] (l : List String) (tier : String → ℕ)
    (htier : ∀ t, tier t = if P t then 100 else if Q t then 90 else if R t then 80 else 0) :
    (if ∃ t ∈ l, tier t = 100 then 100
     else if ∃ t ∈ l, tier t = 90 then 90
     else if ∃ t ∈ l, tier t = 80 then (80 : ℕ)
     else 0) =
    (if ∃ t ∈ l, P t then 100
     else if ∃ t ∈ l, Q t then 90
     else if ∃ t ∈ l, R t then 80
     else 0) := by
  by_cases h100 : ∃ t ∈ l, P t
  · obtain ⟨t, ht, hc⟩ := h100
    rw [if_pos ⟨t, ht, by rw [htier t, if_pos hc]⟩, if_pos ⟨t, ht, hc⟩]
  · have h100' : ¬ ∃ t ∈ l, tier t = 100 := by
      rintro ⟨t, ht, hv⟩
      rw [htier t] at hv
      split_ifs at hv with c1 c2 c3
      · exact h100 ⟨t, ht, c1⟩
      all_goals omega
    rw [if_neg h100', if_neg h100]
    by_cases h90 : ∃ t ∈ l, Q t
    · obtain ⟨t, ht, hc⟩ := h90
      have hnc : ¬ P t := fun hs => h100 ⟨t, ht, hs⟩
      rw [if_pos ⟨t, ht, by rw [htier t, if_neg hnc, if_pos hc]⟩, if_pos ⟨t, ht, hc⟩]
    · have h90' : ¬ ∃ t ∈ l, tier t = 90 := by
        rintro ⟨t, ht, hv⟩
        rw [htier t] at hv
        split_ifs at hv with c1 c2 c3
        · omega
        · exact h90 ⟨t, ht, c2⟩
        all_goals omega
      rw [if_neg h90', if_neg h90]
      by_cases h80 : ∃ t ∈ l, R t
      · obtain ⟨t, ht, hc⟩ := h80
        have hnc : ¬ P t := fun hs => h100 ⟨t, ht, hs⟩
        have hnc' : ¬ Q t := fun hs => h90 ⟨t, ht, hs⟩
        rw [if_pos ⟨t, ht, by rw [htier t, if_neg hnc, if_neg hnc', if_pos hc]⟩,
          if_pos ⟨t, ht, hc⟩]
      · have h80' : ¬ ∃ t ∈ l, tier t = 80 := by
          rintro ⟨t, ht, hv⟩
          rw [htier t] at hv
          split_ifs at hv with c1 c2 c3 <;>
            first
            | exact h80 ⟨t, ht, c3⟩
            | omega
        rw [if_neg h80', if_neg h80]

theorem tsjs_proximity_eq_spec (f : String) (ts : JsSet) :
    TsJs.computeTestProximityScore f ts = specTsJsProximity f ts := by
  unfold TsJs.computeTestProximityScore specTsJsProximity
  by_cases hmem : f ∈ ts
  · simp [JsSet.has, hmem]
  · simp only [JsSet.has, hmem, false_or]
    rw [if_neg (by simp)]
    have hstep : TsJs.proximityStep f = fun b t => max b (tsjsTierOf f t) :=
      funext fun b => funext fun t => tsjs_proximityStep_eq_max f b t
    rw [hstep, foldMax_eq_chain (tsjsTierOf f) ts (tsjsTierOf_cases f)]
    exact tierChain_congr (sameDirTier f) (nestedTier f) (tsjsMirrorTier f) ts
      (tsjsTierOf f) (fun t => rfl)

theorem python_proximity_eq_spec (f : String) (ts : JsSet) :
    Python.computeTestProximityScore f ts = specPythonProximity f ts := by
  unfold Python.computeTestProximityScore specPythonProximity
  by_cases hmem : f ∈ ts
  · simp [JsSet.has, hmem]
  · simp only [JsSet.has, hmem, false_or]
    rw [if_neg (by simp)]
    have hstep : Python.proximityStep f = fun b t => max b (pythonTierOf f t) :=
      funext fun b => funext fun t => python_proximityStep_eq_max f b t
    rw [hstep, foldMax_eq_chain (pythonTierOf f) ts (pythonTierOf_cases f)]
    exact tierChain_congr (sameDirTier f) (nestedTier f) (pythonMirrorTier f) ts
      (pythonTierOf f) (fun t => rfl)

theorem java_sameDirScan_cases (b d : String) (l : List String) (r : ℕ)
    (h : Java.sameDirScan b d l = some r) : r = 80 ∨ r = 90 ∨ r = 100 := by
  induction l with
  | nil => simp [Java.sameDirScan] at h
  | cons hd tl ih =>
      unfold Java.sameDirScan at h
      by_cases c1 : posixDirname hd = d
      · rw [if_pos c1] at h
        dsimp only at h
        split_ifs at h <;> (injection h with h'; omega)
      · rw [if_neg c1] at h
        exact ih h

theorem java_proximity_mem (f : String) (ts : JsSet) :
    Java.computeTestProximityScore f ts ∈ ([0, 80, 90, 100] : List ℕ) := by
  unfold Java.computeTestProximityScore
  dsimp only
  by_cases h1 : JsSet.has (JsSet.addAll [] (List.map normalizeRelPath ts))
      (normalizeRelPath f) = true
  · rw [if_pos h1]; simp
  · rw [if_neg h1]
    cases hscan : Java.sameDirScan (Java.javaBasenameNoExt (normalizeRelPath f))
        (posixDirname (normalizeRelPath f))
        (JsSet.addAll [] (List.map normalizeRelPath ts)) with
    | some r =>
        simp only [hscan]
        rcases java_sameDirScan_cases _ _ _ r hscan with h | h | h <;> simp [h]
    | none =>
        simp only [hscan]
        cases hm : Java.mainJavaMatch (normalizeRelPath f) with
        | none => simp [hm]
        | some pr =>
            cases pr with
            | mk pfx rel =>
                simp only [hm]
                split_ifs <;> simp

theorem spec_tsjs_mem (f : String) (ts : JsSet) :
    specTsJsProximity f ts ∈ ([0, 80, 90, 100] : List ℕ) := by
  unfold specTsJsProximity
  split_ifs <;> simp

theorem spec_python_mem (f : String) (ts : JsSet) :
    specPythonProximity f ts ∈ ([0, 80, 90, 100] : List ℕ) := by
  unfold specPythonProximity
  split_ifs <;> simp

/-- C6 (amended).  Every pack's test-proximity score is one of
`{0, 80, 90, 100}`.  The TS/JS and Python packs assign exactly the highest
matching tier (100 same-directory-or-self, 90 nested `__tests__`, 80
mirrored under a top-level test root, else 0).  The Java pack checks
same-directory test files first and may return 80 although a mirrored
exact-name test (a tier-100 condition per §4.2) exists. -/
theorem C6_test_proximity_tiers (filePath : String) (testFiles : JsSet) :
    TsJs.computeTestProximityScore filePath testFiles =
        specTsJsProximity filePath testFiles ∧
    Python.computeTestProximityScore filePath testFiles =
        specPythonProximity filePath testFiles ∧
    TsJs.computeTestProximityScore filePath testFiles ∈ ([0, 80, 90, 100] : List ℕ) ∧
    Python.computeTestProximityScore filePath testFiles ∈ ([0, 80, 90, 100] : List ℕ) ∧
    Java.computeTestProximityScore filePath testFiles ∈ ([0, 80, 90, 100] : List ℕ) :=
  ⟨tsjs_proximity_eq_spec filePath testFiles,
   python_proximity_eq_spec filePath testFiles,
   (tsjs_proximity_eq_spec filePath testFiles) ▸ spec_tsjs_mem filePath testFiles,
   (python_proximity_eq_spec filePath testFiles) ▸ spec_python_mem filePath testFiles,
   java_proximity_mem filePath testFiles⟩

/-- C6 (counterexample).  For `src/main/java/com/A.java` with an unrelated
same-directory test and an exact mirrored `ATest.java` in
`src/test/java/com`, the §4.2 tier-100 condition holds (mirrored
exact-name match) yet the Java pack returns 80: the highest matching tier
does not win. -/
theorem C6_java_precedence_counterexample :
    specJavaMirroredExactTest "src/main/java/com/A.java"
        ["src/main/java/com/XyzTest.java", "src/test/java/com/ATest.java"] = true ∧
    Java.computeTestProximityScore "src/main/java/com/A.java"
        ["src/main/java/com/XyzTest.java", "src/test/java/com/ATest.java"] = 80 := by
  constructor
  · decide
  · decide

theorem round_le_round_q (x y : ℚ) (h : x ≤ y) : round x ≤ round y := by
  rw [round_eq, round_eq]
  exact Int.floor_le_floor (by linarith)

theorem foldrMin_le_init (a : ℚ) (vs : List ℚ) : vs.foldr min a ≤ a := by
  induction vs with
  | nil => simp
  | cons hd tl ih => exact le_trans (min_le_right hd (tl.foldr min a)) ih

theorem foldrMin_le_mem (a : ℚ) (vs : List ℚ) : ∀ v ∈ vs, vs.foldr min a ≤ v := by
  induction vs with
  | nil => simp
  | cons hd tl ih =>
      intro v hv
      rcases List.mem_cons.mp hv with rfl | hv'
      · exact min_le_left v (tl.foldr min a)
      · exact le_trans (min_le_right hd (tl.foldr min a)) (ih v hv')

theorem le_foldrMax_init (a : ℚ) (vs : List ℚ) : a ≤ vs.foldr max a := by
  induction vs with
  | nil => simp
  | cons hd tl ih => exact le_trans ih (le_max_right hd (tl.foldr max a))

theorem le_foldrMax_mem (a : ℚ) (vs : List ℚ) : ∀ v ∈ vs, v ≤ vs.foldr max a := by
  induction vs with
  | nil => simp
  | cons hd tl ih =>
      intro v hv
      rcases List.mem_cons.mp hv with rfl | hv'
      · exact le_max_left v (tl.foldr max a)
      · exact le_trans (ih v hv') (le_max_right hd (tl.foldr max a))

theorem foldrMax_attained (a : ℚ) (vs : List ℚ) :
    vs.foldr max a = a ∨ vs.foldr max a ∈ vs := by
  induction vs with
  | nil => simp
  | cons hd tl ih =>
      rcases max_choice hd (tl.foldr max a) with hm | hm
      · right; rw [List.foldr_cons, hm]; exact List.mem_cons_self hd tl
      · rcases ih with h | h
        · left; rw [List.foldr_cons, hm, h]
        · right; rw [List.foldr_cons, hm]; exact List.mem_cons_of_mem hd h

theorem normalizeScores_const (vs : List ℚ)
    (h : vs.foldr max (vs.headD 0) = vs.foldr min (vs.headD 0)) :
    Scoring.normalizeScores vs = List.replicate vs.length 100 := by
  unfold Scoring.normalizeScores
  dsimp only
  split_ifs with h1
  · simp [List.length_eq_zero.mp h1]
  · simp [List.map_const']

theorem normalizeScores_map (vs : List ℚ)
    (h : ¬ vs.foldr max (vs.headD 0) = vs.foldr min (vs.headD 0)) :
    Scoring.normalizeScores vs =
      vs.map (fun v => round ((v - vs.foldr min (vs.headD 0)) /
        (vs.foldr max (vs.headD 0) - vs.foldr min (vs.headD 0)) * 100)) := by
  unfold Scoring.normalizeScores
  dsimp only
  have h1 : ¬ vs.length = 0 := by
    intro h0
    rw [List.length_eq_zero.mp h0] at h
    simp at h
  rw [if_neg h1, if_neg h]

theorem getD_map_of_lt (f : ℚ → ℤ) (vs : List ℚ) (i : ℕ) (hi : i < vs.length) :
    (vs.map f).getD i 0 = f (vs.getD i 0) := by
  have hvi : vs[i]? = some vs[i] := List.getElem?_eq_getElem hi
  rw [List.getD_eq_getElem?_getD, List.getElem?_map, hvi,
    List.getD_eq_getElem?_getD, hvi]
  rfl

theorem getD_replicate_of_lt (n : ℕ) (c : ℤ) (i : ℕ) (hi : i < n) :
    (List.replicate n c).getD i 0 = c := by
  rw [List.getD_eq_getElem?_getD, List.getElem?_replicate, if_pos hi]
  rfl

theorem normalizeScores_length (vs : List ℚ) :
    (Scoring.normalizeScores vs).length = vs.length := by
  unfold Scoring.normalizeScores
  dsimp only
  split_ifs <;> simp_all

theorem headD_mem_q (vs : List ℚ) (h : vs ≠ []) : vs.headD 0 ∈ vs := by
  cases vs with
  | nil => exact absurd rfl h
  | cons a t => exact List.mem_cons_self a t

theorem map_score_zip (rs : List StartHereCandidate) (ns : List ℤ) :
    List.map (fun it => it.score)
      ((rs.zip ns).map (fun p =>
        ({ path := p.1.path, score := p.2,
           explanation := String.intercalate "; " p.1.reasons } : StartHereItem))) =
      List.map Prod.snd (rs.zip ns) := by
  rw [List.map_map]
  induction rs.zip ns with
  | nil => rfl
  | cons hd tl ih => simp only [List.map_cons, ih]; rfl

theorem startHereScoreAt_eq (cands : List StartHereCandidate) (i : ℕ) :
    Scoring.startHereScoreAt cands i =
      (Scoring.normalizeScores
        ((Scoring.startHereRanked cands).map (fun c => c.rawScore))).getD i 0 := by
  unfold Scoring.startHereScoreAt Scoring.startHereFinalize
  dsimp only
  rw [map_score_zip, List.map_snd_zip]
  exact le_of_eq (by rw [normalizeScores_length, List.length_map])

theorem startHere_score_mono (cands : List StartHereCandidate) (i j : ℕ)
    (hi : i < (Scoring.startHereRanked cands).length)
    (hj : j < (Scoring.startHereRanked cands).length)
    (hle : Scoring.startHereRawAt cands j ≤ Scoring.startHereRawAt cands i) :
    Scoring.startHereScoreAt cands j ≤ Scoring.startHereScoreAt cands i := by
  rw [startHereScoreAt_eq cands i, startHereScoreAt_eq cands j]
  set vs := (Scoring.startHereRanked cands).map (fun c => c.rawScore) with hvs
  have hvlen : vs.length = (Scoring.startHereRanked cands).length := by
    rw [hvs]; exact List.length_map _ _
  have hi' : i < vs.length := by omega
  have hj' : j < vs.length := by omega
  by_cases h : vs.foldr max (vs.headD 0) = vs.foldr min (vs.headD 0)
  · rw [normalizeScores_const vs h, getD_replicate_of_lt _ _ _ hi',
      getD_replicate_of_lt _ _ _ hj']
  · rw [normalizeScores_map vs h, getD_map_of_lt _ _ _ hi', getD_map_of_lt _ _ _ hj']
    apply round_le_round_q
    have hmn_le : vs.foldr min (vs.headD 0) ≤ vs.headD 0 := foldrMin_le_init _ _
    have hle_mx : vs.headD 0 ≤ vs.foldr max (vs.headD 0) := le_foldrMax_init _ _
    have hlt' : vs.foldr min (vs.headD 0) < vs.foldr max (vs.headD 0) :=
      lt_of_le_of_ne (le_trans hmn_le hle_mx) (Ne.symm h)
    have hd : (0:ℚ) < vs.foldr max (vs.headD 0) - vs.foldr min (vs.headD 0) := by linarith
    have hxy : vs.getD j 0 ≤ vs.getD i 0 := hle
    apply mul_le_mul_of_nonneg_right _ (by norm_num)
    exact (div_le_div_iff_of_pos_right hd).mpr (by linarith)

theorem startHere_max_hundred (cands : List StartHereCandidate) (i : ℕ)
    (hi : i < (Scoring.startHereRanked cands).length)
    (hmax : ∀ k, k < (Scoring.startHereRanked cands).length →
      Scoring.startHereRawAt cands k ≤ Scoring.startHereRawAt cands i) :
    Scoring.startHereScoreAt cands i = 100 := by
  rw [startHereScoreAt_eq cands i]
  set vs := (Scoring.startHereRanked cands).map (fun c => c.rawScore) with hvs
  have hvlen : vs.length = (Scoring.startHereRanked cands).length := by
    rw [hvs]; exact List.length_map _ _
  have hi' : i < vs.length := by omega
  by_cases h : vs.foldr max (vs.headD 0) = vs.foldr min (vs.headD 0)
  · rw [normalizeScores_const vs h, getD_replicate_of_lt _ _ _ hi']
  · rw [normalizeScores_map vs h, getD_map_of_lt _ _ _ hi']
    have hne : vs ≠ [] := by
      intro h0
      rw [h0] at hi'
      simp at hi'
    have hmx_mem : vs.foldr max (vs.headD 0) ∈ vs := by
      rcases foldrMax_attained (vs.headD 0) vs with he | hm
      · rw [he]; exact headD_mem_q vs hne
      · exact hm
    obtain ⟨k, hk, hkv⟩ := List.getElem_of_mem hmx_mem
    have hkd : vs.getD k 0 = vs.foldr max (vs.headD 0) := by
      rw [List.getD_eq_getElem?_getD, List.getElem?_eq_getElem hk]
      exact hkv
    have hmem_i : vs.getD i 0 ∈ vs := by
      rw [List.getD_eq_getElem?_getD, List.getElem?_eq_getElem hi']
      exact List.getElem_mem hi'
    have hmx_le : vs.foldr max (vs.headD 0) ≤ vs.getD i 0 := by
      have hmk := hmax k (by omega)
      have hrk : Scoring.startHereRawAt cands k = vs.getD k 0 := rfl
      have hri : Scoring.startHereRawAt cands i = vs.getD i 0 := rfl
      rw [hrk, hri, hkd] at hmk
      exact hmk
    have hle_mx : vs.getD i 0 ≤ vs.foldr max (vs.headD 0) :=
      le_foldrMax_mem _ _ _ hmem_i
    have hmxeq : vs.getD i 0 = vs.foldr max (vs.headD 0) := le_antisymm hle_mx hmx_le
    rw [hmxeq]
    have hsub : vs.foldr max (vs.headD 0) - vs.foldr min (vs.headD 0) ≠ 0 := by
      intro hz
      exact h (by linarith)
    rw [div_self hsub, one_mul]
    have h100 : ((100:ℤ):ℚ) = (100:ℚ) := by norm_num
    rw [← h100, round_intCast]

/-- C7: in the Start Here output, a surviving candidate with strictly larger
raw score gets a final score at least as large; a survivor whose raw score is
maximal gets the final score 100; and if all surviving raw scores coincide,
every survivor gets 100. -/
theorem C7_start_here_normalization (cands : List StartHereCandidate) (i j : ℕ)
    (hi : i < (Scoring.startHereRanked cands).length)
    (hj : j < (Scoring.startHereRanked cands).length) :
    (Scoring.startHereRawAt cands j < Scoring.startHereRawAt cands i →
      Scoring.startHereScoreAt cands j ≤ Scoring.startHereScoreAt cands i) ∧
    ((∀ k, k < (Scoring.startHereRanked cands).length →
        Scoring.startHereRawAt cands k ≤ Scoring.startHereRawAt cands i) →
      Scoring.startHereScoreAt cands i = 100) ∧
    ((∀ k l, k < (Scoring.startHereRanked cands).length →
        l < (Scoring.startHereRanked cands).length →
        Scoring.startHereRawAt cands k = Scoring.startHereRawAt cands l) →
      Scoring.startHereScoreAt cands i = 100) :=
  ⟨fun h => startHere_score_mono cands i j hi hj (le_of_lt h),
   fun h => startHere_max_hundred cands i hi h,
   fun h => startHere_max_hundred cands i hi (fun k hk => le_of_eq (h k i hk hi))⟩

unseal Rat.mul Rat.add Rat.sub Rat.inv Rat.ofScientific in
/-- Witness for the C7 theorem at a concrete two-candidate list. -/
theorem C7_start_here_normalization_witness :
    (0 < (Scoring.startHereRanked c7CandsW).length ∧
     1 < (Scoring.startHereRanked c7CandsW).length) ∧
    ((Scoring.startHereRawAt c7CandsW 1 < Scoring.startHereRawAt c7CandsW 0 →
      Scoring.startHereScoreAt c7CandsW 1 ≤ Scoring.startHereScoreAt c7CandsW 0) ∧
    ((∀ k, k < (Scoring.startHereRanked c7CandsW).length →
        Scoring.startHereRawAt c7CandsW k ≤ Scoring.startHereRawAt c7CandsW 0) →
      Scoring.startHereScoreAt c7CandsW 0 = 100) ∧
    ((∀ k l, k < (Scoring.startHereRanked c7CandsW).length →
        l < (Scoring.startHereRanked c7CandsW).length →
        Scoring.startHereRawAt c7CandsW k = Scoring.startHereRawAt c7CandsW l) →
      Scoring.startHereScoreAt c7CandsW 0 = 100)) :=
  ⟨⟨by decide, by decide⟩,
   C7_start_here_normalization c7CandsW 0 1 (by decide) (by decide)⟩

theorem JsMap.mem_of_get? {β : Type} (m : JsMap β) (k : String) (v : β)
    (h : JsMap.get? m k = some v) : (k, v) ∈ m := by
  induction m with
  | nil => simp [JsMap.get?] at h
  | cons hd tl ih =>
      cases hd with
      | mk k₀ v₀ =>
        by_cases hk : k₀ = k
        · subst hk
          simp [JsMap.get?] at h
          simp [h]
        · simp [JsMap.get?, hk] at h
          exact List.mem_cons_of_mem _ (ih h)

theorem mem_bfsUniverse_of_eps (eps : List String) (imports : JsMap (List String))
    (e : String) (he : e ∈ eps) : e ∈ Scoring.bfsUniverse eps imports := by
  unfold Scoring.bfsUniverse
  rw [List.mem_dedup]
  exact List.mem_append_left _ he

theorem mem_bfsUniverse_of_succ (eps : List String) (imports : JsMap (List String))
    (c t : String) (ht : t ∈ (JsMap.get? imports c).getD []) :
    t ∈ Scoring.bfsUniverse eps imports := by
  unfold Scoring.bfsUniverse
  rw [List.mem_dedup]
  apply List.mem_append_right
  cases hg : JsMap.get? imports c with
  | none => rw [hg] at ht; simp at ht
  | some l =>
      rw [hg] at ht
      simp at ht
      have hmem : (c, l) ∈ imports := JsMap.mem_of_get? imports c l hg
      clear hg
      induction imports with
      | nil => simp at hmem
      | cons hd tl ih =>
          rcases List.mem_cons.mp hmem with rfl | hm
          · exact List.mem_append_left _ ht
          · exact List.mem_append_right _ (ih hm)

theorem get?_foldl_set0 (eps : List String) (m : JsMap ℕ) (f : String) :
    JsMap.get? (eps.foldl (fun acc ep => JsMap.set acc ep 0) m) f =
      if f ∈ eps then some 0 else JsMap.get? m f := by
  induction eps generalizing m with
  | nil => simp
  | cons e rest ih =>
      rw [List.foldl_cons, ih]
      by_cases hr : f ∈ rest
      · simp [hr, List.mem_cons]
      · by_cases he : f = e
        · subst he
          simp [hr, JsMap.get?_set_self]
        · simp [hr, he, JsMap.get?_set_ne m e f 0 (fun hh => he hh.symm)]

theorem pairwise_le_of_const (l : List ℕ) (c : ℕ) (h : ∀ x ∈ l, x = c) :
    List.Pairwise (· ≤ ·) l := by
  induction l with
  | nil => exact List.Pairwise.nil
  | cons hd tl ih =>
      refine List.Pairwise.cons ?_ (ih (fun x hx => h x (List.mem_cons_of_mem _ hx)))
      intro x hx
      rw [h hd (List.mem_cons_self _ _), h x (List.mem_cons_of_mem _ hx)]

theorem filter_not_has_set (U : List String) (hU : U.Nodup) (t : String)
    (ht : t ∈ U) (dist : JsMap ℕ) (hno : JsMap.has dist t = false) (d1 : ℕ) :
    (U.filter (fun s => !(JsMap.has (JsMap.set dist t d1) s))).length + 1 =
      (U.filter (fun s => !(JsMap.has dist s))).length := by
  induction U with
  | nil => simp at ht
  | cons u rest ih =>
      rcases List.nodup_cons.mp hU with ⟨hu_notin, hrest⟩
      by_cases hut : u = t
      · subst hut
        have h1 : (!(JsMap.has (JsMap.set dist u d1) u)) = false := by
          simp [JsMap.has, JsMap.get?_set_self]
        have h2 : (!(JsMap.has dist u)) = true := by simp [hno]
        have hcong : rest.filter (fun s => !(JsMap.has (JsMap.set dist u d1) s)) =
            rest.filter (fun s => !(JsMap.has dist s)) := by
          apply List.filter_congr
          intro s hs
          have hsu : u ≠ s := fun hh => hu_notin (hh ▸ hs)
          rw [JsMap.has_set]
          simp [hsu]
        rw [List.filter_cons, List.filter_cons, h1, h2, hcong]
        simp
      · have ht' : t ∈ rest := by
          rcases List.mem_cons.mp ht with h | h
          · exact absurd h.symm hut
          · exact h
        have htu : t ≠ u := fun hh => hut hh.symm
        have hhead : (JsMap.has (JsMap.set dist t d1) u) = (JsMap.has dist u) := by
          rw [JsMap.has_set]
          simp [htu]
        rw [List.filter_cons, List.filter_cons, hhead]
        by_cases hb : JsMap.has dist u = true
        · simp only [hb, Bool.not_true, Bool.false_eq_true, if_false]
          exact ih hrest ht'
        · have hb' : JsMap.has dist u = false := by
            cases hx : JsMap.has dist u
            · rfl
            · exact absurd hx hb
          simp only [hb', Bool.not_false, if_true]
          rw [List.length_cons, List.length_cons]
          have hih := ih hrest ht'
          omega

theorem bfsVisit_spec (d1 : ℕ) (ts : List String) :
    ∀ (dist : JsMap ℕ) (q : List String),
    ∃ Δ : List String,
      (Scoring.bfsVisit d1 dist q ts).2 = q ++ Δ ∧
      (∀ f v, JsMap.get? dist f = some v →
        JsMap.get? (Scoring.bfsVisit d1 dist q ts).1 f = some v) ∧
      (∀ f v, JsMap.get? (Scoring.bfsVisit d1 dist q ts).1 f = some v →
        JsMap.get? dist f = some v ∨ (v = d1 ∧ f ∈ Δ)) ∧
      (∀ x ∈ Δ, JsMap.get? (Scoring.bfsVisit d1 dist q ts).1 x = some d1 ∧
        x ∈ ts ∧ JsMap.get? dist x = none) ∧
      (∀ t ∈ ts, (JsMap.get? (Scoring.bfsVisit d1 dist q ts).1 t).isSome) := by
  induction ts with
  | nil =>
      intro dist q
      refine ⟨[], by simp [Scoring.bfsVisit], ?_, ?_, ?_, ?_⟩
      · intro f v h; simpa [Scoring.bfsVisit] using h
      · intro f v h; exact Or.inl (by simpa [Scoring.bfsVisit] using h)
      · intro x hx; simp at hx
      · intro t ht; simp at ht
  | cons t rest ih =>
      intro dist q
      by_cases hhas : JsMap.has dist t = true
      · obtain ⟨Δ, hq, hold, hnew, hdel, hts⟩ := ih dist q
        have hstep : Scoring.bfsVisit d1 dist q (t :: rest) =
            Scoring.bfsVisit d1 dist q rest := by
          simp only [Scoring.bfsVisit]
          rw [if_pos hhas]
        rw [hstep]
        refine ⟨Δ, hq, hold, ?_, ?_, ?_⟩
        · intro f v h
          rcases hnew f v h with h' | h'
          · exact Or.inl h'
          · exact Or.inr h'
        · intro x hx
          obtain ⟨ha, hb, hc⟩ := hdel x hx
          exact ⟨ha, List.mem_cons_of_mem _ hb, hc⟩
        · intro t₀ ht₀
          rcases List.mem_cons.mp ht₀ with rfl | h'
          · obtain ⟨v, hv⟩ := Option.isSome_iff_exists.mp (by simpa [JsMap.has] using hhas)
            exact Option.isSome_iff_exists.mpr ⟨v, hold t₀ v hv⟩
          · exact hts t₀ h'
      · have hnone : JsMap.get? dist t = none := by
          simp [JsMap.has] at hhas
          exact Option.not_isSome_iff_eq_none.mp (by simp [hhas])
        obtain ⟨Δ, hq, hold, hnew, hdel, hts⟩ := ih (JsMap.set dist t d1) (q ++ [t])
        have hstep : Scoring.bfsVisit d1 dist q (t :: rest) =
            Scoring.bfsVisit d1 (JsMap.set dist t d1) (q ++ [t]) rest := by
          simp only [Scoring.bfsVisit]
          rw [if_neg hhas]
        rw [hstep]
        refine ⟨t :: Δ, ?_, ?_, ?_, ?_, ?_⟩
        · rw [hq, List.append_assoc]
          rfl
        · intro f v h
          have hft : f ≠ t := by
            intro hh
            rw [hh, hnone] at h
            exact Option.noConfusion h
          exact hold f v (by rw [JsMap.get?_set_ne dist t f d1 (fun hh => hft hh.symm)]; exact h)
        · intro f v h
          rcases hnew f v h with h' | h'
          · by_cases hft : f = t
            · subst hft
              rw [JsMap.get?_set_self] at h'
              exact Or.inr ⟨(Option.some_inj.mp h').symm, List.mem_cons_self _ _⟩
            · rw [JsMap.get?_set_ne dist t f d1 (fun hh => hft hh.symm)] at h'
              exact Or.inl h'
          · exact Or.inr ⟨h'.1, List.mem_cons_of_mem _ h'.2⟩
        · intro x hx
          rcases List.mem_cons.mp hx with rfl | hx'
          · exact ⟨hold x d1 (JsMap.get?_set_self dist x d1), List.mem_cons_self _ _, hnone⟩
          · obtain ⟨ha, hb, hc⟩ := hdel x hx'
            have hxt : x ≠ t := by
              intro hh
              rw [hh, JsMap.get?_set_self] at hc
              exact Option.noConfusion hc
            refine ⟨ha, List.mem_cons_of_mem _ hb, ?_⟩
            rw [← JsMap.get?_set_ne dist t x d1 (fun hh => hxt hh.symm)]
            exact hc
        · intro t₀ ht₀
          rcases List.mem_cons.mp ht₀ with rfl | h'
          · exact Option.isSome_iff_exists.mpr
              ⟨d1, hold t₀ d1 (JsMap.get?_set_self dist t₀ d1)⟩
          · exact hts t₀ h'

theorem bfsVisit_measure (d1 : ℕ) (U : List String) (hU : U.Nodup) (ts : List String)
    (hts : ∀ t ∈ ts, t ∈ U) :
    ∀ (dist : JsMap ℕ) (q : List String),
    (Scoring.bfsVisit d1 dist q ts).2.length +
      (U.filter (fun s => !(JsMap.has (Scoring.bfsVisit d1 dist q ts).1 s))).length =
    q.length + (U.filter (fun s => !(JsMap.has dist s))).length := by
  induction ts with
  | nil =>
      intro dist q
      simp [Scoring.bfsVisit]
  | cons t rest ih =>
      intro dist q
      have hrest : ∀ t₀ ∈ rest, t₀ ∈ U := fun t₀ h => hts t₀ (List.mem_cons_of_mem _ h)
      by_cases hhas : JsMap.has dist t = true
      · have hstep : Scoring.bfsVisit d1 dist q (t :: rest) =
            Scoring.bfsVisit d1 dist q rest := by
          simp only [Scoring.bfsVisit]
          rw [if_pos hhas]
        rw [hstep]
        exact ih hrest dist q
      · have hb' : JsMap.has dist t = false := by
          cases hx : JsMap.has dist t
          · rfl
          · exact absurd hx hhas
        have hstep : Scoring.bfsVisit d1 dist q (t :: rest) =
            Scoring.bfsVisit d1 (JsMap.set dist t d1) (q ++ [t]) rest := by
          simp only [Scoring.bfsVisit]
          rw [if_neg hhas]
        rw [hstep]
        have hih := ih hrest (JsMap.set dist t d1) (q ++ [t])
        have hcount := filter_not_has_set U hU t (hts t (List.mem_cons_self _ _)) dist hb' d1
        simp only [List.length_append, List.length_singleton] at hih
        omega

theorem bfsInv_step (eps : List String) (imports : JsMap (List String))
    (dist : JsMap ℕ) (c : String) (rest : List String)
    (inv : BfsInv eps imports dist (c :: rest)) (vc : ℕ)
    (hvc : JsMap.get? dist c = some vc) :
    BfsInv eps imports
      (Scoring.bfsVisit (vc + 1) dist rest ((JsMap.get? imports c).getD [])).1
      (Scoring.bfsVisit (vc + 1) dist rest ((JsMap.get? imports c).getD [])).2 := by
  obtain ⟨Δ, hq, hold, hnew, hdel, hts⟩ :=
    bfsVisit_spec (vc + 1) ((JsMap.get? imports c).getD []) dist rest
  have hreach_c : Reach eps imports vc c := inv.sound c vc hvc
  refine ⟨?_, ?_, ?_, ?_, ?_, ?_, ?_⟩
  · intro f v h
    rcases hnew f v h with h' | ⟨rfl, hfΔ⟩
    · exact inv.sound f v h'
    · exact Reach.step vc c f hreach_c (hdel f hfΔ).2.1
  · intro e he
    exact hold e 0 (inv.entries0 e he)
  · intro x hx
    rw [hq] at hx
    rcases List.mem_append.mp hx with hx' | hx'
    · obtain ⟨v, hv⟩ := Option.isSome_iff_exists.mp
        (inv.queue_key x (List.mem_cons_of_mem _ hx'))
      exact Option.isSome_iff_exists.mpr ⟨v, hold x v hv⟩
    · exact Option.isSome_iff_exists.mpr ⟨vc + 1, (hdel x hx').1⟩
  · intro x hx
    rw [hq] at hx
    rcases List.mem_append.mp hx with hx' | hx'
    · exact inv.queue_univ x (List.mem_cons_of_mem _ hx')
    · exact mem_bfsUniverse_of_succ eps imports c x (hdel x hx').2.1
  · intro c' v' h' hnotin
    rcases hnew c' v' h' with hcl | ⟨rfl, hfΔ⟩
    · by_cases hcc : c' = c
      · subst hcc
        have hv' : v' = vc := by
          rw [hvc] at hcl
          exact Option.some_inj.mp hcl.symm
        subst hv'
        intro t ht
        obtain ⟨w, hw⟩ := Option.isSome_iff_exists.mp (hts t ht)
        refine ⟨w, hw, ?_⟩
        rcases hnew t w hw with hw' | ⟨rfl, _⟩
        · have hb := inv.bound c' rest rfl t w hw'
          rw [hvc] at hb
          simpa using hb
        · omega
      · have hnotin_old : c' ∉ c :: rest := by
          intro hmem
          rcases List.mem_cons.mp hmem with h1 | h1
          · exact hcc h1
          · exact hnotin (by rw [hq]; exact List.mem_append_left _ h1)
        intro t ht
        obtain ⟨w, hw, hwle⟩ := inv.closed c' v' hcl hnotin_old t ht
        exact ⟨w, hold t w hw, hwle⟩
    · exact absurd (by rw [hq]; exact List.mem_append_right _ hfΔ) hnotin
  · intro c₂ rest₂ hq2 f v h
    rw [hq] at hq2
    have hc₂mem : vc ≤ (JsMap.get? (Scoring.bfsVisit (vc + 1) dist rest
        ((JsMap.get? imports c).getD [])).1 c₂).getD 0 := by
      cases rest with
      | nil =>
          have hΔ : Δ = c₂ :: rest₂ := by simpa using hq2
          have h1 := (hdel c₂ (by rw [hΔ]; exact List.mem_cons_self _ _)).1
          rw [h1]
          simp
      | cons r rs =>
          have hrc : r = c₂ := by
            have hh := congrArg List.head? hq2
            simpa using hh
          subst hrc
          obtain ⟨v₂, hv₂⟩ := Option.isSome_iff_exists.mp
            (inv.queue_key r (List.mem_cons_of_mem _ (List.mem_cons_self _ _)))
          have hdvc : vc ≤ v₂ := by
            have hs := inv.sorted
            rw [List.map_cons, List.pairwise_cons] at hs
            have h2 := hs.1 ((JsMap.get? dist r).getD 0)
              (by rw [List.map_cons]; exact List.mem_cons_self _ _)
            rw [hvc, hv₂] at h2
            simpa using h2
          rw [hold r v₂ hv₂]
          simpa using hdvc
    have hvle : v ≤ vc + 1 := by
      rcases hnew f v h with hcl | ⟨rfl, _⟩
      · have hb := inv.bound c rest rfl f v hcl
        rw [hvc] at hb
        simpa using hb
      · omega
    omega
  · rw [hq, List.map_append]
    rw [List.pairwise_append]
    have hmap_rest : (rest.map (fun x =>
        (JsMap.get? (Scoring.bfsVisit (vc + 1) dist rest
          ((JsMap.get? imports c).getD [])).1 x).getD 0)) =
        (rest.map (fun x => (JsMap.get? dist x).getD 0)) := by
      apply List.map_congr_left
      intro x hx
      obtain ⟨v, hv⟩ := Option.isSome_iff_exists.mp
        (inv.queue_key x (List.mem_cons_of_mem _ hx))
      rw [hv, hold x v hv]
    refine ⟨?_, ?_, ?_⟩
    · rw [hmap_rest]
      have hs := inv.sorted
      rw [List.map_cons, List.pairwise_cons] at hs
      exact hs.2
    · apply pairwise_le_of_const _ (vc + 1)
      intro x hx
      obtain ⟨y, hy, rfl⟩ := List.mem_map.mp hx
      rw [(hdel y hy).1]
      rfl
    · intro a ha b hb
      obtain ⟨x, hx, rfl⟩ := List.mem_map.mp ha
      obtain ⟨y, hy, rfl⟩ := List.mem_map.mp hb
      obtain ⟨v, hv⟩ := Option.isSome_iff_exists.mp
        (inv.queue_key x (List.mem_cons_of_mem _ hx))
      rw [hold x v hv, (hdel y hy).1]
      have hb2 := inv.bound c rest rfl x v hv
      rw [hvc] at hb2
      simpa using hb2

theorem bfsLoop_inv (eps : List String) (imports : JsMap (List String))
    (hne : "" ∉ Scoring.bfsUniverse eps imports) :
    ∀ (fuel : ℕ) (dist : JsMap ℕ) (queue : List String),
    BfsInv eps imports dist queue →
    queue.length + ((Scoring.bfsUniverse eps imports).filter
      (fun s => !(JsMap.has dist s))).length < fuel →
    BfsInv eps imports (Scoring.bfsLoop imports fuel dist queue) [] := by
  intro fuel
  induction fuel with
  | zero =>
      intro dist queue _ hm
      omega
  | succ n ih =>
      intro dist queue inv hm
      cases queue with
      | nil => exact inv
      | cons c rest =>
          have hc_ne : ¬ (c = "") := by
            intro h0
            exact hne (h0 ▸ inv.queue_univ c (List.mem_cons_self _ _))
          obtain ⟨vc, hvc⟩ := Option.isSome_iff_exists.mp
            (inv.queue_key c (List.mem_cons_self _ _))
          have hsucc := bfsInv_step eps imports dist c rest inv vc hvc
          have hsubU : ∀ t ∈ (JsMap.get? imports c).getD [],
              t ∈ Scoring.bfsUniverse eps imports :=
            fun t ht => mem_bfsUniverse_of_succ eps imports c t ht
          have hnodup : (Scoring.bfsUniverse eps imports).Nodup := by
            unfold Scoring.bfsUniverse
            exact List.nodup_dedup _
          have hmeas := bfsVisit_measure (vc + 1) (Scoring.bfsUniverse eps imports)
            hnodup ((JsMap.get? imports c).getD []) hsubU dist rest
          rcases hvisit : Scoring.bfsVisit (vc + 1) dist rest
            ((JsMap.get? imports c).getD []) with ⟨d2, q2⟩
          rw [hvisit] at hsucc hmeas
          dsimp only at hsucc hmeas
          have hstep : Scoring.bfsLoop imports (n + 1) dist (c :: rest) =
              Scoring.bfsLoop imports n d2 q2 := by
            simp only [Scoring.bfsLoop]
            rw [if_neg hc_ne]
            simp only [hvc, Option.getD_some, hvisit]
          rw [hstep]
          apply ih d2 q2 hsucc
          simp only [List.length_cons] at hm
          omega

theorem bfsInv_init (eps : List String) (imports : JsMap (List String)) :
    BfsInv eps imports (eps.foldl (fun m ep => JsMap.set m ep 0) []) eps := by
  have hget : ∀ f, JsMap.get? (eps.foldl (fun m ep => JsMap.set m ep 0) []) f =
      if f ∈ eps then some 0 else none := by
    intro f
    rw [get?_foldl_set0]
    by_cases hf : f ∈ eps
    · rw [if_pos hf, if_pos hf]
    · rw [if_neg hf, if_neg hf]
      rfl
  refine ⟨?_, ?_, ?_, ?_, ?_, ?_, ?_⟩
  · intro f v h
    rw [hget f] at h
    by_cases hf : f ∈ eps
    · rw [if_pos hf] at h
      have : v = 0 := (Option.some_inj.mp h).symm
      subst this
      exact Reach.entry f hf
    · rw [if_neg hf] at h
      exact Option.noConfusion h
  · intro e he
    rw [hget e, if_pos he]
  · intro c hc
    rw [hget c, if_pos hc]
    rfl
  · intro c hc
    exact mem_bfsUniverse_of_eps eps imports c hc
  · intro c v h hnot
    rw [hget c] at h
    by_cases hc : c ∈ eps
    · exact absurd hc hnot
    · rw [if_neg hc] at h
      exact Option.noConfusion h
  · intro c₀ rest heq f v h
    rw [hget f] at h
    by_cases hf : f ∈ eps
    · rw [if_pos hf] at h
      have : v = 0 := (Option.some_inj.mp h).symm
      omega
    · rw [if_neg hf] at h
      exact Option.noConfusion h
  · apply pairwise_le_of_const _ 0
    intro x hx
    obtain ⟨e, he, rfl⟩ := List.mem_map.mp hx
    rw [hget e, if_pos he]
    rfl

theorem bfsInv_final_complete (eps : List String) (imports : JsMap (List String))
    (dist : JsMap ℕ) (inv : BfsInv eps imports dist []) :
    ∀ d f, Reach eps imports d f → ∃ w, w ≤ d ∧ JsMap.get? dist f = some w := by
  intro d f h
  induction h with
  | entry f hf => exact ⟨0, Nat.zero_le _, inv.entries0 f hf⟩
  | step d c f hc hf ih =>
      obtain ⟨w, hwd, hw⟩ := ih
      obtain ⟨w', hw', hle⟩ := inv.closed c w hw (List.not_mem_nil c) f hf
      exact ⟨w', by omega, hw'⟩

theorem computeEntrypointDistance_inv (eps : List String)
    (imports : JsMap (List String))
    (hne : "" ∉ Scoring.bfsUniverse eps imports) :
    BfsInv eps imports (Scoring.computeEntrypointDistance eps imports) [] := by
  unfold Scoring.computeEntrypointDistance
  dsimp only
  apply bfsLoop_inv eps imports hne _ _ _ (bfsInv_init eps imports)
  have hle : ((Scoring.bfsUniverse eps imports).filter
      (fun s => !(JsMap.has (eps.foldl (fun m ep => JsMap.set m ep 0) []) s))).length ≤
      (Scoring.bfsUniverse eps imports).length := List.length_filter_le _ _
  omega

theorem entrypointBonus_some_eq_spec (d : ℕ) :
    Scoring.entrypointBonus (some d) = specEntrypointBonus d := by
  show (if d = 0 then (90:ℚ) else if d = 1 then 35 else if d ≤ 3 then 18 - (d : ℚ) * 4 else 0) =
    specEntrypointBonus d
  unfold specEntrypointBonus
  by_cases h0 : d = 0
  · rw [if_pos h0, if_pos h0]
  · rw [if_neg h0, if_neg h0]
    by_cases h1 : d = 1
    · rw [if_pos h1, if_pos h1]
    · rw [if_neg h1, if_neg h1]
      by_cases h3 : d ≤ 3
      · have h23 : d = 2 ∨ d = 3 := by omega
        rw [if_pos h3, if_pos h23]
      · have h23 : ¬ (d = 2 ∨ d = 3) := by omega
        rw [if_neg h3, if_neg h23]

/-- **C8**: in Start Here scoring, the distance map computed by
`computeEntrypointDistance` assigns a file the value `d` exactly when `d`
is its breadth-first shortest forward-import-hop distance from the entry
points, and the additive candidate bonus is then exactly 90 at distance 0,
35 at distance 1, `18 - 4·d` at distance 2 or 3, and nothing at distance 4
or more or for unreachable files. (The source skips a falsy queue head, so
the empty string is assumed not to occur among entry points or import
targets.) -/
theorem C8_entrypoint_distance_bonus (eps : List String)
    (imports : JsMap (List String))
    (hne : "" ∉ Scoring.bfsUniverse eps imports) :
    (∀ f d, JsMap.get? (Scoring.computeEntrypointDistance eps imports) f = some d ↔
      IsMinDist eps imports f d) ∧
    (∀ f d, IsMinDist eps imports f d →
      Scoring.entrypointBonus
        (JsMap.get? (Scoring.computeEntrypointDistance eps imports) f) =
        specEntrypointBonus d) ∧
    (∀ f, (∀ d, ¬ Reach eps imports d f) →
      Scoring.entrypointBonus
        (JsMap.get? (Scoring.computeEntrypointDistance eps imports) f) = 0) := by
  have inv := computeEntrypointDistance_inv eps imports hne
  have hiff : ∀ f d,
      JsMap.get? (Scoring.computeEntrypointDistance eps imports) f = some d ↔
      IsMinDist eps imports f d := by
    intro f d
    constructor
    · intro h
      refine ⟨inv.sound f d h, ?_⟩
      intro e he
      obtain ⟨w, hwe, hw⟩ := bfsInv_final_complete eps imports _ inv e f he
      rw [h] at hw
      have : d = w := Option.some_inj.mp hw
      omega
    · rintro ⟨hr, hmin⟩
      obtain ⟨w, hwd, hw⟩ := bfsInv_final_complete eps imports _ inv d f hr
      have h1 : d ≤ w := hmin w (inv.sound f w hw)
      have h2 : w = d := by omega
      rw [← h2]
      exact hw
  refine ⟨hiff, ?_, ?_⟩
  · intro f d hmd
    rw [(hiff f d).mpr hmd]
    exact entrypointBonus_some_eq_spec d
  · intro f hunreach
    have hnone : JsMap.get? (Scoring.computeEntrypointDistance eps imports) f = none := by
      cases hg : JsMap.get? (Scoring.computeEntrypointDistance eps imports) f with
      | none => rfl
      | some v => exact absurd (inv.sound f v hg) (hunreach v)
    rw [hnone]
    rfl

/-- Witness for the C8 theorem at a one-edge import graph. -/
theorem C8_entrypoint_distance_bonus_witness :
    ("" ∉ Scoring.bfsUniverse c8EpsW c8ImportsW) ∧
    ((∀ f d, JsMap.get? (Scoring.computeEntrypointDistance c8EpsW c8ImportsW) f = some d ↔
      IsMinDist c8EpsW c8ImportsW f d) ∧
    (∀ f d, IsMinDist c8EpsW c8ImportsW f d →
      Scoring.entrypointBonus
        (JsMap.get? (Scoring.computeEntrypointDistance c8EpsW c8ImportsW) f) =
        specEntrypointBonus d) ∧
    (∀ f, (∀ d, ¬ Reach c8EpsW c8ImportsW d f) →
      Scoring.entrypointBonus
        (JsMap.get? (Scoring.computeEntrypointDistance c8EpsW c8ImportsW) f) = 0)) :=
  ⟨by decide, C8_entrypoint_distance_bonus c8EpsW c8ImportsW (by decide)⟩

theorem JsMap.length_set_le {β : Type} (m : JsMap β) (k : String) (v : β) :
    (JsMap.set m k v).length ≤ m.length + 1 := by
  induction m with
  | nil => simp [JsMap.set]
  | cons hd tl ih =>
      cases hd with
      | mk k₀ v₀ =>
          by_cases h : k₀ = k
          · simp [JsMap.set, h]
          · simp only [JsMap.set, if_neg h, List.length_cons]
            omega

theorem fileStep_fileCount (relPath name : String) (size : ℚ)
    (st : Indexer.IndexState) :
    (Indexer.fileStep relPath name size st).fileCount =
      if st.fileCount < Indexer.MAX_FILE_COUNT then st.fileCount + 1
      else st.fileCount := by
  unfold Indexer.fileStep
  dsimp only
  split_ifs <;> rfl

theorem fileStep_metadata_le (relPath name : String) (size : ℚ)
    (st : Indexer.IndexState) (hm : st.file_metadata.length ≤ st.fileCount) :
    (Indexer.fileStep relPath name size st).file_metadata.length ≤
      (Indexer.fileStep relPath name size st).fileCount := by
  unfold Indexer.fileStep
  dsimp only
  split_ifs with h1 h2 h3 <;> (try dsimp only) <;>
    first
      | exact hm
      | (refine le_trans (JsMap.length_set_le _ _ _) ?_
         omega)

theorem hasFileNode_self (q : String) :
    hasFileNode (FolderMapNode.node q "file" []) q = true := by
  simp [hasFileNode]

theorem hasFileNode_of_child (cs : List FolderMapNode) (p t q : String)
    (nd : FolderMapNode) (h1 : nd ∈ cs) (h2 : hasFileNode nd q = true) :
    hasFileNode (FolderMapNode.node p t cs) q = true := by
  simp only [hasFileNode]
  rw [Bool.or_eq_true]
  right
  rw [List.any_eq_true]
  exact ⟨⟨nd, h1⟩, List.mem_attach _ _, h2⟩


theorem stats_nil (relPath : String) (depth : ℕ) (st : Indexer.IndexState)
    (hc : st.fileCount ≤ Indexer.MAX_FILE_COUNT)
    (hm : st.file_metadata.length ≤ st.fileCount) :
    BuildStats [] relPath depth st := by
  unfold BuildStats
  simp only [Indexer.buildChildren, traversedFiles, List.length_nil]
  refine ⟨by omega, hm, ?_⟩
  intro p hp
  exact absurd hp (List.not_mem_nil p)

theorem stats_file_skip (name : String) (size : ℚ) (rest : List FsEntry)
    (relPath : String) (depth : ℕ) (st : Indexer.IndexState)
    (hskip : name = ".git" ∨ name = "node_modules")
    (ihr : BuildStats rest relPath depth st) :
    BuildStats (FsEntry.file name size :: rest) relPath depth st := by
  unfold BuildStats at ihr ⊢
  simp only [Indexer.buildChildren, traversedFiles]
  rw [if_pos hskip, if_pos hskip]
  exact ihr

theorem stats_dir_skip (name : String) (sub rest : List FsEntry)
    (relPath : String) (depth : ℕ) (st : Indexer.IndexState)
    (hskip : name = ".git" ∨ name = "node_modules")
    (ihr : BuildStats rest relPath depth st) :
    BuildStats (FsEntry.dir name sub :: rest) relPath depth st := by
  unfold BuildStats at ihr ⊢
  simp only [Indexer.buildChildren, traversedFiles]
  rw [if_pos hskip, if_pos hskip]
  exact ihr

theorem stats_file_noskip (name : String) (size : ℚ) (rest : List FsEntry)
    (relPath : String) (depth : ℕ) (st : Indexer.IndexState)
    (hskip : ¬ (name = ".git" ∨ name = "node_modules"))
    (hc : st.fileCount ≤ Indexer.MAX_FILE_COUNT)
    (ihr : BuildStats rest relPath depth (Indexer.fileStep relPath name size st)) :
    BuildStats (FsEntry.file name size :: rest) relPath depth st := by
  have hfc : (Indexer.fileStep relPath name size st).fileCount =
      min (st.fileCount + 1) Indexer.MAX_FILE_COUNT := by
    rw [fileStep_fileCount]
    split_ifs with h <;> omega
  unfold BuildStats at ihr ⊢
  obtain ⟨ihc, ihm, ihmem⟩ := ihr
  simp only [Indexer.buildChildren, traversedFiles]
  rw [if_neg hskip, if_neg hskip]
  rcases hbc : Indexer.buildChildren rest relPath depth
      (Indexer.fileStep relPath name size st) with ⟨nodes, st2⟩
  rw [hbc] at ihc ihm ihmem
  refine ⟨?_, ihm, ?_⟩
  · show st2.fileCount = _
    rw [List.length_cons]
    have hc2 : st2.fileCount = _ := ihc
    rw [hc2, hfc]
    omega
  · intro p hp
    rcases List.mem_cons.mp hp with hp' | hp'
    · refine ⟨FolderMapNode.node (Indexer.joinRel relPath name) "file" [],
        List.mem_cons_self _ _, ?_⟩
      rw [hp']
      exact hasFileNode_self _
    · obtain ⟨nd, hnd, hfn⟩ := ihmem p hp'
      exact ⟨nd, List.mem_cons_of_mem _ hnd, hfn⟩

theorem stats_dir_capped (name : String) (sub rest : List FsEntry)
    (relPath : String) (depth : ℕ) (st : Indexer.IndexState)
    (hskip : ¬ (name = ".git" ∨ name = "node_modules"))
    (hdepth : depth + 1 ≥ Indexer.MAX_DEPTH)
    (ihr : BuildStats rest relPath depth st) :
    BuildStats (FsEntry.dir name sub :: rest) relPath depth st := by
  unfold BuildStats at ihr ⊢
  obtain ⟨ihc, ihm, ihmem⟩ := ihr
  simp only [Indexer.buildChildren, Indexer.buildFolderMap, traversedFiles]
  rw [if_neg hskip, if_neg hskip, if_pos hdepth, if_pos hdepth, List.nil_append]
  rcases hbcr : Indexer.buildChildren rest relPath depth st with ⟨nodes, st2⟩
  rw [hbcr] at ihc ihm ihmem
  refine ⟨ihc, ihm, ?_⟩
  intro p hp
  obtain ⟨nd, hnd, hfn⟩ := ihmem p hp
  exact ⟨nd, List.mem_cons_of_mem _ hnd, hfn⟩

theorem stats_dir_noskip (name : String) (sub rest : List FsEntry)
    (relPath : String) (depth : ℕ) (st : Indexer.IndexState)
    (hskip : ¬ (name = ".git" ∨ name = "node_modules"))
    (hdepth : ¬ depth + 1 ≥ Indexer.MAX_DEPTH)
    (ihs : BuildStats sub (Indexer.joinRel relPath name) (depth + 1) st)
    (ihr : BuildStats rest relPath depth
      (Indexer.buildChildren sub (Indexer.joinRel relPath name) (depth + 1) st).2) :
    BuildStats (FsEntry.dir name sub :: rest) relPath depth st := by
  unfold BuildStats at ihs ihr ⊢
  obtain ⟨ihcs, ihms, ihmems⟩ := ihs
  obtain ⟨ihc, ihm, ihmem⟩ := ihr
  simp only [Indexer.buildChildren, Indexer.buildFolderMap, traversedFiles]
  rw [if_neg hskip, if_neg hskip, if_neg hdepth, if_neg hdepth]
  rcases hbcs : Indexer.buildChildren sub (Indexer.joinRel relPath name)
      (depth + 1) st with ⟨cs, st₁⟩
  rw [hbcs] at ihcs ihms ihmems ihc ihm ihmem
  rcases hbcr : Indexer.buildChildren rest relPath depth st₁ with ⟨nodes, st2⟩
  rw [hbcr] at ihc ihm ihmem
  refine ⟨?_, ihm, ?_⟩
  · show st2.fileCount = _
    rw [List.length_append]
    have h1 : st₁.fileCount = _ := ihcs
    have h2 : st2.fileCount = _ := ihc
    rw [h2, h1]
    omega
  · intro p hp
    rcases List.mem_append.mp hp with hp' | hp'
    · obtain ⟨nd, hnd, hfn⟩ := ihmems p hp'
      refine ⟨FolderMapNode.node
        (if Indexer.joinRel relPath name = "" then "."
         else Indexer.joinRel relPath name) "dir"
        (cs.insertionSort (fun a b => Indexer.folderCmp a b ≤ 0)),
        List.mem_cons_self _ _, ?_⟩
      apply hasFileNode_of_child _ _ _ _ nd ?_ hfn
      exact ((List.perm_insertionSort _ cs).mem_iff).mpr hnd
    · obtain ⟨nd, hnd, hfn⟩ := ihmem p hp'
      exact ⟨nd, List.mem_cons_of_mem _ hnd, hfn⟩

theorem buildChildren_stats (n : ℕ) : ∀ (entries : List FsEntry) (relPath : String)
    (depth : ℕ) (st : Indexer.IndexState),
    sizeOf entries ≤ n →
    st.fileCount ≤ Indexer.MAX_FILE_COUNT →
    st.file_metadata.length ≤ st.fileCount →
    BuildStats entries relPath depth st := by
  induction n with
  | zero =>
      intro entries relPath depth st hsz hc hm
      exfalso
      cases entries <;> simp [List.cons.sizeOf_spec] at hsz
  | succ n ih =>
      intro entries relPath depth st hsz hc hm
      cases entries with
      | nil => exact stats_nil relPath depth st hc hm
      | cons e rest =>
        have hsz1 : sizeOf rest ≤ n := by
          simp only [List.cons.sizeOf_spec] at hsz
          omega
        cases e with
        | file name size =>
          by_cases hskip : name = ".git" ∨ name = "node_modules"
          · exact stats_file_skip name size rest relPath depth st hskip
              (ih rest relPath depth st hsz1 hc hm)
          · have hc1 : (Indexer.fileStep relPath name size st).fileCount ≤
                Indexer.MAX_FILE_COUNT := by
              rw [fileStep_fileCount]
              split_ifs with h <;> omega
            have hm1 := fileStep_metadata_le relPath name size st hm
            exact stats_file_noskip name size rest relPath depth st hskip hc
              (ih rest relPath depth (Indexer.fileStep relPath name size st) hsz1 hc1 hm1)
        | dir name sub =>
          have hsz2 : sizeOf sub ≤ n := by
            simp only [List.cons.sizeOf_spec, FsEntry.dir.sizeOf_spec] at hsz
            omega
          by_cases hskip : name = ".git" ∨ name = "node_modules"
          · exact stats_dir_skip name sub rest relPath depth st hskip
              (ih rest relPath depth st hsz1 hc hm)
          · by_cases hdepth : depth + 1 ≥ Indexer.MAX_DEPTH
            · exact stats_dir_capped name sub rest relPath depth st hskip hdepth
                (ih rest relPath depth st hsz1 hc hm)
            · have ihs := ih sub (Indexer.joinRel relPath name) (depth + 1) st hsz2 hc hm
              have hc1 : (Indexer.buildChildren sub (Indexer.joinRel relPath name)
                  (depth + 1) st).2.fileCount ≤ Indexer.MAX_FILE_COUNT := by
                rw [ihs.1]
                omega
              exact stats_dir_noskip name sub rest relPath depth st hskip hdepth ihs
                (ih rest relPath depth
                  (Indexer.buildChildren sub (Indexer.joinRel relPath name)
                    (depth + 1) st).2 hsz1 hc1 ihs.2.1)

/-- **C9**: the Workspace Indexer records at most 10000 file-metadata
entries; the "Max file count reached; some files omitted" warning is
emitted exactly when the traversal visits at least 10000 files; and every
traversed file — also beyond the cap — appears as a file node in the
folder map. -/
theorem C9_indexer_file_cap (root : List FsEntry) (rc : List RunCommand) :
    (Indexer.runIndexingPipeline root rc).file_metadata.length ≤ 10000 ∧
    ("Max file count reached; some files omitted" ∈
        (Indexer.runIndexingPipeline root rc).warnings ↔
      10000 ≤ (traversedFiles root "." 0).length) ∧
    (∀ p ∈ traversedFiles root "." 0,
      hasFileNode (Indexer.runIndexingPipeline root rc).folder_map p = true) := by
  have hstats := buildChildren_stats (sizeOf root) root "." 0 ⟨0, [], [], []⟩
    (le_refl _) (Nat.zero_le _) (le_refl _)
  obtain ⟨hcount, hmeta, hmem⟩ := hstats
  rcases hbc : Indexer.buildChildren root "." 0 ⟨0, [], [], []⟩ with ⟨cs, stF⟩
  rw [hbc] at hcount hmeta hmem
  dsimp only at hcount hmeta hmem
  have hbf : Indexer.buildFolderMap root "." 0 ⟨0, [], [], []⟩ =
      (FolderMapNode.node "." "dir"
        (cs.insertionSort (fun a b => Indexer.folderCmp a b ≤ 0)), stF) := by
    simp only [Indexer.buildFolderMap]
    have h0 : ¬ ((0 : ℕ) ≥ Indexer.MAX_DEPTH) := by
      simp [Indexer.MAX_DEPTH]
    rw [if_neg h0, hbc]
    simp
  have hrun : Indexer.runIndexingPipeline root rc =
      { folder_map := FolderMapNode.node "." "dir"
          (cs.insertionSort (fun a b => Indexer.folderCmp a b ≤ 0))
        run_commands := rc
        contribute_signals := { key_docs := stF.key_docs, ci_configs := stF.ci_configs }
        file_metadata := stF.file_metadata
        key_docs := stF.key_docs
        ci_configs := stF.ci_configs
        warnings := if stF.fileCount ≥ Indexer.MAX_FILE_COUNT then
            ["Max file count reached; some files omitted"] else [] } := by
    unfold Indexer.runIndexingPipeline
    rw [hbf]
  rw [hrun]
  dsimp only
  have hmax : Indexer.MAX_FILE_COUNT = 10000 := rfl
  refine ⟨?_, ?_, ?_⟩
  · omega
  · by_cases hge : stF.fileCount ≥ Indexer.MAX_FILE_COUNT
    · rw [if_pos hge]
      constructor
      · intro _
        omega
      · intro _
        exact List.mem_cons_self _ _
    · rw [if_neg hge]
      constructor
      · intro h
        exact absurd h (List.not_mem_nil _)
      · intro hL
        exfalso
        omega
  · intro p hp
    obtain ⟨nd, hnd, hfn⟩ := hmem p hp
    apply hasFileNode_of_child _ _ _ _ nd ?_ hfn
    exact ((List.perm_insertionSort _ cs).mem_iff).mpr hnd

/-- Witness for the C9 theorem at a two-file workspace. -/
theorem C9_indexer_file_cap_witness :
    ("a/x.ts" ∈ traversedFiles c9RootW "." 0) ∧
    hasFileNode (Indexer.runIndexingPipeline c9RootW []).folder_map "a/x.ts" = true :=
  ⟨by simp [c9RootW, traversedFiles, Indexer.joinRel, Indexer.MAX_DEPTH],
   (C9_indexer_file_cap c9RootW []).2.2 "a/x.ts"
     (by simp [c9RootW, traversedFiles, Indexer.joinRel, Indexer.MAX_DEPTH])⟩

theorem tsjs_targetStep_mem (resolve : String → String → Option String)
    (pipeline : IndexingPipelineResult) (f : String) (ts : JsSet) (imp : String)
    (u : String) (hu : u ∈ TsJs.targetStep resolve pipeline f ts imp) :
    u ∈ ts ∨ JsMap.has pipeline.file_metadata u = true := by
  unfold TsJs.targetStep at hu
  cases hr : resolve f imp with
  | none =>
      rw [hr] at hu
      exact Or.inl hu
  | some r =>
      rw [hr] at hu
      dsimp only at hu
      by_cases hc : (!(r == "") && JsMap.has pipeline.file_metadata r &&
          !(TsJs.isIgnoredPath r)) = true
      · rw [if_pos hc] at hu
        rcases (JsSet.mem_add ts r u).mp hu with rfl | h'
        · right
          simp only [Bool.and_eq_true] at hc
          exact hc.1.2
        · exact Or.inl h'
      · rw [if_neg hc] at hu
        exact Or.inl hu

theorem tsjs_targetsOf_has (resolve : String → String → Option String)
    (pipeline : IndexingPipelineResult) (f : String) (specs : List String) :
    ∀ t ∈ TsJs.targetsOf resolve pipeline f specs,
      JsMap.has pipeline.file_metadata t = true := by
  unfold TsJs.targetsOf
  suffices h : ∀ (acc : JsSet),
      (∀ t ∈ acc, JsMap.has pipeline.file_metadata t = true) →
      ∀ t ∈ specs.foldl (TsJs.targetStep resolve pipeline f) acc,
        JsMap.has pipeline.file_metadata t = true by
    refine h [] ?_
    intro t ht
    exact absurd ht (List.not_mem_nil t)
  induction specs with
  | nil =>
      intro acc hacc t ht
      exact hacc t ht
  | cons s rest ih =>
      intro acc hacc t ht
      rw [List.foldl_cons] at ht
      refine ih (TsJs.targetStep resolve pipeline f acc s) ?_ t ht
      intro u hu
      rcases tsjs_targetStep_mem resolve pipeline f acc s u hu with h' | h'
      · exact hacc u h'
      · exact h'

theorem python_targetStep_mem (resolve : String → String → Option String)
    (pipeline : IndexingPipelineResult) (f : String) (ts : JsSet) (spec : String)
    (u : String) (hu : u ∈ Python.targetStep resolve pipeline f ts spec) :
    u ∈ ts ∨ JsMap.has pipeline.file_metadata u = true := by
  unfold Python.targetStep at hu
  cases hr : resolve f spec with
  | none =>
      rw [hr] at hu
      exact Or.inl hu
  | some r =>
      rw [hr] at hu
      dsimp only at hu
      by_cases hc : (!(r == "") && JsMap.has pipeline.file_metadata r &&
          !(Python.isIgnoredPath r)) = true
      · rw [if_pos hc] at hu
        rcases (JsSet.mem_add ts r u).mp hu with rfl | h'
        · right
          simp only [Bool.and_eq_true] at hc
          exact hc.1.2
        · exact Or.inl h'
      · rw [if_neg hc] at hu
        exact Or.inl hu

theorem python_targetsOf_has (resolve : String → String → Option String)
    (pipeline : IndexingPipelineResult) (f : String) (specs : List String) :
    ∀ t ∈ Python.targetsOf resolve pipeline f specs,
      JsMap.has pipeline.file_metadata t = true := by
  unfold Python.targetsOf
  suffices h : ∀ (acc : JsSet),
      (∀ t ∈ acc, JsMap.has pipeline.file_metadata t = true) →
      ∀ t ∈ specs.foldl (Python.targetStep resolve pipeline f) acc,
        JsMap.has pipeline.file_metadata t = true by
    refine h [] ?_
    intro t ht
    exact absurd ht (List.not_mem_nil t)
  induction specs with
  | nil =>
      intro acc hacc t ht
      exact hacc t ht
  | cons s rest ih =>
      intro acc hacc t ht
      rw [List.foldl_cons] at ht
      refine ih (Python.targetStep resolve pipeline f acc s) ?_ t ht
      intro u hu
      rcases python_targetStep_mem resolve pipeline f acc s u hu with h' | h'
      · exact hacc u h'
      · exact h'

theorem java_candStep_mem (pipeline : IndexingPipelineResult) (f : String)
    (ts : JsSet) (r u : String) (hu : u ∈ Java.candStep pipeline f ts r) :
    u ∈ ts ∨ (JsMap.has pipeline.file_metadata u = true ∧ u ≠ f) := by
  unfold Java.candStep at hu
  by_cases hc : (JsMap.has pipeline.file_metadata r && !(Java.isIgnoredPath r) &&
      !(r == f)) = true
  · rw [if_pos hc] at hu
    rcases (JsSet.mem_add ts r u).mp hu with rfl | h'
    · right
      simp only [Bool.and_eq_true, Bool.not_eq_eq_eq_not, Bool.not_true,
        beq_eq_false_iff_ne] at hc
      exact ⟨hc.1.1, hc.2⟩
    · exact Or.inl h'
  · rw [if_neg hc] at hu
    exact Or.inl hu

theorem java_targetStep_mem (resolve : String → List String)
    (pipeline : IndexingPipelineResult) (f : String) (ts : JsSet) (spec : String)
    (u : String) (hu : u ∈ Java.targetStep resolve pipeline f ts spec) :
    u ∈ ts ∨ (JsMap.has pipeline.file_metadata u = true ∧ u ≠ f) := by
  unfold Java.targetStep at hu
  suffices h : ∀ (rs : List String) (acc : JsSet),
      u ∈ rs.foldl (Java.candStep pipeline f) acc →
      u ∈ acc ∨ (JsMap.has pipeline.file_metadata u = true ∧ u ≠ f) from
    h (resolve spec) ts hu
  intro rs
  induction rs with
  | nil =>
      intro acc h
      exact Or.inl h
  | cons r rest ih =>
      intro acc h
      rw [List.foldl_cons] at h
      rcases ih (Java.candStep pipeline f acc r) h with h' | h'
      · exact java_candStep_mem pipeline f acc r u h'
      · exact Or.inr h'

theorem java_targetsOf_has (resolve : String → List String)
    (pipeline : IndexingPipelineResult) (f : String) (specs : List String) :
    ∀ t ∈ Java.targetsOf resolve pipeline f specs,
      JsMap.has pipeline.file_metadata t = true ∧ t ≠ f := by
  unfold Java.targetsOf
  suffices h : ∀ (acc : JsSet),
      (∀ t ∈ acc, JsMap.has pipeline.file_metadata t = true ∧ t ≠ f) →
      ∀ t ∈ specs.foldl (Java.targetStep resolve pipeline f) acc,
        JsMap.has pipeline.file_metadata t = true ∧ t ≠ f by
    refine h [] ?_
    intro t ht
    exact absurd ht (List.not_mem_nil t)
  induction specs with
  | nil =>
      intro acc hacc t ht
      exact hacc t ht
  | cons s rest ih =>
      intro acc hacc t ht
      rw [List.foldl_cons] at ht
      refine ih (Java.targetStep resolve pipeline f acc s) ?_ t ht
      intro u hu
      rcases java_targetStep_mem resolve pipeline f acc s u hu with h' | h'
      · exact hacc u h'
      · exact h'

theorem tsjs_imports_entry (extract : String → List String)
    (resolve : String → String → Option String)
    (pipeline : IndexingPipelineResult) (fsMap : JsMap String) (testFiles : JsSet) :
    ∀ (fl : List String) (st : PackMaps) (f : String) (ts : List String),
    JsMap.get? (fl.foldl (TsJs.packFileStep extract resolve pipeline fsMap testFiles)
      st).imports f = some ts →
    JsMap.get? st.imports f = some ts ∨
      (f ∈ fl ∧ ∃ content, JsMap.get? fsMap f = some content ∧
        ts = TsJs.targetsOf resolve pipeline f (extract content)) := by
  intro fl
  induction fl with
  | nil =>
      intro st f ts h
      exact Or.inl h
  | cons g fl' ih =>
      intro st f ts h
      rw [List.foldl_cons] at h
      rcases ih _ f ts h with h' | ⟨hmem, hrest⟩
      · unfold TsJs.packFileStep at h'
        cases hg : JsMap.get? fsMap g with
        | none =>
            rw [hg] at h'
            exact Or.inl h'
        | some content =>
            rw [hg] at h'
            dsimp only at h'
            by_cases hfg : g = f
            · subst hfg
              rw [JsMap.get?_set_self] at h'
              refine Or.inr ⟨List.mem_cons_self _ _, content, hg, ?_⟩
              exact (Option.some_inj.mp h').symm
            · rw [JsMap.get?_set_ne st.imports g f _ hfg] at h'
              exact Or.inl h'
      · exact Or.inr ⟨List.mem_cons_of_mem _ hmem, hrest⟩

theorem python_imports_entry (extract : String → List String)
    (resolve : String → String → Option String)
    (pipeline : IndexingPipelineResult) (fsMap : JsMap String) (testFiles : JsSet) :
    ∀ (fl : List String) (st : PackMaps) (f : String) (ts : List String),
    JsMap.get? (fl.foldl (Python.packFileStep extract resolve pipeline fsMap testFiles)
      st).imports f = some ts →
    JsMap.get? st.imports f = some ts ∨
      (f ∈ fl ∧ (ts = [] ∨ ∃ content, JsMap.get? fsMap f = some content ∧
        ts = Python.targetsOf resolve pipeline f (extract content))) := by
  intro fl
  induction fl with
  | nil =>
      intro st f ts h
      exact Or.inl h
  | cons g fl' ih =>
      intro st f ts h
      rw [List.foldl_cons] at h
      rcases ih _ f ts h with h' | ⟨hmem, hrest⟩
      · unfold Python.packFileStep at h'
        cases hg : JsMap.get? fsMap g with
        | none =>
            rw [hg] at h'
            dsimp only at h'
            by_cases hfg : g = f
            · subst hfg
              rw [JsMap.get?_set_self] at h'
              exact Or.inr ⟨List.mem_cons_self _ _,
                Or.inl (Option.some_inj.mp h').symm⟩
            · rw [JsMap.get?_set_ne st.imports g f _ hfg] at h'
              exact Or.inl h'
        | some content =>
            rw [hg] at h'
            dsimp only at h'
            by_cases hfg : g = f
            · subst hfg
              rw [JsMap.get?_set_self] at h'
              exact Or.inr ⟨List.mem_cons_self _ _,
                Or.inr ⟨content, hg, (Option.some_inj.mp h').symm⟩⟩
            · rw [JsMap.get?_set_ne st.imports g f _ hfg] at h'
              exact Or.inl h'
      · exact Or.inr ⟨List.mem_cons_of_mem _ hmem, hrest⟩

theorem java_imports_entry (extract : String → List String)
    (resolve : String → List String)
    (pipeline : IndexingPipelineResult) (fsMap : JsMap String) (testFiles : JsSet) :
    ∀ (fl : List String) (st : PackMaps) (f : String) (ts : List String),
    JsMap.get? (fl.foldl (Java.packFileStep extract resolve pipeline fsMap testFiles)
      st).imports f = some ts →
    JsMap.get? st.imports f = some ts ∨
      (f ∈ fl ∧ (ts = [] ∨ ∃ content, JsMap.get? fsMap f = some content ∧
        ts = Java.targetsOf resolve pipeline f (extract content))) := by
  intro fl
  induction fl with
  | nil =>
      intro st f ts h
      exact Or.inl h
  | cons g fl' ih =>
      intro st f ts h
      rw [List.foldl_cons] at h
      rcases ih _ f ts h with h' | ⟨hmem, hrest⟩
      · unfold Java.packFileStep at h'
        cases hg : JsMap.get? fsMap g with
        | none =>
            rw [hg] at h'
            dsimp only at h'
            by_cases hfg : g = f
            · subst hfg
              rw [JsMap.get?_set_self] at h'
              exact Or.inr ⟨List.mem_cons_self _ _,
                Or.inl (Option.some_inj.mp h').symm⟩
            · rw [JsMap.get?_set_ne st.imports g f _ hfg] at h'
              exact Or.inl h'
        | some content =>
            rw [hg] at h'
            dsimp only at h'
            by_cases hfg : g = f
            · subst hfg
              rw [JsMap.get?_set_self] at h'
              exact Or.inr ⟨List.mem_cons_self _ _,
                Or.inr ⟨content, hg, (Option.some_inj.mp h').symm⟩⟩
            · rw [JsMap.get?_set_ne st.imports g f _ hfg] at h'
              exact Or.inl h'
      · exact Or.inr ⟨List.mem_cons_of_mem _ hmem, hrest⟩

theorem mem_filter_keys_has (pipeline : IndexingPipelineResult)
    (p : String → Bool) (f : String)
    (h : f ∈ (JsMap.keys pipeline.file_metadata).filter p) :
    JsMap.has pipeline.file_metadata f = true :=
  (JsMap.has_iff_mem_keys _ _).mpr (List.mem_filter.mp h).1

/-- **C3** (amended): in every pack's import graph, each entry's source file
and every target are paths present in the indexer's file metadata; the
Java pack additionally never records a self-edge (`r !== f`), while the
TS/JS and Python packs have no such guard, so their graphs can contain
self-edges (see the counterexample). -/
theorem C3_import_graph_endpoints :
    (∀ (extract : String → List String) (resolve : String → String → Option String)
      (eps epw : List String) (fsMap : JsMap String)
      (pipeline : IndexingPipelineResult) (f : String) (ts : List String),
      JsMap.get? (TsJs.runTsJsPack extract resolve eps epw fsMap pipeline).imports f =
        some ts →
      JsMap.has pipeline.file_metadata f = true ∧
      ∀ t ∈ ts, JsMap.has pipeline.file_metadata t = true) ∧
    (∀ (extract : String → List String) (resolve : String → String → Option String)
      (eps : List String) (fsMap : JsMap String)
      (pipeline : IndexingPipelineResult) (f : String) (ts : List String),
      JsMap.get? (Python.runPythonPack extract resolve eps fsMap pipeline).imports f =
        some ts →
      JsMap.has pipeline.file_metadata f = true ∧
      ∀ t ∈ ts, JsMap.has pipeline.file_metadata t = true) ∧
    (∀ (extract : String → List String) (resolve : String → List String)
      (eps epw : List String) (fsMap : JsMap String)
      (pipeline : IndexingPipelineResult) (f : String) (ts : List String),
      JsMap.get? (Java.runJavaPack extract resolve eps epw fsMap pipeline).imports f =
        some ts →
      JsMap.has pipeline.file_metadata f = true ∧
      ∀ t ∈ ts, JsMap.has pipeline.file_metadata t = true ∧ t ≠ f) := by
  refine ⟨?_, ?_, ?_⟩
  · intro extract resolve eps epw fsMap pipeline f ts h
    unfold TsJs.runTsJsPack at h
    dsimp only at h
    rcases tsjs_imports_entry extract resolve pipeline fsMap _ _ _ f ts h with
      h' | ⟨hmem, content, hc, rfl⟩
    · exact absurd h' (by simp [emptyPackMaps, JsMap.get?])
    · exact ⟨mem_filter_keys_has pipeline _ f hmem,
        tsjs_targetsOf_has resolve pipeline f (extract content)⟩
  · intro extract resolve eps fsMap pipeline f ts h
    by_cases hlen : (Python.filesOf pipeline).length = 0
    · unfold Python.runPythonPack at h
      dsimp only at h
      rw [if_pos hlen] at h
      simp [JsMap.get?] at h
    · unfold Python.runPythonPack at h
      dsimp only at h
      rw [if_neg hlen] at h
      dsimp only at h
      rcases python_imports_entry extract resolve pipeline fsMap _ _ _ f ts h with
        h' | ⟨hmem, hcases⟩
      · exact absurd h' (by simp [emptyPackMaps, JsMap.get?])
      · refine ⟨mem_filter_keys_has pipeline _ f hmem, ?_⟩
        rcases hcases with rfl | ⟨content, hc, rfl⟩
        · intro t ht
          exact absurd ht (List.not_mem_nil t)
        · exact python_targetsOf_has resolve pipeline f (extract content)
  · intro extract resolve eps epw fsMap pipeline f ts h
    by_cases hlen : (Java.filesOf pipeline).length = 0
    · unfold Java.runJavaPack at h
      dsimp only at h
      rw [if_pos hlen] at h
      simp [JsMap.get?] at h
    · unfold Java.runJavaPack at h
      dsimp only at h
      rw [if_neg hlen] at h
      dsimp only at h
      rcases java_imports_entry extract resolve pipeline fsMap _ _ _ f ts h with
        h' | ⟨hmem, hcases⟩
      · exact absurd h' (by simp [emptyPackMaps, JsMap.get?])
      · refine ⟨mem_filter_keys_has pipeline _ f hmem, ?_⟩
        rcases hcases with rfl | ⟨content, hc, rfl⟩
        · intro t ht
          exact absurd ht (List.not_mem_nil t)
        · intro t ht
          obtain ⟨h1, h2⟩ := java_targetsOf_has resolve pipeline f (extract content) t ht
          exact ⟨h1, h2⟩

/-- Counterexample to C3 as stated: in the TS/JS pack a file can import
itself — `a.ts` containing `import "./a"` resolves to `a.ts`, which is in
the metadata, not ignored, and never compared against the importer — so
the claimed "no self-edges" invariant fails for the TS/JS (and Python)
graphs. -/
theorem C3_self_edge_counterexample :
    "a.ts" ∈ JsMap.getD
      (TsJs.runTsJsPack c3ExtractW c3ResolveW [] [] c3FsW c34PipelineW).imports
      "a.ts" [] := by
  decide

theorem JsMap.getD_set_self {β : Type} (m : JsMap β) (k : String) (v d : β) :
    JsMap.getD (JsMap.set m k v) k d = v := by
  unfold JsMap.getD
  rw [JsMap.get?_set_self]
  rfl

theorem JsMap.getD_set_ne {β : Type} (m : JsMap β) (k k' : String) (v d : β)
    (h : k ≠ k') : JsMap.getD (JsMap.set m k v) k' d = JsMap.getD m k' d := by
  unfold JsMap.getD
  rw [JsMap.get?_set_ne m k k' v h]

theorem JsMap.getD_eq_default_of_not_has {β : Type} (m : JsMap β) (k : String)
    (d : β) (h : JsMap.has m k = false) : JsMap.getD m k d = d := by
  unfold JsMap.getD
  unfold JsMap.has at h
  cases hg : JsMap.get? m k with
  | none => rfl
  | some v =>
      rw [hg] at h
      simp at h

theorem JsMap.set_eq_append {β : Type} (m : JsMap β) (k : String) (v : β)
    (h : JsMap.has m k = false) : JsMap.set m k v = m ++ [(k, v)] := by
  induction m with
  | nil => rfl
  | cons hd tl ih =>
      cases hd with
      | mk k₀ v₀ =>
          unfold JsMap.has JsMap.get? at h
          by_cases hk : k₀ = k
          · rw [if_pos hk] at h
            simp at h
          · rw [if_neg hk] at h
            show JsMap.set ((k₀, v₀) :: tl) k v = (k₀, v₀) :: (tl ++ [(k, v)])
            unfold JsMap.set
            rw [if_neg hk]
            rw [ih h]

theorem edgesInto_append (m : JsMap (List String)) (f : String) (ts : List String)
    (x : String) :
    edgesInto (m ++ [(f, ts)]) x = edgesInto m x + (if x ∈ ts then 1 else 0) := by
  unfold edgesInto
  rw [List.filter_append, List.length_append]
  congr 1
  by_cases hx : x ∈ ts
  · simp [hx]
  · simp [hx]

theorem JsSet.nodup_add (s : JsSet) (x : String) (h : s.Nodup) :
    (JsSet.add s x).Nodup := by
  unfold JsSet.add
  by_cases hx : x ∈ s
  · rw [if_pos hx]
    exact h
  · rw [if_neg hx]
    simp [List.nodup_append, h, hx]

theorem tsjs_targetStep_nodup (resolve : String → String → Option String)
    (pipeline : IndexingPipelineResult) (f : String) (ts : JsSet) (imp : String)
    (h : ts.Nodup) : (TsJs.targetStep resolve pipeline f ts imp).Nodup := by
  unfold TsJs.targetStep
  cases resolve f imp with
  | none => exact h
  | some r =>
      dsimp only
      split_ifs
      · exact JsSet.nodup_add ts r h
      · exact h

theorem tsjs_targetsOf_nodup (resolve : String → String → Option String)
    (pipeline : IndexingPipelineResult) (f : String) (specs : List String) :
    (TsJs.targetsOf resolve pipeline f specs).Nodup := by
  unfold TsJs.targetsOf
  suffices h : ∀ (acc : JsSet), acc.Nodup →
      (specs.foldl (TsJs.targetStep resolve pipeline f) acc).Nodup from
    h [] List.nodup_nil
  induction specs with
  | nil =>
      intro acc hacc
      exact hacc
  | cons s rest ih =>
      intro acc hacc
      rw [List.foldl_cons]
      exact ih _ (tsjs_targetStep_nodup resolve pipeline f acc s hacc)

theorem python_targetStep_nodup (resolve : String → String → Option String)
    (pipeline : IndexingPipelineResult) (f : String) (ts : JsSet) (spec : String)
    (h : ts.Nodup) : (Python.targetStep resolve pipeline f ts spec).Nodup := by
  unfold Python.targetStep
  cases resolve f spec with
  | none => exact h
  | some r =>
      dsimp only
      split_ifs
      · exact JsSet.nodup_add ts r h
      · exact h

theorem python_targetsOf_nodup (resolve : String → String → Option String)
    (pipeline : IndexingPipelineResult) (f : String) (specs : List String) :
    (Python.targetsOf resolve pipeline f specs).Nodup := by
  unfold Python.targetsOf
  suffices h : ∀ (acc : JsSet), acc.Nodup →
      (specs.foldl (Python.targetStep resolve pipeline f) acc).Nodup from
    h [] List.nodup_nil
  induction specs with
  | nil =>
      intro acc hacc
      exact hacc
  | cons s rest ih =>
      intro acc hacc
      rw [List.foldl_cons]
      exact ih _ (python_targetStep_nodup resolve pipeline f acc s hacc)

theorem fanInc_getD (ts : List String) :
    ts.Nodup → ∀ (m : JsMap ℚ) (x : String),
    JsMap.getD (ts.foldl (fun m t => JsMap.set m t (JsMap.getD m t 0 + 1)) m) x 0 =
      JsMap.getD m x 0 + (if x ∈ ts then 1 else 0) := by
  induction ts with
  | nil =>
      intro _ m x
      simp
  | cons t rest ih =>
      intro hnd m x
      rcases List.nodup_cons.mp hnd with ⟨ht_notin, hrest⟩
      rw [List.foldl_cons]
      rw [ih hrest _ x]
      by_cases hxt : x = t
      · subst hxt
        rw [JsMap.getD_set_self]
        have hx_rest : x ∉ rest := ht_notin
        simp [hx_rest, List.mem_cons]
      · rw [JsMap.getD_set_ne m t x _ _ (fun hh => hxt hh.symm)]
        by_cases hxr : x ∈ rest
        · simp [hxr, List.mem_cons, hxt]
        · simp [hxr, List.mem_cons, hxt]

theorem tsjs_fan_invariant (extract : String → List String)
    (resolve : String → String → Option String)
    (pipeline : IndexingPipelineResult) (fsMap : JsMap String) (testFiles : JsSet) :
    ∀ (fl : List String) (st : PackMaps),
    fl.Nodup →
    (∀ x, JsMap.has st.imports x = true → x ∉ fl) →
    (∀ x, JsMap.getD st.fanIn x 0 = (edgesInto st.imports x : ℚ)) →
    (∀ x, JsMap.getD st.fanOut x 0 = ((JsMap.getD st.imports x []).length : ℚ)) →
    (∀ x, JsMap.getD (fl.foldl (TsJs.packFileStep extract resolve pipeline fsMap
        testFiles) st).fanIn x 0 =
      (edgesInto (fl.foldl (TsJs.packFileStep extract resolve pipeline fsMap
        testFiles) st).imports x : ℚ)) ∧
    (∀ x, JsMap.getD (fl.foldl (TsJs.packFileStep extract resolve pipeline fsMap
        testFiles) st).fanOut x 0 =
      ((JsMap.getD (fl.foldl (TsJs.packFileStep extract resolve pipeline fsMap
        testFiles) st).imports x []).length : ℚ)) := by
  intro fl
  induction fl with
  | nil =>
      intro st _ _ h1 h2
      exact ⟨h1, h2⟩
  | cons g fl' ih =>
      intro st hnd hfresh h1 h2
      rcases List.nodup_cons.mp hnd with ⟨hg_notin, hnd'⟩
      rw [List.foldl_cons]
      have hg_has : JsMap.has st.imports g = false := by
        cases hx : JsMap.has st.imports g
        · rfl
        · exact absurd (List.mem_cons_self g fl') (hfresh g hx)
      cases hgc : JsMap.get? fsMap g with
      | none =>
          have hstep : TsJs.packFileStep extract resolve pipeline fsMap testFiles st g
              = st := by
            unfold TsJs.packFileStep
            rw [hgc]
          rw [hstep]
          refine ih st hnd' ?_ h1 h2
          intro x hx
          exact fun hmem => hfresh x hx (List.mem_cons_of_mem _ hmem)
      | some content =>
          have hstep : TsJs.packFileStep extract resolve pipeline fsMap testFiles st g
              = { imports := JsMap.set st.imports g
                    (TsJs.targetsOf resolve pipeline g (extract content))
                  fanIn := (TsJs.targetsOf resolve pipeline g
                    (extract content)).foldl
                      (fun m t => JsMap.set m t (JsMap.getD m t 0 + 1)) st.fanIn
                  fanOut := JsMap.set st.fanOut g
                    (((TsJs.targetsOf resolve pipeline g (extract content)).length : ℚ))
                  complexity := JsMap.set st.complexity g
                    (((TsJs.computeComplexitySignals content).score : ℚ))
                  loc := JsMap.set st.loc g
                    (((TsJs.computeComplexitySignals content).loc : ℚ))
                  maxNesting := JsMap.set st.maxNesting g
                    (((TsJs.computeComplexitySignals content).maxNesting : ℚ))
                  testProximity := JsMap.set st.testProximity g
                    ((TsJs.computeTestProximityScore g testFiles : ℚ)) } := by
            unfold TsJs.packFileStep
            rw [hgc]
          rw [hstep]
          set targets := TsJs.targetsOf resolve pipeline g (extract content) with htg
          refine ih _ hnd' ?_ ?_ ?_
          · intro x hx
            dsimp only at hx
            rw [JsMap.has_set] at hx
            rcases Bool.or_eq_true_iff.mp hx with hx' | hx'
            · have : g = x := by simpa using hx'
              subst this
              exact hg_notin
            · exact fun hmem => hfresh x hx' (List.mem_cons_of_mem _ hmem)
          · intro x
            dsimp only
            rw [fanInc_getD targets (tsjs_targetsOf_nodup resolve pipeline g
              (extract content)) st.fanIn x]
            rw [h1 x]
            rw [JsMap.set_eq_append st.imports g targets hg_has]
            rw [edgesInto_append st.imports g targets x]
            push_cast
            by_cases hx : x ∈ targets
            · simp [hx]
            · simp [hx]
          · intro x
            dsimp only
            by_cases hxg : x = g
            · subst hxg
              rw [JsMap.getD_set_self, JsMap.getD_set_self]
            · rw [JsMap.getD_set_ne st.fanOut g x _ _ (fun hh => hxg hh.symm),
                JsMap.getD_set_ne st.imports g x _ _ (fun hh => hxg hh.symm)]
              exact h2 x

theorem python_fan_invariant (extract : String → List String)
    (resolve : String → String → Option String)
    (pipeline : IndexingPipelineResult) (fsMap : JsMap String) (testFiles : JsSet) :
    ∀ (fl : List String) (st : PackMaps),
    fl.Nodup →
    (∀ x, JsMap.has st.imports x = true → x ∉ fl) →
    (∀ x, JsMap.getD st.fanIn x 0 = (edgesInto st.imports x : ℚ)) →
    (∀ x, JsMap.getD st.fanOut x 0 = ((JsMap.getD st.imports x []).length : ℚ)) →
    (∀ x, JsMap.getD (fl.foldl (Python.packFileStep extract resolve pipeline fsMap
        testFiles) st).fanIn x 0 =
      (edgesInto (fl.foldl (Python.packFileStep extract resolve pipeline fsMap
        testFiles) st).imports x : ℚ)) ∧
    (∀ x, JsMap.getD (fl.foldl (Python.packFileStep extract resolve pipeline fsMap
        testFiles) st).fanOut x 0 =
      ((JsMap.getD (fl.foldl (Python.packFileStep extract resolve pipeline fsMap
        testFiles) st).imports x []).length : ℚ)) ∧
    (∀ x ∈ fl, JsMap.has (fl.foldl (Python.packFileStep extract resolve pipeline fsMap
        testFiles) st).fanOut x = true) ∧
    (∀ x, JsMap.has st.fanOut x = true →
      JsMap.has (fl.foldl (Python.packFileStep extract resolve pipeline fsMap
        testFiles) st).fanOut x = true) := by
  intro fl
  induction fl with
  | nil =>
      intro st _ _ h1 h2
      refine ⟨h1, h2, ?_, ?_⟩
      · intro x hx
        exact absurd hx (List.not_mem_nil x)
      · intro x hx
        exact hx
  | cons g fl' ih =>
      intro st hnd hfresh h1 h2
      rcases List.nodup_cons.mp hnd with ⟨hg_notin, hnd'⟩
      rw [List.foldl_cons]
      have hg_has : JsMap.has st.imports g = false := by
        cases hx : JsMap.has st.imports g
        · rfl
        · exact absurd (List.mem_cons_self g fl') (hfresh g hx)
      have hmain : ∀ (targets : List String), targets.Nodup →
          ∀ (st₁ : PackMaps),
          st₁.imports = JsMap.set st.imports g targets →
          st₁.fanIn = targets.foldl
            (fun m t => JsMap.set m t (JsMap.getD m t 0 + 1)) st.fanIn →
          st₁.fanOut = JsMap.set st.fanOut g ((targets.length : ℚ)) →
          (∀ x, JsMap.getD (fl'.foldl (Python.packFileStep extract resolve pipeline
              fsMap testFiles) st₁).fanIn x 0 =
            (edgesInto (fl'.foldl (Python.packFileStep extract resolve pipeline
              fsMap testFiles) st₁).imports x : ℚ)) ∧
          (∀ x, JsMap.getD (fl'.foldl (Python.packFileStep extract resolve pipeline
              fsMap testFiles) st₁).fanOut x 0 =
            ((JsMap.getD (fl'.foldl (Python.packFileStep extract resolve pipeline
              fsMap testFiles) st₁).imports x []).length : ℚ)) ∧
          (∀ x ∈ fl', JsMap.has (fl'.foldl (Python.packFileStep extract resolve
              pipeline fsMap testFiles) st₁).fanOut x = true) ∧
          (∀ x, JsMap.has st₁.fanOut x = true →
            JsMap.has (fl'.foldl (Python.packFileStep extract resolve pipeline fsMap
              testFiles) st₁).fanOut x = true) := by
        intro targets hndt st₁ him hfi hfo
        refine ih st₁ hnd' ?_ ?_ ?_
        · intro x hx
          rw [him, JsMap.has_set] at hx
          rcases Bool.or_eq_true_iff.mp hx with hx' | hx'
          · have : g = x := by simpa using hx'
            subst this
            exact hg_notin
          · exact fun hmem => hfresh x hx' (List.mem_cons_of_mem _ hmem)
        · intro x
          rw [hfi, him]
          rw [fanInc_getD targets hndt st.fanIn x]
          rw [h1 x]
          rw [JsMap.set_eq_append st.imports g targets hg_has]
          rw [edgesInto_append st.imports g targets x]
          push_cast
          by_cases hx : x ∈ targets
          · simp [hx]
          · simp [hx]
        · intro x
          rw [hfo, him]
          by_cases hxg : x = g
          · subst hxg
            rw [JsMap.getD_set_self, JsMap.getD_set_self]
          · rw [JsMap.getD_set_ne st.fanOut g x _ _ (fun hh => hxg hh.symm),
              JsMap.getD_set_ne st.imports g x _ _ (fun hh => hxg hh.symm)]
            exact h2 x
      cases hgc : JsMap.get? fsMap g with
      | none =>
          have hstep := hmain [] List.nodup_nil
            (Python.packFileStep extract resolve pipeline fsMap testFiles st g)
            (by unfold Python.packFileStep; rw [hgc]; try rfl)
            (by unfold Python.packFileStep; rw [hgc]; try rfl)
            (by unfold Python.packFileStep; rw [hgc]; try rfl)
          obtain ⟨i1, i2, i3, i4⟩ := hstep
          refine ⟨i1, i2, ?_, ?_⟩
          · intro x hx
            rcases List.mem_cons.mp hx with rfl | hx'
            · refine i4 x ?_
              unfold Python.packFileStep
              rw [hgc]
              dsimp only
              rw [JsMap.has_set]
              simp
            · exact i3 x hx'
          · intro x hx
            refine i4 x ?_
            unfold Python.packFileStep
            rw [hgc]
            dsimp only
            rw [JsMap.has_set]
            simp [hx]
      | some content =>
          have hstep := hmain (Python.targetsOf resolve pipeline g (extract content))
            (python_targetsOf_nodup resolve pipeline g (extract content))
            (Python.packFileStep extract resolve pipeline fsMap testFiles st g)
            (by unfold Python.packFileStep; rw [hgc]; try rfl)
            (by unfold Python.packFileStep; rw [hgc]; try rfl)
            (by unfold Python.packFileStep; rw [hgc]; try rfl)
          obtain ⟨i1, i2, i3, i4⟩ := hstep
          refine ⟨i1, i2, ?_, ?_⟩
          · intro x hx
            rcases List.mem_cons.mp hx with rfl | hx'
            · refine i4 x ?_
              unfold Python.packFileStep
              rw [hgc]
              dsimp only
              rw [JsMap.has_set]
              simp
            · exact i3 x hx'
          · intro x hx
            refine i4 x ?_
            unfold Python.packFileStep
            rw [hgc]
            dsimp only
            rw [JsMap.has_set]
            simp [hx]

theorem backfill_getD (fl : List String) :
    ∀ (m : JsMap ℚ) (x : String),
    JsMap.getD (fl.foldl (fun m f => if JsMap.has m f then m else JsMap.set m f 0) m)
      x 0 = JsMap.getD m x 0 := by
  induction fl with
  | nil =>
      intro m x
      rfl
  | cons g fl' ih =>
      intro m x
      rw [List.foldl_cons, ih]
      by_cases hg : JsMap.has m g = true
      · rw [if_pos hg]
      · rw [if_neg hg]
        by_cases hxg : x = g
        · subst hxg
          rw [JsMap.getD_set_self]
          have hg' : JsMap.has m x = false := by
            cases hv : JsMap.has m x
            · rfl
            · exact absurd hv hg
          rw [JsMap.getD_eq_default_of_not_has m x 0 hg']
        · rw [JsMap.getD_set_ne m g x _ _ (fun hh => hxg hh.symm)]

theorem backfill_has_mono (fl : List String) :
    ∀ (m : JsMap ℚ) (x : String), JsMap.has m x = true →
    JsMap.has (fl.foldl (fun m f => if JsMap.has m f then m else JsMap.set m f 0) m)
      x = true := by
  induction fl with
  | nil =>
      intro m x hx
      exact hx
  | cons g fl' ih =>
      intro m x hx
      rw [List.foldl_cons]
      refine ih _ x ?_
      by_cases hg : JsMap.has m g = true
      · rw [if_pos hg]
        exact hx
      · rw [if_neg hg, JsMap.has_set]
        simp [hx]

theorem backfill_has_mem (fl : List String) :
    ∀ (m : JsMap ℚ) (x : String), x ∈ fl →
    JsMap.has (fl.foldl (fun m f => if JsMap.has m f then m else JsMap.set m f 0) m)
      x = true := by
  induction fl with
  | nil =>
      intro m x hx
      exact absurd hx (List.not_mem_nil x)
  | cons g fl' ih =>
      intro m x hx
      rw [List.foldl_cons]
      rcases List.mem_cons.mp hx with rfl | hx'
      · refine backfill_has_mono fl' _ x ?_
        by_cases hg : JsMap.has m x = true
        · rw [if_pos hg]
          exact hg
        · rw [if_neg hg, JsMap.has_set]
          simp
      · exact ih _ x hx'

theorem edgesInto_nil (x : String) : edgesInto [] x = 0 := rfl

/-- **C4** (amended): in the TS/JS pack the fan maps have the claimed
values under JavaScript `?? 0` defaulting — for every path, the defaulted
`fanIn` value counts exactly the import-graph edges targeting it and the
defaulted `fanOut` value is the size of its import entry — and in the
Python pack every file of the pack's file set moreover has an actual entry
in both maps (zero-backfill for `fanIn`, per-file `set` for `fanOut`). -/
theorem C4_fan_maps :
    (∀ (extract : String → List String) (resolve : String → String → Option String)
      (eps epw : List String) (fsMap : JsMap String)
      (pipeline : IndexingPipelineResult),
      (JsMap.keys pipeline.file_metadata).Nodup →
      ∀ x,
        JsMap.getD (TsJs.runTsJsPack extract resolve eps epw fsMap pipeline).fanIn
            x 0 =
          (edgesInto (TsJs.runTsJsPack extract resolve eps epw fsMap
            pipeline).imports x : ℚ) ∧
        JsMap.getD (TsJs.runTsJsPack extract resolve eps epw fsMap pipeline).fanOut
            x 0 =
          ((JsMap.getD (TsJs.runTsJsPack extract resolve eps epw fsMap
            pipeline).imports x []).length : ℚ)) ∧
    (∀ (extract : String → List String) (resolve : String → String → Option String)
      (eps : List String) (fsMap : JsMap String)
      (pipeline : IndexingPipelineResult),
      (JsMap.keys pipeline.file_metadata).Nodup →
      ∀ x ∈ Python.filesOf pipeline,
        JsMap.has (Python.runPythonPack extract resolve eps fsMap pipeline).fanIn
            x = true ∧
        JsMap.has (Python.runPythonPack extract resolve eps fsMap pipeline).fanOut
            x = true ∧
        JsMap.getD (Python.runPythonPack extract resolve eps fsMap pipeline).fanIn
            x 0 =
          (edgesInto (Python.runPythonPack extract resolve eps fsMap
            pipeline).imports x : ℚ) ∧
        JsMap.getD (Python.runPythonPack extract resolve eps fsMap pipeline).fanOut
            x 0 =
          ((JsMap.getD (Python.runPythonPack extract resolve eps fsMap
            pipeline).imports x []).length : ℚ)) := by
  constructor
  · intro extract resolve eps epw fsMap pipeline hnd x
    unfold TsJs.runTsJsPack
    dsimp only
    have hinv := tsjs_fan_invariant extract resolve pipeline fsMap
      ((TsJs.filesOf pipeline).foldl (fun s f =>
        if TsJs.isTestPath (normalizeRelPath f) then JsSet.add s f else s) [])
      (TsJs.filesOf pipeline) emptyPackMaps
      (hnd.filter _)
      (by intro y hy; simp [emptyPackMaps, JsMap.has, JsMap.get?] at hy)
      (by intro y; simp [emptyPackMaps, JsMap.getD, JsMap.get?, edgesInto])
      (by intro y; simp [emptyPackMaps, JsMap.getD, JsMap.get?])
    exact ⟨hinv.1 x, hinv.2 x⟩
  · intro extract resolve eps fsMap pipeline hnd x hx
    by_cases hlen : (Python.filesOf pipeline).length = 0
    · rw [List.length_eq_zero.mp hlen] at hx
      exact absurd hx (List.not_mem_nil x)
    · unfold Python.runPythonPack
      dsimp only
      rw [if_neg hlen]
      dsimp only
      have hinv := python_fan_invariant extract resolve pipeline fsMap
        ((Python.filesOf pipeline).foldl (fun s f =>
          if Python.isTestPath (normalizeRelPath f) then JsSet.add s f else s) [])
        (Python.filesOf pipeline) emptyPackMaps
        (hnd.filter _)
        (by intro y hy; simp [emptyPackMaps, JsMap.has, JsMap.get?] at hy)
        (by intro y; simp [emptyPackMaps, JsMap.getD, JsMap.get?, edgesInto])
        (by intro y; simp [emptyPackMaps, JsMap.getD, JsMap.get?])
      obtain ⟨i1, i2, i3, _⟩ := hinv
      refine ⟨?_, ?_, ?_, ?_⟩
      · exact backfill_has_mem (Python.filesOf pipeline) _ x hx
      · exact i3 x hx
      · rw [backfill_getD (Python.filesOf pipeline) _ x]
        exact i1 x
      · exact i2 x

/-- Counterexample to C4 as stated: in the TS/JS pack a file that nothing
imports never receives a `fanIn` entry — `a.ts` is in the pack's file set
but the returned `fanIn` map has no entry for it. -/
theorem C4_missing_fanIn_counterexample :
    "a.ts" ∈ TsJs.filesOf c34PipelineW ∧
    JsMap.get? (TsJs.runTsJsPack c4ExtractW c4ResolveW [] [] c4FsW
      c34PipelineW).fanIn "a.ts" = none := by
  refine ⟨by decide, by decide⟩

/-- Witness for the C4 theorem: a readable import-free TS file and an
unreadable Python file, with the key-list Nodup hypotheses and the Python
file-set membership discharged concretely. -/
theorem C4_fan_maps_witness :
    ((JsMap.keys c34PipelineW.file_metadata).Nodup ∧
      (JsMap.getD (TsJs.runTsJsPack c4ExtractW c4ResolveW [] [] c4FsW
          c34PipelineW).fanIn "a.ts" 0 =
        (edgesInto (TsJs.runTsJsPack c4ExtractW c4ResolveW [] [] c4FsW
          c34PipelineW).imports "a.ts" : ℚ) ∧
      JsMap.getD (TsJs.runTsJsPack c4ExtractW c4ResolveW [] [] c4FsW
          c34PipelineW).fanOut "a.ts" 0 =
        ((JsMap.getD (TsJs.runTsJsPack c4ExtractW c4ResolveW [] [] c4FsW
          c34PipelineW).imports "a.ts" []).length : ℚ))) ∧
    ((JsMap.keys c4PyPipelineW.file_metadata).Nodup ∧
      "m.py" ∈ Python.filesOf c4PyPipelineW ∧
      (JsMap.has (Python.runPythonPack c4ExtractW c4ResolveW [] [] c4PyPipelineW).fanIn
          "m.py" = true ∧
      JsMap.has (Python.runPythonPack c4ExtractW c4ResolveW [] [] c4PyPipelineW).fanOut
          "m.py" = true ∧
      JsMap.getD (Python.runPythonPack c4ExtractW c4ResolveW [] []
          c4PyPipelineW).fanIn "m.py" 0 =
        (edgesInto (Python.runPythonPack c4ExtractW c4ResolveW [] []
          c4PyPipelineW).imports "m.py" : ℚ) ∧
      JsMap.getD (Python.runPythonPack c4ExtractW c4ResolveW [] []
          c4PyPipelineW).fanOut "m.py" 0 =
        ((JsMap.getD (Python.runPythonPack c4ExtractW c4ResolveW [] []
          c4PyPipelineW).imports "m.py" []).length : ℚ))) :=
  ⟨⟨by decide, C4_fan_maps.1 c4ExtractW c4ResolveW [] [] c4FsW c34PipelineW
      (by decide) "a.ts"⟩,
   ⟨by decide, by decide, C4_fan_maps.2 c4ExtractW c4ResolveW [] [] c4PyPipelineW
      (by decide) "m.py" (by decide)⟩⟩

end RepoAtlas
